import Mathlib

/-!
# Voxel realtime server: hub, connection queues and game sessions

A shallow embedding of `server/internal/ws/hub.go`,
`server/internal/ws/session_manager.go`, the parts of
`server/internal/ws/client.go` that touch the hub, and the data types of
`server/internal/data/models.go`.

Modelling conventions.

* A `*Client` is an address (`Ptr`); the client objects live in `Hub.mem`.
* A Go map is an association list.  The loops over the live set visit it in
  list order, and a theorem shows that the order does not matter to a
  broadcast; the loop of the replay takes the order in which the runtime
  visits the position cache as an argument.
* A buffered channel is its buffer, its capacity and its closed flag.  A
  goroutine that panics yields a `Halt`.
* The hub runs beside other goroutines.  Between two events of its loop, and
  each time it attempts a blocking send, the writers may receive, a reader may
  assign a session and a reader may run `HandleCreateEvent`; a registration
  carries the schedule of what they do at each attempt.  When the queue is
  full the hub parks and tries again after the next step of the schedule; when
  the schedule is exhausted nobody acts any more and the hub stays parked
  (`Halt.blocked`).  The other statements of the hub are atomic: a reader
  touching the live set in the middle of them is a data race, which this
  embedding does not describe.
* `float64` values are integers and `time.Time` values are naturals: no
  arithmetic is performed on either.
* A frame (`[]byte`) is either bytes that `json.Unmarshal` rejects or the
  encoding of an envelope.
* The event store and the clock are outside the program: their answers are
  arguments of the functions that consult them.
-/

namespace Voxel

/-! ## Data model (`data/models.go`, `ws/client.go`) -/

/-- The value of a field of a decoded JSON object (`interface{}`): the Go
dynamic types `nil`, `bool`, `float64`, `string`, and arrays or nested objects
(kept as text, the code never looks inside them). -/
inductive JVal where
  | null
  | bool (b : Bool)
  | num (n : Int)
  | str (s : String)
  | nested (text : String)
  deriving DecidableEq, Repr

/-- A decoded JSON object, `map[string]interface{}`. -/
abbrev JObj := List (String × JVal)

/-- The struct `data.GameSession`. -/
structure GameSession where
  ID : String
  HostID : String
  GameType : String
  State : String
  Players : List String
  CreatedAt : Nat
  deriving DecidableEq, Repr

/-- The struct `data.VoxelEvent`. -/
structure VoxelEvent where
  ID : String
  Title : String
  Description : String
  X : Int
  Y : Int
  CreatorID : String
  StartTime : Nat
  TicketPrice : Int
  HasTickets : Bool
  VoxelTheme : String
  CreatedAt : Nat
  deriving DecidableEq, Repr

def GameStateLobby : String := "LOBBY"

def GameStatePlaying : String := "PLAYING"

def GameStateFinished : String := "FINISHED"

/-- The dynamic value held by `Message.Payload` (`interface{}`): what the
decoder produces (an object or another JSON value) or a value the server is
about to encode (a session, an event, a list of events). -/
inductive Payload where
  | object (fields : JObj)
  | scalar (v : JVal)
  | session (s : GameSession)
  | event (e : VoxelEvent)
  | events (es : List VoxelEvent)
  deriving DecidableEq, Repr

/-- The struct `ws.Message`: the envelope; `Typ` is its field `Type`. -/
structure Message where
  Typ : String
  Payload : Payload
  deriving DecidableEq, Repr

/-- A frame, `[]byte`. -/
inductive Bytes where
  | garbage (text : String)
  | json (m : Message)
  deriving DecidableEq, Repr

/-- The call `json.Marshal(m)`. -/
def marshal (m : Message) : Bytes := Bytes.json m

/-- The JSON object written for a `data.GameSession`, read back as a
`map[string]interface{}`; the array of players and the time are kept as text. -/
def GameSession.toJObj (s : GameSession) : JObj :=
  [("id", JVal.str s.ID), ("hostId", JVal.str s.HostID), ("gameType", JVal.str s.GameType),
   ("state", JVal.str s.State), ("players", JVal.nested (String.intercalate "," s.Players)),
   ("createdAt", JVal.str (Nat.repr s.CreatedAt))]

/-- The JSON object written for a `data.VoxelEvent`, read back as a
`map[string]interface{}`; the times are kept as text. -/
def VoxelEvent.toJObj (e : VoxelEvent) : JObj :=
  [("id", JVal.str e.ID), ("title", JVal.str e.Title), ("description", JVal.str e.Description),
   ("x", JVal.num e.X), ("y", JVal.num e.Y), ("creatorId", JVal.str e.CreatorID),
   ("startTime", JVal.str (Nat.repr e.StartTime)), ("ticketPrice", JVal.num e.TicketPrice),
   ("hasTickets", JVal.bool e.HasTickets), ("voxelTheme", JVal.str e.VoxelTheme),
   ("createdAt", JVal.str (Nat.repr e.CreatedAt))]

/-- What the decoder stores in a field of type `interface{}`: a struct that was
encoded comes back as a map, a slice as an array. -/
def decodePayload : Payload → Payload
  | Payload.object fields => Payload.object fields
  | Payload.scalar v => Payload.scalar v
  | Payload.session s => Payload.object s.toJObj
  | Payload.event e => Payload.object e.toJObj
  | Payload.events _ => Payload.scalar (JVal.nested "events")

/-- The call `json.Unmarshal(b, &msg)`; `none` is a decoding error. -/
def unmarshal : Bytes → Option Message
  | Bytes.garbage _ => none
  | Bytes.json m => some { Typ := m.Typ, Payload := decodePayload m.Payload }

/-- An address of a `Client` object. -/
abbrev Ptr := Nat

/-- Why the goroutine executing the code stops. -/
inductive Halt where
  | sendOnClosed
  | closeOfClosed
  | typeAssertion
  | blocked
  deriving DecidableEq, Repr

/-- A buffered channel `chan []byte`. -/
structure Chan where
  buf : List Bytes
  cap : Nat
  closed : Bool
  deriving DecidableEq, Repr

/-- The struct `ws.Client` without its transport handle. -/
structure Client where
  UserID : String
  SessionID : String
  Send : Chan
  deriving DecidableEq, Repr

/-- The struct `ws.BroadcastMessage`; `Exclude = none` is the nil pointer. -/
structure BroadcastMessage where
  Message : Bytes
  Exclude : Option Ptr
  deriving DecidableEq, Repr

/-- The state owned by the hub goroutine, `ws.Hub`, with the client heap. -/
structure Hub where
  Clients : List Ptr
  UserPositions : List (String × JObj)
  mem : Ptr → Client

/-! ## Go maps as association lists -/

/-- The lookup `v, ok := m[k]`. -/
def mapGet {β : Type} : List (String × β) → String → Option β
  | [], _ => none
  | (k', v) :: rest, k => if k' = k then some v else mapGet rest k

/-- The assignment `m[k] = v`. -/
def mapSet {β : Type} : List (String × β) → String → β → List (String × β)
  | [], k, v => [(k, v)]
  | (k', v') :: rest, k, v =>
    if k' = k then (k, v) :: rest else (k', v') :: mapSet rest k v

/-- The statement `delete(m, k)`. -/
def mapDelete {β : Type} (m : List (String × β)) (k : String) : List (String × β) :=
  m.filter (fun kv => decide (kv.1 ≠ k))

/-- The keys of a map. -/
def mapKeys {β : Type} (m : List (String × β)) : List String :=
  m.map Prod.fst

/-! ## Channels -/

/-- Whether a send can proceed without a receiver: the buffer has a free slot. -/
def Chan.hasRoom (c : Chan) : Bool := decide (c.buf.length < c.cap)

/-- The statement `select { case c <- m: default: }`: `some` is the channel
after the send, `none` is the default branch. -/
def Chan.trySend (c : Chan) (m : Bytes) : Except Halt (Option Chan) :=
  if c.closed then Except.error Halt.sendOnClosed
  else if c.hasRoom then Except.ok (some { c with buf := c.buf ++ [m] })
  else Except.ok none

/-- The statement `close(c)`. -/
def Chan.close (c : Chan) : Except Halt Chan :=
  if c.closed then Except.error Halt.closeOfClosed
  else Except.ok { c with closed := true }

/-- The receive `message, ok := <-c` of the writer, when it does not park. -/
def Chan.recv (c : Chan) : Chan := { c with buf := c.buf.tail }

/-! ## The hub (`ws/hub.go`) -/

/-- Store `ch` as the `Send` field of the client at `p`. -/
def setSend (mem : Ptr → Client) (p : Ptr) (ch : Chan) : Ptr → Client :=
  fun q => if q = p then { mem p with Send := ch } else mem q

/-- Store `sid` as the `SessionID` field of the client at `p`. -/
def setSession (mem : Ptr → Client) (p : Ptr) (sid : String) : Ptr → Client :=
  fun q => if q = p then { mem p with SessionID := sid } else mem q

/-- The constructor `NewHub`: no client, no position.  The heap holds no
client yet; an address that was never allocated reads as an empty object. -/
def NewHub : Hub :=
  { Clients := []
    UserPositions := []
    mem := fun _ => { UserID := "", SessionID := "", Send := { buf := [], cap := 0, closed := false } } }

/-- The body shared by both broadcast loops for one recipient:
`select { case client.Send <- message: default: close(client.Send);
delete(h.Clients, client) }`. -/
def Hub.deliver (h : Hub) (client : Ptr) (message : Bytes) : Except Halt Hub :=
  match (h.mem client).Send.trySend message with
  | Except.error e => Except.error e
  | Except.ok (some ch) => Except.ok { h with mem := setSend h.mem client ch }
  | Except.ok none =>
    match (h.mem client).Send.close with
    | Except.error e => Except.error e
    | Except.ok ch =>
      Except.ok { h with mem := setSend h.mem client ch
                         Clients := h.Clients.filter (fun q => decide (q ≠ client)) }

/-- The loop of `Hub.broadcastToSession` over the keys still to visit. -/
def Hub.broadcastToSessionLoop (message : Bytes) (sessionID : String) (exclude : Option Ptr) :
    List Ptr → Hub → Except Halt Hub
  | [], h => Except.ok h
  | client :: rest, h =>
    if (h.mem client).SessionID = sessionID ∧ some client ≠ exclude then
      match h.deliver client message with
      | Except.error e => Except.error e
      | Except.ok h' => Hub.broadcastToSessionLoop message sessionID exclude rest h'
    else Hub.broadcastToSessionLoop message sessionID exclude rest h

/-- The method `Hub.broadcastToSession`. -/
def Hub.broadcastToSession (h : Hub) (message : Bytes) (sessionID : String)
    (exclude : Option Ptr) : Except Halt Hub :=
  Hub.broadcastToSessionLoop message sessionID exclude h.Clients h

/-- The loop of `Hub.broadcastMessage` over the keys still to visit. -/
def Hub.broadcastMessageLoop (message : Bytes) (exclude : Option Ptr) :
    List Ptr → Hub → Except Halt Hub
  | [], h => Except.ok h
  | client :: rest, h =>
    if some client = exclude then Hub.broadcastMessageLoop message exclude rest h
    else
      match h.deliver client message with
      | Except.error e => Except.error e
      | Except.ok h' => Hub.broadcastMessageLoop message exclude rest h'

/-- The method `Hub.broadcastMessage`. -/
def Hub.broadcastMessage (h : Hub) (message : Bytes) (exclude : Option Ptr) : Except Halt Hub :=
  Hub.broadcastMessageLoop message exclude h.Clients h

/-- The envelope announcing that `userID` left. -/
def leaveMessage (userID : String) : Bytes :=
  marshal { Typ := "leave", Payload := Payload.object [("userId", JVal.str userID)] }

/-- The case `client := <-h.Unregister` of `Hub.Run`. -/
def Hub.onUnregister (h : Hub) (client : Ptr) : Except Halt Hub :=
  if client ∈ h.Clients then
    let userID := (h.mem client).UserID
    let h1 : Hub := { h with Clients := h.Clients.filter (fun q => decide (q ≠ client)) }
    let h2 : Hub := { h1 with UserPositions := mapDelete h1.UserPositions userID }
    match (h2.mem client).Send.close with
    | Except.error e => Except.error e
    | Except.ok ch =>
      let h3 : Hub := { h2 with mem := setSend h2.mem client ch }
      let msg := leaveMessage userID
      if (h3.mem client).SessionID ≠ "" then
        h3.broadcastToSession msg (h3.mem client).SessionID none
      else
        h3.broadcastMessage msg none
  else Except.ok h

/-- The test on `msg.Typ` that selects the session-scoped branch. -/
def isScopedType (t : String) : Bool :=
  t = "move" || t = "audio" || t = "webrtc_offer" || t = "webrtc_answer" ||
    t = "webrtc_ice_candidate"

/-- The update of the position cache for a `move` envelope:
`if payload, ok := msg.Payload.(map[string]interface{}); ok {
   if userID, ok := payload["userId"].(string); ok && userID != "" {
     h.UserPositions[userID] = payload } }`. -/
def Hub.cacheMove (h : Hub) (msg : Message) : Hub :=
  if msg.Typ = "move" then
    match msg.Payload with
    | Payload.object payload =>
      match mapGet payload "userId" with
      | some (JVal.str userID) =>
        if userID ≠ "" then { h with UserPositions := mapSet h.UserPositions userID payload }
        else h
      | _ => h
    | _ => h
  else h

/-- The case `bm := <-h.Broadcast` of `Hub.Run`. -/
def Hub.onBroadcast (h : Hub) (bm : BroadcastMessage) : Except Halt Hub :=
  match unmarshal bm.Message with
  | none => Except.ok h
  | some msg =>
    if isScopedType msg.Typ then
      let h1 := h.cacheMove msg
      match bm.Exclude with
      | some ex => h1.broadcastToSession bm.Message (h1.mem ex).SessionID (some ex)
      | none => Except.ok h1
    else h.broadcastMessage bm.Message bm.Exclude

/-! ## Typed handler (`ws/hub.go`) -/

/-- The assertion `payload[k].(string)`, which panics when it fails. -/
def assertString (payload : JObj) (k : String) : Except Halt String :=
  match mapGet payload k with
  | some (JVal.str s) => Except.ok s
  | _ => Except.error Halt.typeAssertion

/-- The assertion `payload[k].(float64)`, which panics when it fails. -/
def assertFloat (payload : JObj) (k : String) : Except Halt Int :=
  match mapGet payload k with
  | some (JVal.num n) => Except.ok n
  | _ => Except.error Halt.typeAssertion

/-- The assertion `payload[k].(bool)`, which panics when it fails. -/
def assertBool (payload : JObj) (k : String) : Except Halt Bool :=
  match mapGet payload k with
  | some (JVal.bool b) => Except.ok b
  | _ => Except.error Halt.typeAssertion

/-- The composite literal `data.VoxelEvent{...}` of `Hub.HandleCreateEvent`,
its fields evaluated in source order; `t1` and `t2` are the two values of
`time.Now()`. -/
def parseVoxelEvent (payload : JObj) (t1 t2 : Nat) : Except Halt VoxelEvent :=
  match assertString payload "title" with
  | Except.error e => Except.error e
  | Except.ok title =>
  match assertString payload "description" with
  | Except.error e => Except.error e
  | Except.ok description =>
  match assertFloat payload "x" with
  | Except.error e => Except.error e
  | Except.ok x =>
  match assertFloat payload "y" with
  | Except.error e => Except.error e
  | Except.ok y =>
  match assertString payload "creatorId" with
  | Except.error e => Except.error e
  | Except.ok creatorId =>
  match assertFloat payload "ticketPrice" with
  | Except.error e => Except.error e
  | Except.ok ticketPrice =>
  match assertBool payload "hasTickets" with
  | Except.error e => Except.error e
  | Except.ok hasTickets =>
  match assertString payload "voxelTheme" with
  | Except.error e => Except.error e
  | Except.ok voxelTheme =>
    Except.ok
      { ID := "", Title := title, Description := description, X := x, Y := y
        CreatorID := creatorId, StartTime := t1, TicketPrice := ticketPrice
        HasTickets := hasTickets, VoxelTheme := voxelTheme, CreatedAt := t2 }

/-- The method `Hub.HandleCreateEvent`; `inserted` tells whether
`collection.InsertOne` succeeded. -/
def Hub.HandleCreateEvent (h : Hub) (payload : JObj) (t1 t2 : Nat) (inserted : Bool) :
    Except Halt Hub :=
  match parseVoxelEvent payload t1 t2 with
  | Except.error e => Except.error e
  | Except.ok event =>
    if inserted then
      h.broadcastMessage (marshal { Typ := "event_created", Payload := Payload.event event }) none
    else Except.ok h

/-! ## The other goroutines -/

/-- What the other goroutines do to the state the hub works on: a receive by
the writer of a connection (`message, ok := <-c.Send` in `Client.writePump`),
the assignment `client.SessionID = session.ID` of
`SessionManager.HandleMessage`, and the call of `Hub.HandleCreateEvent` that
`Client.readPump` makes in the goroutine of a reader. -/
inductive EnvAction where
  | writerRecv (client : Ptr)
  | assignSession (client : Ptr) (sid : String)
  | createEvent (payload : JObj) (t1 t2 : Nat) (inserted : Bool)
  deriving DecidableEq, Repr

/-- The effect of one step of another goroutine. -/
def Hub.env (h : Hub) : EnvAction → Except Halt Hub
  | EnvAction.writerRecv client =>
    Except.ok { h with mem := setSend h.mem client (h.mem client).Send.recv }
  | EnvAction.assignSession client sid =>
    Except.ok { h with mem := setSession h.mem client sid }
  | EnvAction.createEvent payload t1 t2 inserted => h.HandleCreateEvent payload t1 t2 inserted

/-- The effect of a sequence of such steps; a panic of any goroutine ends the
process. -/
def Hub.envs : Hub → List EnvAction → Except Halt Hub
  | h, [] => Except.ok h
  | h, a :: rest =>
    match h.env a with
    | Except.error e => Except.error e
    | Except.ok h' => Hub.envs h' rest

/-- What the other goroutines do at each attempt of a blocking send of the hub. -/
abbrev Schedule := List (List EnvAction)

/-! ## Registration and replay (`ws/hub.go`) -/

/-- The statement `client.Send <- msg` executed by the hub.  Before each
attempt the other goroutines perform the next step of the schedule.  The
attempt panics on a closed queue, appends when there is room and parks the hub
on a full queue; a parked hub tries again after the next step of the schedule,
and stays parked when the schedule is exhausted.  The result carries what is
left of the schedule. -/
def Hub.sendTo (client : Ptr) (msg : Bytes) : Hub → Schedule → Except Halt (Hub × Schedule)
  | h, [] =>
    match (h.mem client).Send.trySend msg with
    | Except.error e => Except.error e
    | Except.ok (some ch) => Except.ok ({ h with mem := setSend h.mem client ch }, [])
    | Except.ok none => Except.error Halt.blocked
  | h, chunk :: rest =>
    match h.envs chunk with
    | Except.error e => Except.error e
    | Except.ok h1 =>
      match (h1.mem client).Send.trySend msg with
      | Except.error e => Except.error e
      | Except.ok (some ch) => Except.ok ({ h1 with mem := setSend h1.mem client ch }, rest)
      | Except.ok none => Hub.sendTo client msg h1 rest

/-- The method `Hub.sendExistingEvents`; `stored` is what the event store
answers, `none` when the query or the decoding fails. -/
def Hub.sendExistingEvents (h : Hub) (client : Ptr) (stored : Option (List VoxelEvent))
    (sched : Schedule) : Except Halt (Hub × Schedule) :=
  match stored with
  | none => Except.ok (h, sched)
  | some events =>
    if events.length = 0 then Except.ok (h, sched)
    else Hub.sendTo client (marshal { Typ := "events_list", Payload := Payload.events events })
      h sched

/-- The loop of `Hub.sendExistingPositions` over the entries still to visit. -/
def Hub.sendExistingPositionsLoop (client : Ptr) :
    List (String × JObj) → Hub → Schedule → Except Halt (Hub × Schedule)
  | [], h, sched => Except.ok (h, sched)
  | (_, pos) :: rest, h, sched =>
    match Hub.sendTo client (marshal { Typ := "move", Payload := Payload.object pos }) h sched with
    | Except.error e => Except.error e
    | Except.ok (h', sched') => Hub.sendExistingPositionsLoop client rest h' sched'

/-- The order in which `range` visits the map `m`.  The runtime may pick any:
it is `order` when `order` is a rearrangement of the entries of `m`, and the
list order otherwise. -/
def visitOrder (m order : List (String × JObj)) : List (String × JObj) :=
  if order.Perm m then order else m

/-- The method `Hub.sendExistingPositions`, `order` being the order in which
the runtime visits the cache. -/
def Hub.sendExistingPositions (h : Hub) (client : Ptr) (order : List (String × JObj))
    (sched : Schedule) : Except Halt (Hub × Schedule) :=
  Hub.sendExistingPositionsLoop client (visitOrder h.UserPositions order) h sched

/-- The events the loop of `Hub.Run` selects on.  A `register` carries the
address and the object it points to when the hub receives it, the answer of
the event store to the query made while it is processed, the order in which
the runtime visits the position cache and what the other goroutines do at each
attempt of a blocking send. -/
inductive Event where
  | register (client : Ptr) (obj : Client) (stored : Option (List VoxelEvent))
      (order : List (String × JObj)) (sched : Schedule)
  | unregister (client : Ptr)
  | broadcast (bm : BroadcastMessage)

/-- The statement `h.Clients[client] = true`, `obj` being the object that
`client` points to when the hub receives it. -/
def Hub.add (h : Hub) (client : Ptr) (obj : Client) : Hub :=
  { Clients := if client ∈ h.Clients then h.Clients else h.Clients ++ [client]
    UserPositions := h.UserPositions
    mem := fun q => if q = client then obj else h.mem q }

/-- The case `client := <-h.Register` of `Hub.Run`. -/
def Hub.onRegister (h : Hub) (client : Ptr) (obj : Client) (stored : Option (List VoxelEvent))
    (order : List (String × JObj)) (sched : Schedule) : Except Halt Hub :=
  match (h.add client obj).sendExistingEvents client stored sched with
  | Except.error e => Except.error e
  | Except.ok (h2, sched2) =>
    match h2.sendExistingPositions client order sched2 with
    | Except.error e => Except.error e
    | Except.ok (h3, _) => Except.ok h3

/-- One iteration of the loop of `Hub.Run`. -/
def Hub.step (h : Hub) : Event → Except Halt Hub
  | Event.register client obj stored order sched => h.onRegister client obj stored order sched
  | Event.unregister client => h.onUnregister client
  | Event.broadcast bm => h.onBroadcast bm

/-! ## Runs of the hub beside the other goroutines -/

/-- What happens to the state the hub works on: an iteration of the loop of
`Hub.Run`, or a step of another goroutine between two iterations. -/
inductive Action where
  | hub (e : Event)
  | env (a : EnvAction)

/-- The effect of one action. -/
def Hub.act (h : Hub) : Action → Except Halt Hub
  | Action.hub e => h.step e
  | Action.env a => h.env a

/-- The effect of a sequence of actions; it stops at the first halt. -/
def Hub.run : Hub → List Action → Except Halt Hub
  | h, [] => Except.ok h
  | h, a :: rest =>
    match h.act a with
    | Except.error e => Except.error e
    | Except.ok h' => Hub.run h' rest

/-- The client object `ServeWs` allocates: `Send: make(chan []byte, 1024)`. -/
def newClient (userId sessionId : String) : Client :=
  { UserID := userId, SessionID := sessionId, Send := { buf := [], cap := 1024, closed := false } }

/-- The registration `client.Hub.Register <- client` of `ServeWs`, processed
while no other goroutine acts and with the cache visited in list order. -/
def ServeWs (client : Ptr) (userId sessionId : String) (stored : Option (List VoxelEvent)) :
    Action :=
  Action.hub (Event.register client (newClient userId sessionId) stored [] [])

/-- The hub state a run ends in; the empty hub when the hub halted. -/
def stateAfter (r : Except Halt Hub) : Hub :=
  match r with
  | Except.ok h => h
  | Except.error _ => NewHub

/-! ## The sessions (`ws/session_manager.go`) -/

/-- The struct `ws.SessionManager`: the map `sessions`. -/
structure SessionManager where
  sessions : List (String × GameSession)
  deriving DecidableEq, Repr

/-- What a session operation leaves behind: the manager, the pointer it
returns (`none` is nil) and the values it sent on `hub.Broadcast`. -/
structure Reply where
  sm : SessionManager
  ret : Option GameSession
  sent : List BroadcastMessage
  deriving DecidableEq, Repr

/-- The constructor `NewSessionManager`. -/
def NewSessionManager : SessionManager := { sessions := [] }

/-- The value `SessionManager.broadcastSessionUpdate` sends on `hub.Broadcast`. -/
def broadcastSessionUpdate (session : GameSession) : BroadcastMessage :=
  { Message := marshal { Typ := "session_update", Payload := Payload.session session }
    Exclude := none }

/-- The method `SessionManager.CreateSession`; `id` is the value of
`uuid.New().String()` and `now` that of `time.Now()`. -/
def SessionManager.CreateSession (sm : SessionManager) (hostID gameType : String)
    (id : String) (now : Nat) : Reply :=
  let session : GameSession :=
    { ID := id, HostID := hostID, GameType := gameType, State := GameStateLobby
      Players := [hostID], CreatedAt := now }
  { sm := { sessions := mapSet sm.sessions id session }
    ret := some session
    sent := [broadcastSessionUpdate session] }

/-- The loop `for _, pid := range session.Players { if pid == userID ... }`:
whether it finds `userID`. -/
def alreadyIn (userID : String) : List String → Bool
  | [] => false
  | pid :: rest => if pid = userID then true else alreadyIn userID rest

/-- The method `SessionManager.JoinSession`. -/
def SessionManager.JoinSession (sm : SessionManager) (sessionID userID : String) : Reply :=
  match mapGet sm.sessions sessionID with
  | none => { sm := sm, ret := none, sent := [] }
  | some session =>
    if alreadyIn userID session.Players then { sm := sm, ret := some session, sent := [] }
    else
      let session' : GameSession := { session with Players := session.Players ++ [userID] }
      { sm := { sessions := mapSet sm.sessions sessionID session' }
        ret := some session'
        sent := [broadcastSessionUpdate session'] }

/-- The method `SessionManager.StartGame`. -/
def SessionManager.StartGame (sm : SessionManager) (sessionID userID : String) : Reply :=
  match mapGet sm.sessions sessionID with
  | none => { sm := sm, ret := none, sent := [] }
  | some session =>
    if session.HostID ≠ userID then { sm := sm, ret := none, sent := [] }
    else
      let session' : GameSession := { session with State := GameStatePlaying }
      { sm := { sessions := mapSet sm.sessions sessionID session' }
        ret := some session'
        sent := [broadcastSessionUpdate session'] }

/-- The assertion `s, _ := payload[k].(string)`: the empty string when it fails. -/
def stringOrZero (payload : JObj) (k : String) : String :=
  match mapGet payload k with
  | some (JVal.str s) => s
  | _ => ""

/-- What `SessionManager.HandleMessage` leaves behind: the manager, the value
it assigns to `client.SessionID` (`none` when it assigns nothing) and the
values it sent on `hub.Broadcast`. -/
structure Handled where
  sm : SessionManager
  assign : Option String
  sent : List BroadcastMessage
  deriving DecidableEq, Repr

/-- The method `SessionManager.HandleMessage` for the client whose `UserID` is
`userID`. -/
def SessionManager.HandleMessage (sm : SessionManager) (msgType : String) (payload : JObj)
    (userID : String) (id : String) (now : Nat) : Handled :=
  if msgType = "create_session" then
    let r := sm.CreateSession userID (stringOrZero payload "gameType") id now
    { sm := r.sm, assign := r.ret.map (fun s => s.ID), sent := r.sent }
  else if msgType = "join_session" then
    let r := sm.JoinSession (stringOrZero payload "sessionId") userID
    { sm := r.sm, assign := r.ret.map (fun s => s.ID), sent := r.sent }
  else if msgType = "start_game" then
    let r := sm.StartGame (stringOrZero payload "sessionId") userID
    { sm := r.sm, assign := none, sent := r.sent }
  else { sm := sm, assign := none, sent := [] }

/-! ## The read loop (`ws/client.go`) -/

/-- What one frame needs from outside the program: two clock readings, a
fresh identifier and the outcome of the insertion into the store. -/
structure Outside where
  t1 : Nat
  t2 : Nat
  id : String
  inserted : Bool
  deriving DecidableEq, Repr

/-- The state one iteration of the read loop works on: the hub, the sessions
and the values sent on `hub.Broadcast` that the hub has not received yet. -/
structure World where
  hub : Hub
  sm : SessionManager
  pending : List BroadcastMessage

/-- The test `msg.Type` is one of `create_session`, `join_session`, `start_game`. -/
def isSessionType (t : String) : Bool :=
  t = "create_session" || t = "join_session" || t = "start_game"

/-- One iteration of the loop of `Client.readPump` for the client at `c`, after
`ReadMessage` returned the frame `message`; a `Halt` is a panic that ends the
loop (and, unrecovered, the process). -/
def readPumpFrame (w : World) (c : Ptr) (message : Bytes) (o : Outside) : Except Halt World :=
  match unmarshal message with
  | none => Except.ok w
  | some msg =>
    if isScopedType msg.Typ then
      Except.ok { w with pending := w.pending ++ [{ Message := message, Exclude := some c }] }
    else if msg.Typ = "create_event" then
      match msg.Payload with
      | Payload.object payload =>
        match w.hub.HandleCreateEvent payload o.t1 o.t2 o.inserted with
        | Except.error e => Except.error e
        | Except.ok hub' => Except.ok { w with hub := hub' }
      | _ => Except.ok w
    else if isSessionType msg.Typ then
      match msg.Payload with
      | Payload.object payload =>
        let r := w.sm.HandleMessage msg.Typ payload (w.hub.mem c).UserID o.id o.t1
        let mem' := match r.assign with
          | some sid => setSession w.hub.mem c sid
          | none => w.hub.mem
        Except.ok { hub := { w.hub with mem := mem' }, sm := r.sm, pending := w.pending ++ r.sent }
      | _ => Except.ok w
    else Except.ok w

/-! ## Closed forms and predicates used by the theorems -/

/-- The shape common to the loops of `broadcastToSession` and of
`broadcastMessage`: a delivery attempt for every visited key that `elig`
selects. -/
def Hub.fanoutLoop (elig : Ptr → Bool) (message : Bytes) : List Ptr → Hub → Except Halt Hub
  | [], h => Except.ok h
  | client :: rest, h =>
    if elig client then
      match h.deliver client message with
      | Except.error e => Except.error e
      | Except.ok h' => Hub.fanoutLoop elig message rest h'
    else Hub.fanoutLoop elig message rest h

/-- A client object after a delivery attempt on its open queue: the message is
appended when there is room, the queue is closed otherwise. -/
def Client.offered (c : Client) (m : Bytes) : Client :=
  if c.Send.hasRoom then { c with Send := { c.Send with buf := c.Send.buf ++ [m] } }
  else { c with Send := { c.Send with closed := true } }

/-- The hub after delivery attempts to the keys in `l` that `elig` selects. -/
def Hub.fanout (h : Hub) (elig : Ptr → Bool) (m : Bytes) (l : List Ptr) : Hub :=
  { Clients := h.Clients.filter (fun q => !(decide (q ∈ l) && elig q && !(h.mem q).Send.hasRoom))
    UserPositions := h.UserPositions
    mem := fun q => if q ∈ l ∧ elig q = true then (h.mem q).offered m else h.mem q }

/-- Whom `broadcastToSession(_, sessionID, exclude)` selects in `h`. -/
def Hub.inScope (h : Hub) (sessionID : String) (exclude : Option Ptr) (q : Ptr) : Bool :=
  decide ((h.mem q).SessionID = sessionID ∧ some q ≠ exclude)

/-- Whom `broadcastMessage(_, exclude)` selects. -/
def notExcluded (exclude : Option Ptr) (q : Ptr) : Bool :=
  decide (some q ≠ exclude)

/-- Every connection of the live set has an open queue. -/
def Hub.LiveOpen (h : Hub) : Prop :=
  ∀ p ∈ h.Clients, (h.mem p).Send.closed = false

/-- The live set lists every key once (it is a map) and its queues are open. -/
def Hub.WF (h : Hub) : Prop :=
  h.Clients.Nodup ∧ h.LiveOpen

/-- The addresses registered by a sequence of actions, in order. -/
def registrations : List Action → List Ptr
  | [] => []
  | Action.hub (Event.register client _ _ _ _) :: rest => client :: registrations rest
  | _ :: rest => registrations rest

/-- Whether an action, when it is a registration, brings a fresh queue: a
buffered channel that is open and empty. -/
def Action.freshQueue : Action → Bool
  | Action.hub (Event.register _ obj _ _ _) =>
    !obj.Send.closed && obj.Send.buf.isEmpty && decide (0 < obj.Send.cap)
  | _ => true

/-- Every connection is registered at most once, with a fresh open queue. -/
def FreshRegistrations (acts : List Action) : Prop :=
  (registrations acts).Nodup ∧ ∀ a ∈ acts, a.freshQueue = true

/-- Whether an action is the processing of `Unregister` for `p`. -/
def Action.unregisters (p : Ptr) : Action → Bool
  | Action.hub (Event.unregister client) => decide (client = p)
  | _ => false

/-- Whether an action is the processing of `Register` for `p`. -/
def Action.registers (p : Ptr) : Action → Bool
  | Action.hub (Event.register client _ _ _ _) => decide (client = p)
  | _ => false

/-- The connection `p` was registered and no `Unregister` for it was processed
after its registration. -/
def StillRegistered (acts : List Action) (p : Ptr) : Prop :=
  ∃ pre a suf, acts = pre ++ a :: suf ∧ a.registers p = true ∧
    ∀ b ∈ suf, b.unregisters p = false

/-- A hub state the event loop can be in: the end of a run from the empty hub
in which every connection is registered at most once with a fresh queue. -/
def Reachable (h : Hub) : Prop :=
  ∃ acts, FreshRegistrations acts ∧ NewHub.run acts = Except.ok h

/-- The hub after the messages `ms` were appended to the queue of `p`. -/
def Hub.pushed (h : Hub) (p : Ptr) (ms : List Bytes) : Hub :=
  { h with mem := fun q =>
      if q = p then { h.mem p with Send := { (h.mem p).Send with buf := (h.mem p).Send.buf ++ ms } }
      else h.mem q }

/-- The message `sendExistingEvents` sends for the answer `stored`, if any. -/
def eventsReplay (stored : Option (List VoxelEvent)) : List Bytes :=
  match stored with
  | none => []
  | some events =>
    if events.length = 0 then []
    else [marshal { Typ := "events_list", Payload := Payload.events events }]

/-- One `move` message for each entry of the position cache. -/
def positionsReplay (ups : List (String × JObj)) : List Bytes :=
  ups.map (fun kv => marshal { Typ := "move", Payload := Payload.object kv.2 })

/-- The messages of the replay of a registration, in the order of the sends. -/
def Hub.replay (h : Hub) (stored : Option (List VoxelEvent)) (order : List (String × JObj)) :
    List Bytes :=
  eventsReplay stored ++ positionsReplay (visitOrder h.UserPositions order)

/-- The hub after a registration during which no other goroutine acted and
the hub did not park. -/
def Hub.registered (h : Hub) (p : Ptr) (obj : Client) (stored : Option (List VoxelEvent))
    (order : List (String × JObj)) : Hub :=
  { Clients := if p ∈ h.Clients then h.Clients else h.Clients ++ [p]
    UserPositions := h.UserPositions
    mem := fun q =>
      if q = p then
        { obj with Send := { obj.Send with buf := obj.Send.buf ++ h.replay stored order } }
      else h.mem q }

/-- The blocking sends of the messages `msgs` to `client`, one after the
other: the shape common to `sendExistingEvents` and to the loop of
`sendExistingPositions`. -/
def Hub.sendAll (client : Ptr) : List Bytes → Hub → Schedule → Except Halt (Hub × Schedule)
  | [], h, sched => Except.ok (h, sched)
  | m :: rest, h, sched =>
    match Hub.sendTo client m h sched with
    | Except.error e => Except.error e
    | Except.ok (h', sched') => Hub.sendAll client rest h' sched'

/-- From `h` to `h'` the live set and the position cache are the same, and so
are the closed flag and the capacity of every queue: only the contents of the
queues and the sessions of the connections may differ. -/
def Hub.SameShape (h h' : Hub) : Prop :=
  h'.Clients = h.Clients ∧ h'.UserPositions = h.UserPositions ∧
    ∀ q, (h'.mem q).Send.closed = (h.mem q).Send.closed ∧
      (h'.mem q).Send.cap = (h.mem q).Send.cap

/-- Whether a step of another goroutine is a receive by a writer or a session
assignment: it neither sends on a queue nor closes one. -/
def EnvAction.calm : EnvAction → Bool
  | EnvAction.writerRecv _ => true
  | EnvAction.assignSession _ _ => true
  | EnvAction.createEvent _ _ _ _ => false

/-- Whether no reader runs `HandleCreateEvent` during the schedule. -/
def Schedule.calm (sched : Schedule) : Bool :=
  sched.all (fun chunk => chunk.all EnvAction.calm)

/-- How many times the writer of `client` receives during the schedule. -/
def Schedule.receives (sched : Schedule) (client : Ptr) : Nat :=
  (sched.map (fun chunk => chunk.count (EnvAction.writerRecv client))).sum

/-- Whether no reader runs `HandleCreateEvent` while the hub processes the
action or between two events. -/
def Action.calm : Action → Bool
  | Action.hub (Event.register _ _ _ _ sched) => Schedule.calm sched
  | Action.hub _ => true
  | Action.env a => a.calm

/-- Whether an action is the processing of a `Register` or of an `Unregister`,
or a receive by a writer or a session assignment, no reader running
`HandleCreateEvent` meanwhile. -/
def Action.membershipOnly : Action → Bool
  | Action.hub (Event.register _ _ _ _ sched) => Schedule.calm sched
  | Action.hub (Event.unregister _) => true
  | Action.hub (Event.broadcast _) => false
  | Action.env a => a.calm

/-- During the run `acts` from `h0` the hub found the queue of the live
connection `p` full when it broadcast to it the `leave` message of a
connection `conn` that it was unregistering. -/
def DroppedFull (h0 : Hub) (acts : List Action) (p : Ptr) : Prop :=
  ∃ pre conn suf g, acts = pre ++ Action.hub (Event.unregister conn) :: suf ∧
    h0.run pre = Except.ok g ∧ conn ∈ g.Clients ∧ p ∈ g.Clients ∧ p ≠ conn ∧
    ((g.mem conn).SessionID = "" ∨ (g.mem p).SessionID = (g.mem conn).SessionID) ∧
    (g.mem p).Send.hasRoom = false

/-- Whether a decoded envelope is a `move` whose payload is an object with the
string `U` as `userId`. -/
def Message.movesUser (msg : Message) (U : String) : Bool :=
  decide (msg.Typ = "move") &&
    match msg.Payload with
    | Payload.object payload => decide (mapGet payload "userId" = some (JVal.str U))
    | _ => false

/-- Whether an action is the processing by the hub of a `move` for the user `U`. -/
def Action.movesUser (U : String) : Action → Bool
  | Action.hub (Event.broadcast bm) =>
    match unmarshal bm.Message with
    | some msg => msg.movesUser U
    | none => false
  | _ => false

/-- The connections registered and not unregistered since, updated by one action. -/
def Action.track (E : List Ptr) : Action → List Ptr
  | Action.hub (Event.register client _ _ _ _) => if client ∈ E then E else E ++ [client]
  | Action.hub (Event.unregister client) => E.filter (fun q => decide (q ≠ client))
  | _ => E

/-- The connections registered and not unregistered since, after a sequence of actions. -/
def trackAll : List Ptr → List Action → List Ptr
  | E, [] => E
  | E, a :: rest => trackAll (a.track E) rest

/-- The addresses an action registers. -/
def Action.registered : Action → List Ptr
  | Action.hub (Event.register client _ _ _ _) => [client]
  | _ => []

/-- The hub `h` is well formed, its live connections are among the tracked
connections `E`, themselves among the registered ones `R`, and a tracked
connection that is not live has a closed queue. -/
def Hub.Tracks (h : Hub) (E R : List Ptr) : Prop :=
  h.WF ∧ (∀ p ∈ h.Clients, p ∈ E) ∧ (∀ p ∈ E, p ∈ R) ∧
    ∀ p ∈ E, p ∉ h.Clients → (h.mem p).Send.closed = true

/-- The hub in the `Unregister` case before the announcement: the key and the
cached position deleted, the queue closed. -/
def Hub.removed (h : Hub) (client : Ptr) : Hub :=
  { Clients := h.Clients.filter (fun q => decide (q ≠ client))
    UserPositions := mapDelete h.UserPositions (h.mem client).UserID
    mem := setSend h.mem client { (h.mem client).Send with closed := true } }

/-- Whom the `leave` announcement for `client` selects: the scope of its
session when it has one, everybody otherwise. -/
def Hub.leaveScope (h : Hub) (client : Ptr) : Ptr → Bool :=
  if (h.mem client).SessionID ≠ "" then
    (h.removed client).inScope (h.mem client).SessionID none
  else notExcluded none

instance (h : Hub) : Decidable h.LiveOpen :=
  inferInstanceAs (Decidable (∀ p ∈ h.Clients, (h.mem p).Send.closed = false))

instance (h : Hub) : Decidable h.WF :=
  inferInstanceAs (Decidable (h.Clients.Nodup ∧ h.LiveOpen))

/-! ## Concrete runs -/

/-- A connection that registers in the global scope and goes away at once. -/
def cycle (i : Nat) : List Action :=
  [ServeWs (i + 1) "b" "" none, Action.hub (Event.unregister (i + 1))]

/-- The first `n` such connections, one after the other. -/
def cycles : Nat → List Action
  | 0 => []
  | n + 1 => cycles n ++ cycle n

/-- A connection `0` whose writer never receives, then `n` connections that
come and go: only `Register` and `Unregister` events. -/
def churn (n : Nat) : List Action :=
  ServeWs 0 "a" "" none :: cycles n

/-- Whether an action is the processing of a `Register` or of an `Unregister`. -/
def Action.isMembership : Action → Bool
  | Action.hub (Event.register _ _ _ _ _) => true
  | Action.hub (Event.unregister _) => true
  | _ => false

/-- The connection `0`, of user `a`, is alone in the live set, in the global
scope, its queue of capacity 1024 open and holding `k` messages, and the
position cache is `ups`. -/
def Hub.Stalled (h : Hub) (ups : List (String × JObj)) (k : Nat) : Prop :=
  h.Clients = [0] ∧ h.UserPositions = ups ∧ (h.mem 0).SessionID = "" ∧
    (h.mem 0).UserID = "a" ∧ (h.mem 0).Send.closed = false ∧ (h.mem 0).Send.cap = 1024 ∧
    (h.mem 0).Send.buf.length = k

/-- A small run: two connections, an audio frame from the first, a receive by
the writer of the second, a session assignment. -/
def demoPre : List Action :=
  [ServeWs 1 "a" "" none, ServeWs 2 "b" "" none,
   Action.hub (Event.broadcast
     { Message := marshal { Typ := "audio", Payload := Payload.scalar (JVal.str "pcm") }
       Exclude := some 1 }),
   Action.env (EnvAction.writerRecv 2), Action.env (EnvAction.assignSession 2 "s")]

/-- Two connections `1` (user A) and `2` (user B) in the global scope, their
queues empty. -/
def hubAB : Hub :=
  { Clients := [1, 2]
    UserPositions := []
    mem := fun q => if q = 1 then newClient "A" "" else newClient "B" "" }

/-- An audio frame. -/
def audioFrame : Bytes :=
  marshal { Typ := "audio", Payload := Payload.scalar (JVal.str "pcm") }

/-- The frame `move {userId: A, x: 1, y: 2}`. -/
def moveOfA : Bytes :=
  marshal { Typ := "move"
            Payload := Payload.object [("userId", JVal.str "A"), ("x", JVal.num 1), ("y", JVal.num 2)] }

/-- The same two connections when the writer of `2` has stalled: its queue
holds 1024 audio frames. -/
def hubFull : Hub :=
  { Clients := [1, 2]
    UserPositions := []
    mem := fun q =>
      if q = 1 then newClient "A" ""
      else { UserID := "B", SessionID := ""
             Send := { buf := List.replicate 1024 audioFrame, cap := 1024, closed := false } } }

/-- The effect of a broadcast of `m` from `h` to `h'` is confined, `elig`
telling who is an eligible recipient: a live eligible recipient whose queue is
full has its queue closed and leaves the live set; one whose queue has room
receives `m`; every live connection that is not a full-queue recipient stays
live with its queue open. -/
def Confined (h h' : Hub) (elig : Ptr → Prop) (m : Bytes) : Prop :=
  (∀ q ∈ h.Clients, elig q → (h.mem q).Send.hasRoom = false →
      (h'.mem q).Send.closed = true ∧ q ∉ h'.Clients) ∧
  (∀ q ∈ h.Clients, elig q → (h.mem q).Send.hasRoom = true →
      (h'.mem q).Send.buf = (h.mem q).Send.buf ++ [m]) ∧
  (∀ q ∈ h.Clients, ¬ (elig q ∧ (h.mem q).Send.hasRoom = false) →
      q ∈ h'.Clients ∧ (h'.mem q).Send.closed = false)

/-- The position `{userId: a, x: 1, y: 2}`. -/
def slowPosition : JObj := [("userId", JVal.str "a"), ("x", JVal.num 1), ("y", JVal.num 2)]

/-- The envelope `move {userId: a, x: 1, y: 2}`. -/
def slowMsg : Message := { Typ := "move", Payload := Payload.object slowPosition }

/-- The hub receives that envelope from connection `0`. -/
def slowMove : Action :=
  Action.hub (Event.broadcast { Message := marshal slowMsg, Exclude := some 0 })

/-- Connection `0`, of user `a`, registers and sends its position; its writer
never receives. -/
def staleFirst : List Action :=
  [ServeWs 0 "a" "" none, slowMove]

/-- Then 1024 connections come and go and a last one registers. -/
def busyRun : List Action :=
  staleFirst ++ cycles 1024 ++ [ServeWs 1025 "b" "" none]

/-- Or 1025 connections come and go, and connection `5000` registers. -/
def staleRun : List Action :=
  staleFirst ++ cycles 1025 ++ [ServeWs 5000 "c" "" none]

/-- A session manager holding one lobby `s1` created by user `c`. -/
def lobby : SessionManager :=
  (NewSessionManager.CreateSession "c" "PROXIMITY_TAG" "s1" 0).sm

/-- The host `c` on connection `1`, in the scope of its session `s1`, and a
connection `2` of user `x` in the global scope. -/
def hubGame : Hub :=
  { Clients := [1, 2]
    UserPositions := []
    mem := fun q => if q = 1 then newClient "c" "s1" else newClient "x" "" }

/-- A position whose `userId` is the empty string. -/
def anonPosition : JObj := [("userId", JVal.str ""), ("x", JVal.num 1), ("y", JVal.num 2)]

/-- The frame `move` carrying it. -/
def anonMove : Bytes := marshal { Typ := "move", Payload := Payload.object anonPosition }

/-- The fields `Hub.HandleCreateEvent` reads from the payload. -/
def createEventFields : List String :=
  ["title", "description", "x", "y", "creatorId", "ticketPrice", "hasTickets", "voxelTheme"]

/-- Whether the payload carries the field `k` with the type the handler
asserts: a string for `title`, `description`, `creatorId` and `voxelTheme`, a
number for `x`, `y` and `ticketPrice`, a boolean for `hasTickets`. -/
def wellTyped (payload : JObj) (k : String) : Bool :=
  match mapGet payload k with
  | some (JVal.str _) => decide (k ∈ ["title", "description", "creatorId", "voxelTheme"])
  | some (JVal.num _) => decide (k ∈ ["x", "y", "ticketPrice"])
  | some (JVal.bool _) => decide (k = "hasTickets")
  | _ => false

/-- A world with the two connections `1` and `2` and no session. -/
def worldAB : World := { hub := hubAB, sm := NewSessionManager, pending := [] }

/-- Readings of the outside world for one frame. -/
def outside0 : Outside := { t1 := 0, t2 := 0, id := "s1", inserted := true }

/-- The frame `create_event` whose payload is the empty object. -/
def emptyCreateEvent : Bytes := marshal { Typ := "create_event", Payload := Payload.object [] }

/-- The userID of the `i`-th of a family of distinct users: `u`, `uu`, `uuu`
and so on. -/
def userName (i : Nat) : String := String.mk (List.replicate (i + 1) 'u')

/-- The position `{userId: userName i, x: i, y: 0}`. -/
def positionOf (i : Nat) : JObj :=
  [("userId", JVal.str (userName i)), ("x", JVal.num i), ("y", JVal.num 0)]

/-- The hub receives from connection `0` a `move` carrying the position of the
`i`-th user. -/
def moveOf (i : Nat) : Action :=
  Action.hub (Event.broadcast
    { Message := marshal { Typ := "move", Payload := Payload.object (positionOf i) }
      Exclude := some 0 })

/-- Such a `move` for each of the first `n` users. -/
def moves : Nat → List Action
  | 0 => []
  | n + 1 => moves n ++ [moveOf n]

/-- The cache that holds the positions of the first `n` users. -/
def crowd (n : Nat) : List (String × JObj) :=
  (List.range n).map (fun i => (userName i, positionOf i))

/-- A payload of `create_event` that carries every field with its type. -/
def partyPayload : JObj :=
  [("title", JVal.str "party"), ("description", JVal.str "tonight"), ("x", JVal.num 3),
   ("y", JVal.num 4), ("creatorId", JVal.str "a"), ("ticketPrice", JVal.num 0),
   ("hasTickets", JVal.bool false), ("voxelTheme", JVal.str "neon")]

/-- During a replay nobody acts at the first `n` attempts of the hub; then a
reader runs `HandleCreateEvent`, the event store accepting the insertion. -/
def raceSchedule (n : Nat) (payload : JObj) (t1 t2 : Nat) : Schedule :=
  List.replicate n [] ++ [[EnvAction.createEvent payload t1 t2 true]]

/-- Connection `0` registers and sends the positions of 1025 users; then
connection `1` registers: its writer has not received yet when the queue is
full, and a reader handles a `create_event` frame while the hub is parked. -/
def raceRun : List Action :=
  ServeWs 0 "a" "" none :: moves 1025 ++
    [Action.hub (Event.register 1 (newClient "b" "") none [] (raceSchedule 1025 partyPayload 0 0))]

/-! ## Go maps -/

theorem mapGet_mapSet_same {β : Type} (m : List (String × β)) (k : String) (v : β) :
    mapGet (mapSet m k v) k = some v := by
  induction m with
  | nil => simp [mapSet, mapGet]
  | cons kv rest ih =>
    obtain ⟨k', v'⟩ := kv
    by_cases hk : k' = k
    · simp [mapSet, mapGet, hk]
    · simp [mapSet, mapGet, hk, ih]

theorem mapGet_mapSet_other {β : Type} (m : List (String × β)) (k k2 : String) (v : β)
    (hne : k2 ≠ k) : mapGet (mapSet m k v) k2 = mapGet m k2 := by
  induction m with
  | nil =>
    have : ¬ k = k2 := fun h => hne h.symm
    simp [mapSet, mapGet, this]
  | cons kv rest ih =>
    obtain ⟨k', v'⟩ := kv
    by_cases hk : k' = k
    · have h1 : ¬ k = k2 := fun h => hne h.symm
      have h2 : ¬ k' = k2 := fun h => hne (by rw [← h, hk])
      simp [mapSet, mapGet, hk, h1]
    · by_cases hk2 : k' = k2
      · subst hk2
        simp [mapSet, mapGet, hne]
      · simp [mapSet, mapGet, hk, hk2, ih]

theorem mapKeys_mapSet_mem {β : Type} (m : List (String × β)) (k k2 : String) (v : β) :
    k2 ∈ mapKeys (mapSet m k v) ↔ k2 = k ∨ k2 ∈ mapKeys m := by
  induction m with
  | nil => simp [mapSet, mapKeys]
  | cons kv rest ih =>
    obtain ⟨k', v'⟩ := kv
    by_cases hk : k' = k
    · subst hk
      simp [mapSet, mapKeys]
    · simp only [mapKeys] at ih
      simp [mapSet, mapKeys, hk, ih]
      tauto

theorem mapKeys_mapSet_nodup {β : Type} (m : List (String × β)) (k : String) (v : β)
    (hm : (mapKeys m).Nodup) : (mapKeys (mapSet m k v)).Nodup := by
  induction m with
  | nil => simp [mapSet, mapKeys]
  | cons kv rest ih =>
    obtain ⟨k', v'⟩ := kv
    have hm' : k' ∉ mapKeys rest ∧ (mapKeys rest).Nodup := by
      simpa [mapKeys] using hm
    by_cases hk : k' = k
    · subst hk
      simpa [mapSet, mapKeys] using hm
    · have h1 : k' ∉ mapKeys (mapSet rest k v) := by
        rw [mapKeys_mapSet_mem]
        intro h
        rcases h with h | h
        · exact hk h
        · exact hm'.1 h
      have h2 := ih hm'.2
      simp only [mapKeys] at h1 h2
      simp [mapSet, mapKeys, hk, h1, h2]

theorem mapGet_mapDelete_same {β : Type} (m : List (String × β)) (k : String) :
    mapGet (mapDelete m k) k = none := by
  induction m with
  | nil => simp [mapDelete, mapGet]
  | cons kv rest ih =>
    obtain ⟨k', v'⟩ := kv
    by_cases hk : k' = k
    · simpa [mapDelete, List.filter_cons, hk] using ih
    · simp only [mapDelete] at ih
      simp only [mapDelete, List.filter_cons, hk, mapGet, ne_eq, not_false_eq_true, decide_True,
        if_true, if_false]
      exact ih

theorem mapSet_absent {β : Type} (m : List (String × β)) (k : String) (v : β)
    (hk : k ∉ mapKeys m) : mapSet m k v = m ++ [(k, v)] := by
  induction m with
  | nil => rfl
  | cons kv rest ih =>
    obtain ⟨k', v'⟩ := kv
    have hk' : k' ≠ k ∧ k ∉ mapKeys rest := by
      constructor
      · intro h
        apply hk
        simp [mapKeys, h]
      · intro h
        apply hk
        simp only [mapKeys, List.map_cons, List.mem_cons]
        exact Or.inr h
    simp [mapSet, hk'.1, ih hk'.2]

theorem mapGet_mapDelete_cases {β : Type} (m : List (String × β)) (k U : String) :
    mapGet (mapDelete m k) U = mapGet m U ∨ mapGet (mapDelete m k) U = none := by
  induction m with
  | nil => simp [mapDelete, mapGet]
  | cons kv rest ih =>
    obtain ⟨k', v'⟩ := kv
    by_cases hk : k' = k
    · have e : mapDelete ((k', v') :: rest) k = mapDelete rest k := by
        simp [mapDelete, List.filter_cons, hk]
      rw [e]
      by_cases hU : k' = U
      · right
        rw [← hU, hk]
        exact mapGet_mapDelete_same rest k
      · rcases ih with ih | ih
        · left
          rw [ih]
          simp [mapGet, hU]
        · right
          exact ih
    · have e : mapDelete ((k', v') :: rest) k = (k', v') :: mapDelete rest k := by
        simp [mapDelete, List.filter_cons, hk]
      rw [e]
      by_cases hU : k' = U
      · left
        simp [mapGet, hU]
      · rcases ih with ih | ih
        · left
          simp only [mapGet, hU, if_false]
          exact ih
        · right
          simp only [mapGet, hU, if_false]
          exact ih

theorem mapGet_of_mem {β : Type} (m : List (String × β)) (k : String) (v : β)
    (hnd : (mapKeys m).Nodup) (hin : (k, v) ∈ m) : mapGet m k = some v := by
  induction m with
  | nil => simp at hin
  | cons kv rest ih =>
    obtain ⟨k', v'⟩ := kv
    simp only [mapKeys, List.map_cons, List.nodup_cons] at hnd
    rcases List.mem_cons.mp hin with heq | hrest
    · simp only [Prod.mk.injEq] at heq
      simp [mapGet, heq.1, heq.2]
    · have hk : k' ≠ k := by
        intro hk
        apply hnd.1
        rw [hk]
        exact List.mem_map.mpr ⟨(k, v), hrest, rfl⟩
      simp only [mapGet, hk, if_false]
      exact ih hnd.2 hrest

/-! ## Delivery attempts and the two broadcast loops -/

theorem Hub.ext_fields (h g : Hub) (h1 : h.Clients = g.Clients)
    (h2 : h.UserPositions = g.UserPositions) (h3 : h.mem = g.mem) : h = g := by
  cases h
  cases g
  simp only at h1 h2 h3
  subst h1 h2 h3
  rfl

theorem deliver_sessionID (h h' : Hub) (p : Ptr) (m : Bytes)
    (hd : h.deliver p m = Except.ok h') (q : Ptr) :
    (h'.mem q).SessionID = (h.mem q).SessionID := by
  unfold Hub.deliver Chan.trySend Chan.close at hd
  by_cases hc : (h.mem p).Send.closed = true
  · simp [hc] at hd
  · by_cases hr : (h.mem p).Send.hasRoom = true
    · simp only [hc, hr, if_true, if_false, Bool.false_eq_true] at hd
      cases hd
      by_cases hq : q = p
      · subst hq
        simp [setSend]
      · simp [setSend, hq]
    · simp only [hc, hr, if_true, if_false, Bool.false_eq_true] at hd
      cases hd
      by_cases hq : q = p
      · subst hq
        simp [setSend]
      · simp [setSend, hq]

theorem deliver_eq_fanout (h : Hub) (p : Ptr) (m : Bytes)
    (hopen : (h.mem p).Send.closed = false) :
    h.deliver p m = Except.ok (h.fanout (fun _ => true) m [p]) := by
  unfold Hub.deliver Chan.trySend Chan.close
  by_cases hr : (h.mem p).Send.hasRoom = true
  · simp only [hopen, hr, if_true, if_false, Bool.false_eq_true]
    congr 1
    apply Hub.ext_fields
    · simp only [Hub.fanout]
      symm
      rw [List.filter_eq_self]
      intro q _
      by_cases hq : q = p
      · subst hq
        simp [hr]
      · simp [hq]
    · rfl
    · funext q
      by_cases hq : q = p
      · subst hq
        simp [Hub.fanout, setSend, Client.offered, hr, hopen]
      · simp [Hub.fanout, setSend, hq]
  · simp only [hopen, hr, if_true, if_false, Bool.false_eq_true]
    congr 1
    apply Hub.ext_fields
    · simp only [Hub.fanout]
      apply List.filter_congr
      intro q _
      by_cases hq : q = p
      · subst hq
        simp [hr]
      · simp [hq]
    · rfl
    · funext q
      by_cases hq : q = p
      · subst hq
        simp [Hub.fanout, setSend, Client.offered, hr, hopen]
      · simp [Hub.fanout, setSend, hq]

theorem fanout_nil (h : Hub) (elig : Ptr → Bool) (m : Bytes) : h.fanout elig m [] = h := by
  apply Hub.ext_fields
  · simp [Hub.fanout]
  · rfl
  · funext q
    simp [Hub.fanout]

theorem fanoutLoop_eq_fanout (elig : Ptr → Bool) (m : Bytes) (l : List Ptr) :
    ∀ h : Hub, l.Nodup → (∀ q ∈ l, elig q = true → (h.mem q).Send.closed = false) →
      Hub.fanoutLoop elig m l h = Except.ok (h.fanout elig m l) := by
  induction l with
  | nil =>
    intro h _ _
    simp [Hub.fanoutLoop, fanout_nil]
  | cons p rest ih =>
    intro h hnd hopen
    have hp : p ∉ rest := (List.nodup_cons.mp hnd).1
    have hrest : rest.Nodup := (List.nodup_cons.mp hnd).2
    by_cases he : elig p = true
    · have hpo : (h.mem p).Send.closed = false := hopen p (List.mem_cons_self _ _) he
      have hmemq : ∀ q, q ≠ p → (h.fanout (fun _ => true) m [p]).mem q = h.mem q := by
        intro q hq
        simp [Hub.fanout, hq]
      simp only [Hub.fanoutLoop, he, if_true, deliver_eq_fanout h p m hpo]
      rw [ih (h.fanout (fun _ => true) m [p]) hrest]
      · congr 1
        apply Hub.ext_fields
        · simp only [Hub.fanout, List.filter_filter]
          apply List.filter_congr
          intro q _
          by_cases hq : q = p
          · subst hq
            simp [hp, he]
          · simp [hq]
        · rfl
        · funext q
          by_cases hq : q = p
          · subst hq
            simp [Hub.fanout, hp, he]
          · simp [Hub.fanout, hq]
      · intro q hq heq
        have hne : q ≠ p := fun h => hp (h ▸ hq)
        rw [hmemq q hne]
        exact hopen q (List.mem_cons_of_mem _ hq) heq
    · simp only [Hub.fanoutLoop, he, if_false, Bool.false_eq_true]
      rw [ih h hrest (fun q hq heq => hopen q (List.mem_cons_of_mem _ hq) heq)]
      congr 1
      apply Hub.ext_fields
      · simp only [Hub.fanout]
        apply List.filter_congr
        intro q _
        by_cases hq : q = p
        · subst hq
          simp [he]
        · simp [hq]
      · rfl
      · funext q
        by_cases hq : q = p
        · subst hq
          simp [Hub.fanout, he]
        · simp [Hub.fanout, hq]

theorem broadcastMessageLoop_eq (m : Bytes) (ex : Option Ptr) (l : List Ptr) :
    ∀ h : Hub, Hub.broadcastMessageLoop m ex l h = Hub.fanoutLoop (notExcluded ex) m l h := by
  induction l with
  | nil => intro h; rfl
  | cons p rest ih =>
    intro h
    by_cases he : some p = ex
    · simp [Hub.broadcastMessageLoop, Hub.fanoutLoop, notExcluded, he, ih]
    · simp only [Hub.broadcastMessageLoop, Hub.fanoutLoop, notExcluded, he, if_false, ne_eq,
        not_false_eq_true, decide_True, if_true]
      cases hd : h.deliver p m with
      | error e => rfl
      | ok h' => exact ih h'

theorem inScope_deliver (h h' : Hub) (p : Ptr) (m : Bytes) (sid : String) (ex : Option Ptr)
    (hd : h.deliver p m = Except.ok h') : h'.inScope sid ex = h.inScope sid ex := by
  funext q
  simp [Hub.inScope, deliver_sessionID h h' p m hd q]

theorem broadcastToSessionLoop_eq (m : Bytes) (sid : String) (ex : Option Ptr) (l : List Ptr) :
    ∀ h : Hub, Hub.broadcastToSessionLoop m sid ex l h
      = Hub.fanoutLoop (h.inScope sid ex) m l h := by
  induction l with
  | nil => intro h; rfl
  | cons p rest ih =>
    intro h
    by_cases he : (h.mem p).SessionID = sid ∧ some p ≠ ex
    · have he' : h.inScope sid ex p = true := by simp [Hub.inScope, he.1, he.2]
      rw [Hub.broadcastToSessionLoop, Hub.fanoutLoop, if_pos he, if_pos he']
      cases hd : h.deliver p m with
      | error e => rfl
      | ok h' =>
        simp only []
        rw [ih h', inScope_deliver h h' p m sid ex hd]
    · have he' : h.inScope sid ex p = false := by simp [Hub.inScope, he]
      rw [Hub.broadcastToSessionLoop, Hub.fanoutLoop, if_neg he, he']
      simp only [Bool.false_eq_true, if_false]
      exact ih h

theorem broadcastToSession_eq (h : Hub) (m : Bytes) (sid : String) (ex : Option Ptr)
    (hwf : h.WF) :
    h.broadcastToSession m sid ex = Except.ok (h.fanout (h.inScope sid ex) m h.Clients) := by
  unfold Hub.broadcastToSession
  rw [broadcastToSessionLoop_eq]
  exact fanoutLoop_eq_fanout _ m h.Clients h hwf.1 (fun q hq _ => hwf.2 q hq)

theorem broadcastMessage_eq (h : Hub) (m : Bytes) (ex : Option Ptr) (hwf : h.WF) :
    h.broadcastMessage m ex = Except.ok (h.fanout (notExcluded ex) m h.Clients) := by
  unfold Hub.broadcastMessage
  rw [broadcastMessageLoop_eq]
  exact fanoutLoop_eq_fanout _ m h.Clients h hwf.1 (fun q hq _ => hwf.2 q hq)

/-! ## What a fan-out changes -/

theorem fanout_mem_live (h : Hub) (elig : Ptr → Bool) (m : Bytes) (q : Ptr) :
    q ∈ (h.fanout elig m h.Clients).Clients ↔
      q ∈ h.Clients ∧ ¬ (elig q = true ∧ (h.mem q).Send.hasRoom = false) := by
  simp only [Hub.fanout, List.mem_filter]
  constructor
  · rintro ⟨h1, h2⟩
    refine ⟨h1, ?_⟩
    rintro ⟨h3, h4⟩
    simp [h1, h3, h4] at h2
  · rintro ⟨h1, h2⟩
    refine ⟨h1, ?_⟩
    by_cases h3 : elig q = true
    · by_cases h4 : (h.mem q).Send.hasRoom = true
      · simp [h4]
      · exact absurd ⟨h3, by simpa using h4⟩ h2
    · simp [h3]

theorem fanout_wf (h : Hub) (elig : Ptr → Bool) (m : Bytes) (hwf : h.WF) :
    (h.fanout elig m h.Clients).WF := by
  refine ⟨?_, ?_⟩
  · exact List.Nodup.filter _ hwf.1
  · intro q hq
    have hq' := (fanout_mem_live h elig m q).mp hq
    have hopen := hwf.2 q hq'.1
    by_cases he : elig q = true
    · have hr : (h.mem q).Send.hasRoom = true := by
        by_contra hr
        exact hq'.2 ⟨he, by simpa using hr⟩
      simp [Hub.fanout, hq'.1, he, Client.offered, hr, hopen]
    · simp [Hub.fanout, he, hopen]

/-! ## A delivery attempt leaves the position cache alone -/

theorem deliver_ups (h h' : Hub) (p : Ptr) (m : Bytes) (hd : h.deliver p m = Except.ok h') :
    h'.UserPositions = h.UserPositions := by
  unfold Hub.deliver Chan.trySend Chan.close at hd
  by_cases hc : (h.mem p).Send.closed = true
  · simp [hc] at hd
  · by_cases hr : (h.mem p).Send.hasRoom = true
    · simp only [hc, hr, if_true, if_false, Bool.false_eq_true] at hd
      cases hd
      rfl
    · simp only [hc, hr, if_true, if_false, Bool.false_eq_true] at hd
      cases hd
      rfl

theorem fanoutLoop_ups (elig : Ptr → Bool) (m : Bytes) (l : List Ptr) :
    ∀ h h' : Hub, Hub.fanoutLoop elig m l h = Except.ok h' →
      h'.UserPositions = h.UserPositions := by
  induction l with
  | nil =>
    intro h h' hrun
    simp only [Hub.fanoutLoop] at hrun
    cases hrun
    rfl
  | cons p rest ih =>
    intro h h' hrun
    simp only [Hub.fanoutLoop] at hrun
    by_cases he : elig p = true
    · simp only [he, if_true] at hrun
      cases hd : h.deliver p m with
      | error e =>
        rw [hd] at hrun
        cases hrun
      | ok h1 =>
        rw [hd] at hrun
        rw [ih h1 h' hrun, deliver_ups h h1 p m hd]
    · simp only [he, if_false, Bool.false_eq_true] at hrun
      exact ih h h' hrun

theorem broadcastMessage_ups (h h' : Hub) (m : Bytes) (ex : Option Ptr)
    (hrun : h.broadcastMessage m ex = Except.ok h') : h'.UserPositions = h.UserPositions := by
  unfold Hub.broadcastMessage at hrun
  rw [broadcastMessageLoop_eq] at hrun
  exact fanoutLoop_ups _ m h.Clients h h' hrun

theorem broadcastToSession_ups (h h' : Hub) (m : Bytes) (sid : String) (ex : Option Ptr)
    (hrun : h.broadcastToSession m sid ex = Except.ok h') :
    h'.UserPositions = h.UserPositions := by
  unfold Hub.broadcastToSession at hrun
  rw [broadcastToSessionLoop_eq] at hrun
  exact fanoutLoop_ups _ m h.Clients h h' hrun

/-! ## Registration and its replay -/

theorem visitOrder_nil (m : List (String × JObj)) : visitOrder m [] = m := by
  unfold visitOrder
  cases m with
  | nil => rfl
  | cons a t => simp

theorem visitOrder_perm (m order : List (String × JObj)) : (visitOrder m order).Perm m := by
  unfold visitOrder
  by_cases hp : order.Perm m
  · rw [if_pos hp]
    exact hp
  · rw [if_neg hp]

theorem replay_nil (h : Hub) (stored : Option (List VoxelEvent)) :
    h.replay stored [] = eventsReplay stored ++ positionsReplay h.UserPositions := by
  rw [Hub.replay, visitOrder_nil]

theorem replay_length (h : Hub) (stored : Option (List VoxelEvent))
    (order : List (String × JObj)) :
    (h.replay stored order).length = (eventsReplay stored).length + h.UserPositions.length := by
  rw [Hub.replay, List.length_append, positionsReplay, List.length_map,
    (visitOrder_perm h.UserPositions order).length_eq]

theorem pushed_nil (h : Hub) (p : Ptr) : h.pushed p [] = h := by
  apply Hub.ext_fields
  · rfl
  · rfl
  · funext q
    by_cases hq : q = p
    · subst hq
      simp [Hub.pushed]
    · simp [Hub.pushed, hq]

theorem pushed_pushed (h : Hub) (p : Ptr) (a b : List Bytes) :
    (h.pushed p a).pushed p b = h.pushed p (a ++ b) := by
  apply Hub.ext_fields
  · rfl
  · rfl
  · funext q
    by_cases hq : q = p
    · subst hq
      simp [Hub.pushed]
    · simp [Hub.pushed, hq]

theorem pushed_open (h : Hub) (p : Ptr) (ms : List Bytes)
    (hopen : (h.mem p).Send.closed = false) : ((h.pushed p ms).mem p).Send.closed = false := by
  simp [Hub.pushed, hopen]

theorem trySend_some (c ch : Chan) (m : Bytes) (hs : c.trySend m = Except.ok (some ch)) :
    c.closed = false ∧ c.buf.length < c.cap ∧ ch = { c with buf := c.buf ++ [m] } := by
  obtain ⟨buf, cap, closed⟩ := c
  unfold Chan.trySend Chan.hasRoom at hs
  cases closed with
  | true => simp at hs
  | false =>
    by_cases hr : buf.length < cap
    · simp only [hr, decide_True, if_true, if_false, Bool.false_eq_true] at hs
      cases hs
      exact ⟨rfl, hr, rfl⟩
    · simp [hr] at hs

theorem trySend_none (c : Chan) (m : Bytes) (hs : c.trySend m = Except.ok none) :
    c.closed = false ∧ c.cap ≤ c.buf.length := by
  obtain ⟨buf, cap, closed⟩ := c
  unfold Chan.trySend Chan.hasRoom at hs
  cases closed with
  | true => simp at hs
  | false =>
    by_cases hr : buf.length < cap
    · simp [hr] at hs
    · exact ⟨rfl, by simpa using hr⟩

theorem trySend_error (c : Chan) (m : Bytes) (e : Halt) (hs : c.trySend m = Except.error e) :
    c.closed = true ∧ e = Halt.sendOnClosed := by
  obtain ⟨buf, cap, closed⟩ := c
  unfold Chan.trySend Chan.hasRoom at hs
  cases closed with
  | true =>
    simp only [if_true] at hs
    cases hs
    exact ⟨rfl, rfl⟩
  | false =>
    by_cases hr : buf.length < cap
    · simp [hr] at hs
    · simp [hr] at hs

theorem trySend_room (c : Chan) (m : Bytes) (hopen : c.closed = false)
    (hroom : c.buf.length < c.cap) :
    c.trySend m = Except.ok (some { c with buf := c.buf ++ [m] }) := by
  unfold Chan.trySend Chan.hasRoom
  simp [hopen, hroom]

theorem trySend_closed (c : Chan) (m : Bytes) (hc : c.closed = true) :
    c.trySend m = Except.error Halt.sendOnClosed := by
  unfold Chan.trySend
  simp [hc]

theorem trySend_full (c : Chan) (m : Bytes) (hopen : c.closed = false)
    (hfull : c.cap ≤ c.buf.length) : c.trySend m = Except.ok none := by
  unfold Chan.trySend Chan.hasRoom
  have : ¬ c.buf.length < c.cap := by omega
  simp [hopen, this]

theorem setSend_pushed (h : Hub) (p : Ptr) (m : Bytes) :
    ({ h with mem := setSend h.mem p { (h.mem p).Send with buf := (h.mem p).Send.buf ++ [m] } }
      : Hub) = h.pushed p [m] := by
  apply Hub.ext_fields
  · rfl
  · rfl
  · funext q
    by_cases hq : q = p
    · subst hq
      simp [Hub.pushed, setSend]
    · simp [Hub.pushed, setSend, hq]

theorem sendTo_ok (h : Hub) (p : Ptr) (m : Bytes) (hopen : (h.mem p).Send.closed = false)
    (hroom : (h.mem p).Send.buf.length + 1 ≤ (h.mem p).Send.cap) :
    Hub.sendTo p m h [] = Except.ok (h.pushed p [m], []) := by
  rw [Hub.sendTo, trySend_room _ m hopen (by omega)]
  simp only []
  rw [setSend_pushed]

theorem sendTo_idle (h : Hub) (p : Ptr) (m : Bytes) (rest : Schedule)
    (hopen : (h.mem p).Send.closed = false)
    (hroom : (h.mem p).Send.buf.length + 1 ≤ (h.mem p).Send.cap) :
    Hub.sendTo p m h ([] :: rest) = Except.ok (h.pushed p [m], rest) := by
  rw [Hub.sendTo]
  simp only [Hub.envs]
  rw [trySend_room _ m hopen (by omega)]
  simp only []
  rw [setSend_pushed]

theorem sendAll_ok (p : Ptr) (msgs : List Bytes) :
    ∀ h : Hub, (h.mem p).Send.closed = false →
      (h.mem p).Send.buf.length + msgs.length ≤ (h.mem p).Send.cap →
      Hub.sendAll p msgs h [] = Except.ok (h.pushed p msgs, []) := by
  induction msgs with
  | nil =>
    intro h _ _
    simp [Hub.sendAll, pushed_nil]
  | cons m rest ih =>
    intro h hopen hroom
    simp only [List.length_cons] at hroom
    rw [Hub.sendAll, sendTo_ok h p m hopen (by omega)]
    simp only []
    rw [ih _ (pushed_open h p _ hopen) (by simp [Hub.pushed]; omega), pushed_pushed]
    simp

theorem sendAll_idle (p : Ptr) (msgs : List Bytes) :
    ∀ (h : Hub) (n : Nat) (rest : Schedule), (h.mem p).Send.closed = false →
      (h.mem p).Send.buf.length + msgs.length ≤ (h.mem p).Send.cap → msgs.length ≤ n →
      Hub.sendAll p msgs h (List.replicate n [] ++ rest) =
        Except.ok (h.pushed p msgs, List.replicate (n - msgs.length) [] ++ rest) := by
  induction msgs with
  | nil =>
    intro h n rest _ _ _
    simp [Hub.sendAll, pushed_nil]
  | cons m ms ih =>
    intro h n rest hopen hroom hn
    simp only [List.length_cons] at hroom hn
    obtain ⟨k, rfl⟩ : ∃ k, n = k + 1 := ⟨n - 1, by omega⟩
    rw [List.replicate_succ, List.cons_append, Hub.sendAll, sendTo_idle h p m _ hopen (by omega)]
    simp only []
    rw [ih _ k rest (pushed_open h p _ hopen) (by simp [Hub.pushed]; omega) (by omega),
      pushed_pushed]
    simp

theorem sendExistingPositionsLoop_eq (p : Ptr) (l : List (String × JObj)) :
    ∀ (h : Hub) (sched : Schedule),
      Hub.sendExistingPositionsLoop p l h sched = Hub.sendAll p (positionsReplay l) h sched := by
  induction l with
  | nil =>
    intro h sched
    rfl
  | cons kv rest ih =>
    intro h sched
    obtain ⟨k, pos⟩ := kv
    simp only [Hub.sendExistingPositionsLoop, positionsReplay, List.map_cons, Hub.sendAll]
    cases Hub.sendTo p (marshal { Typ := "move", Payload := Payload.object pos }) h sched with
    | error e => rfl
    | ok r =>
      obtain ⟨h', sched'⟩ := r
      exact ih h' sched'

theorem sendExistingEvents_eq (h : Hub) (p : Ptr) (stored : Option (List VoxelEvent))
    (sched : Schedule) :
    h.sendExistingEvents p stored sched = Hub.sendAll p (eventsReplay stored) h sched := by
  unfold Hub.sendExistingEvents eventsReplay
  cases stored with
  | none => rfl
  | some events =>
    by_cases he : events.length = 0
    · simp [he, Hub.sendAll]
    · simp only [he, if_false, Hub.sendAll]
      cases Hub.sendTo p (marshal { Typ := "events_list", Payload := Payload.events events })
        h sched with
      | error e => rfl
      | ok r => rfl

theorem sendAll_append (p : Ptr) (a b : List Bytes) :
    ∀ (h : Hub) (sched : Schedule),
      Hub.sendAll p (a ++ b) h sched =
        match Hub.sendAll p a h sched with
        | Except.error e => Except.error e
        | Except.ok (h', sched') => Hub.sendAll p b h' sched' := by
  induction a with
  | nil =>
    intro h sched
    rfl
  | cons m rest ih =>
    intro h sched
    simp only [List.cons_append, Hub.sendAll]
    cases Hub.sendTo p m h sched with
    | error e => rfl
    | ok r =>
      obtain ⟨h', sched'⟩ := r
      exact ih h' sched'

/-! ## What leaves the position cache alone -/

theorem handleCreateEvent_ups (h h' : Hub) (payload : JObj) (t1 t2 : Nat) (inserted : Bool)
    (hrun : h.HandleCreateEvent payload t1 t2 inserted = Except.ok h') :
    h'.UserPositions = h.UserPositions := by
  unfold Hub.HandleCreateEvent at hrun
  cases hp : parseVoxelEvent payload t1 t2 with
  | error e =>
    rw [hp] at hrun
    cases hrun
  | ok ev =>
    rw [hp] at hrun
    simp only [] at hrun
    cases inserted with
    | true =>
      simp only [if_true] at hrun
      exact broadcastMessage_ups h h' _ none hrun
    | false =>
      simp only [Bool.false_eq_true, if_false] at hrun
      cases hrun
      rfl

theorem env_ups (h h' : Hub) (a : EnvAction) (hrun : h.env a = Except.ok h') :
    h'.UserPositions = h.UserPositions := by
  cases a with
  | writerRecv c =>
    simp only [Hub.env] at hrun
    cases hrun
    rfl
  | assignSession c sid =>
    simp only [Hub.env] at hrun
    cases hrun
    rfl
  | createEvent payload t1 t2 inserted =>
    exact handleCreateEvent_ups h h' payload t1 t2 inserted hrun

theorem envs_ups (l : List EnvAction) :
    ∀ h h' : Hub, h.envs l = Except.ok h' → h'.UserPositions = h.UserPositions := by
  induction l with
  | nil =>
    intro h h' hrun
    simp only [Hub.envs] at hrun
    cases hrun
    rfl
  | cons a rest ih =>
    intro h h' hrun
    simp only [Hub.envs] at hrun
    cases ha : h.env a with
    | error e =>
      rw [ha] at hrun
      cases hrun
    | ok h1 =>
      rw [ha] at hrun
      rw [ih h1 h' hrun, env_ups h h1 a ha]

theorem sendTo_ups (p : Ptr) (m : Bytes) (sched : Schedule) :
    ∀ (h h' : Hub) (rest : Schedule), Hub.sendTo p m h sched = Except.ok (h', rest) →
      h'.UserPositions = h.UserPositions := by
  induction sched with
  | nil =>
    intro h h' rest hrun
    rw [Hub.sendTo] at hrun
    cases hs : (h.mem p).Send.trySend m with
    | error e =>
      rw [hs] at hrun
      cases hrun
    | ok o =>
      rw [hs] at hrun
      cases o with
      | none => cases hrun
      | some ch =>
        simp only [Except.ok.injEq, Prod.mk.injEq] at hrun
        rw [← hrun.1]
  | cons chunk tail ih =>
    intro h h' rest hrun
    rw [Hub.sendTo] at hrun
    cases he : h.envs chunk with
    | error e =>
      rw [he] at hrun
      cases hrun
    | ok h1 =>
      rw [he] at hrun
      simp only [] at hrun
      have h1u := envs_ups chunk h h1 he
      cases hs : (h1.mem p).Send.trySend m with
      | error e =>
        rw [hs] at hrun
        cases hrun
      | ok o =>
        rw [hs] at hrun
        cases o with
        | none =>
          simp only [] at hrun
          rw [ih h1 h' rest hrun, h1u]
        | some ch =>
          simp only [Except.ok.injEq, Prod.mk.injEq] at hrun
          rw [← hrun.1]
          exact h1u

theorem sendAll_ups (p : Ptr) (msgs : List Bytes) :
    ∀ (h h' : Hub) (sched rest : Schedule), Hub.sendAll p msgs h sched = Except.ok (h', rest) →
      h'.UserPositions = h.UserPositions := by
  induction msgs with
  | nil =>
    intro h h' sched rest hrun
    simp only [Hub.sendAll, Except.ok.injEq, Prod.mk.injEq] at hrun
    rw [← hrun.1]
  | cons m ms ih =>
    intro h h' sched rest hrun
    simp only [Hub.sendAll] at hrun
    cases hs : Hub.sendTo p m h sched with
    | error e =>
      rw [hs] at hrun
      cases hrun
    | ok r =>
      obtain ⟨h1, s1⟩ := r
      rw [hs] at hrun
      simp only [] at hrun
      rw [ih h1 h' s1 rest hrun, sendTo_ups p m sched h h1 s1 hs]

/-- A registration is the blocking sends of its replay to the new connection. -/
theorem onRegister_eq (h : Hub) (p : Ptr) (obj : Client) (stored : Option (List VoxelEvent))
    (order : List (String × JObj)) (sched : Schedule) :
    h.onRegister p obj stored order sched =
      match Hub.sendAll p (h.replay stored order) (h.add p obj) sched with
      | Except.error e => Except.error e
      | Except.ok (h', _) => Except.ok h' := by
  unfold Hub.onRegister Hub.replay
  rw [sendExistingEvents_eq, sendAll_append]
  cases hs : Hub.sendAll p (eventsReplay stored) (h.add p obj) sched with
  | error e => rfl
  | ok r =>
    obtain ⟨h2, s2⟩ := r
    simp only []
    have hu : h2.UserPositions = h.UserPositions := sendAll_ups p _ (h.add p obj) h2 sched s2 hs
    unfold Hub.sendExistingPositions
    rw [sendExistingPositionsLoop_eq, hu]

theorem registered_eq (h : Hub) (p : Ptr) (obj : Client) (stored : Option (List VoxelEvent))
    (order : List (String × JObj)) :
    (h.add p obj).pushed p (h.replay stored order) = h.registered p obj stored order := by
  apply Hub.ext_fields
  · rfl
  · rfl
  · funext q
    by_cases hq : q = p
    · subst hq
      simp [Hub.pushed, Hub.registered, Hub.add]
    · simp [Hub.pushed, Hub.registered, Hub.add, hq]

theorem add_open (h : Hub) (p : Ptr) (obj : Client) (hopen : obj.Send.closed = false) :
    ((h.add p obj).mem p).Send.closed = false := by
  simp [Hub.add, hopen]

theorem onRegister_ok (h : Hub) (p : Ptr) (obj : Client) (stored : Option (List VoxelEvent))
    (order : List (String × JObj)) (hopen : obj.Send.closed = false)
    (hroom : obj.Send.buf.length + (h.replay stored order).length ≤ obj.Send.cap) :
    h.onRegister p obj stored order [] = Except.ok (h.registered p obj stored order) := by
  rw [onRegister_eq, sendAll_ok p _ _ (add_open h p obj hopen) (by simpa [Hub.add] using hroom)]
  simp only []
  rw [registered_eq]

/-! ## Invariants of the event loop -/

theorem fanout_tracks (h : Hub) (E R : List Ptr) (elig : Ptr → Bool) (m : Bytes)
    (ht : h.Tracks E R) : (h.fanout elig m h.Clients).Tracks E R := by
  obtain ⟨hwf, hlive, hER, hclosed⟩ := ht
  refine ⟨fanout_wf h elig m hwf, ?_, hER, ?_⟩
  · intro p hp
    exact hlive p ((fanout_mem_live h elig m p).mp hp).1
  · intro p hpE hp
    by_cases hpl : p ∈ h.Clients
    · have hne : elig p = true ∧ (h.mem p).Send.hasRoom = false := by
        by_contra hcon
        exact hp ((fanout_mem_live h elig m p).mpr ⟨hpl, hcon⟩)
      simp [Hub.fanout, hpl, hne.1, Client.offered, hne.2]
    · have := hclosed p hpE hpl
      simp [Hub.fanout, hpl, this]

theorem removed_tracks (h : Hub) (E R : List Ptr) (p : Ptr) (ht : h.Tracks E R) :
    (h.removed p).Tracks (E.filter (fun q => decide (q ≠ p))) R := by
  obtain ⟨hwf, hlive, hER, hclosed⟩ := ht
  refine ⟨⟨List.Nodup.filter _ hwf.1, ?_⟩, ?_, ?_, ?_⟩
  · intro q hq
    have hq' : q ∈ h.Clients ∧ q ≠ p := by simpa [Hub.removed] using hq
    simpa [Hub.removed, setSend, hq'.2] using hwf.2 q hq'.1
  · intro q hq
    have hq' : q ∈ h.Clients ∧ q ≠ p := by simpa [Hub.removed] using hq
    simp [hlive q hq'.1, hq'.2]
  · intro q hq
    have hq' : q ∈ E ∧ q ≠ p := by simpa using hq
    exact hER q hq'.1
  · intro q hq hnl
    have hq' : q ∈ E ∧ q ≠ p := by simpa using hq
    have hnl' : q ∉ h.Clients := by
      intro hin
      apply hnl
      simp [Hub.removed, hin, hq'.2]
    simpa [Hub.removed, setSend, hq'.2] using hclosed q hq'.1 hnl'

theorem close_open (c : Chan) (hopen : c.closed = false) :
    c.close = Except.ok { c with closed := true } := by
  simp [Chan.close, hopen]

theorem onUnregister_live (h : Hub) (p : Ptr) (hwf : h.WF) (hp : p ∈ h.Clients) :
    h.onUnregister p = Except.ok
      ((h.removed p).fanout (h.leaveScope p) (leaveMessage (h.mem p).UserID)
        (h.removed p).Clients) := by
  have hopen := hwf.2 p hp
  have hwf3 : (h.removed p).WF :=
    (removed_tracks h h.Clients h.Clients p ⟨hwf, fun _ hq => hq, fun _ hq => hq,
      fun _ hq hn => absurd hq hn⟩).1
  have hsid : ((h.removed p).mem p).SessionID = (h.mem p).SessionID := by
    simp [Hub.removed, setSend]
  unfold Hub.onUnregister
  rw [if_pos hp]
  simp only []
  rw [close_open _ hopen]
  simp only []
  change (if ((h.removed p).mem p).SessionID ≠ "" then
      (h.removed p).broadcastToSession (leaveMessage (h.mem p).UserID)
        ((h.removed p).mem p).SessionID none
    else (h.removed p).broadcastMessage (leaveMessage (h.mem p).UserID) none) = _
  rw [hsid]
  unfold Hub.leaveScope
  by_cases hs : (h.mem p).SessionID = ""
  · simp only [hs, ne_eq, not_true_eq_false, if_false]
    exact broadcastMessage_eq (h.removed p) _ none hwf3
  · simp only [hs, ne_eq, not_false_eq_true, if_true]
    exact broadcastToSession_eq (h.removed p) _ _ none hwf3

theorem onUnregister_absent (h : Hub) (p : Ptr) (hp : p ∉ h.Clients) :
    h.onUnregister p = Except.ok h := by
  unfold Hub.onUnregister
  simp [hp]

theorem cacheMove_clients (h : Hub) (msg : Message) : (h.cacheMove msg).Clients = h.Clients := by
  unfold Hub.cacheMove
  split
  · split
    · split
      · split <;> rfl
      · rfl
    · rfl
  · rfl

theorem cacheMove_mem (h : Hub) (msg : Message) : (h.cacheMove msg).mem = h.mem := by
  unfold Hub.cacheMove
  split
  · split
    · split
      · split <;> rfl
      · rfl
    · rfl
  · rfl

theorem cacheMove_tracks (h : Hub) (E R : List Ptr) (msg : Message) (ht : h.Tracks E R) :
    (h.cacheMove msg).Tracks E R := by
  unfold Hub.Tracks Hub.WF Hub.LiveOpen at ht ⊢
  rw [cacheMove_clients, cacheMove_mem]
  exact ht

theorem onBroadcast_tracks (h : Hub) (E R : List Ptr) (bm : BroadcastMessage)
    (ht : h.Tracks E R) : ∃ h', h.onBroadcast bm = Except.ok h' ∧ h'.Tracks E R := by
  unfold Hub.onBroadcast
  cases hu : unmarshal bm.Message with
  | none => exact ⟨h, rfl, ht⟩
  | some msg =>
    simp only []
    by_cases hs : isScopedType msg.Typ = true
    · simp only [hs, if_true]
      have ht1 := cacheMove_tracks h E R msg ht
      cases hx : bm.Exclude with
      | none => exact ⟨_, rfl, ht1⟩
      | some ex =>
        simp only []
        exact ⟨_, broadcastToSession_eq _ _ _ _ ht1.1, fanout_tracks _ E R _ _ ht1⟩
    · simp only [hs, if_false, Bool.false_eq_true]
      exact ⟨_, broadcastMessage_eq _ _ _ ht.1, fanout_tracks _ E R _ _ ht⟩

theorem add_tracks (h : Hub) (E R : List Ptr) (p : Ptr) (obj : Client)
    (ht : h.Tracks E R) (hp : p ∉ R) (hopen : obj.Send.closed = false) :
    (h.add p obj).Tracks (E ++ [p]) (p :: R) := by
  obtain ⟨hwf, hlive, hER, hclosed⟩ := ht
  have hpE : p ∉ E := fun hin => hp (hER p hin)
  have hpl : p ∉ h.Clients := fun hin => hpE (hlive p hin)
  refine ⟨⟨?_, ?_⟩, ?_, ?_, ?_⟩
  · simp only [Hub.add, hpl, if_false]
    exact List.Nodup.append hwf.1 (List.nodup_singleton p) (by simpa using hpl)
  · intro q hq
    have hq' : q ∈ h.Clients ∨ q = p := by simpa [Hub.add, hpl] using hq
    by_cases hqp : q = p
    · subst hqp
      simp [Hub.add, hopen]
    · rcases hq' with hq' | hq'
      · simpa [Hub.add, hqp] using hwf.2 q hq'
      · exact absurd hq' hqp
  · intro q hq
    have hq' : q ∈ h.Clients ∨ q = p := by simpa [Hub.add, hpl] using hq
    rcases hq' with hq' | hq'
    · simp [hlive q hq']
    · simp [hq']
  · intro q hq
    have hq' : q ∈ E ∨ q = p := by simpa using hq
    rcases hq' with hq' | hq'
    · exact List.mem_cons_of_mem _ (hER q hq')
    · simp [hq']
  · intro q hq hnl
    have hnl' : q ∉ h.Clients ∧ q ≠ p := by simpa [Hub.add, hpl] using hnl
    have hq' : q ∈ E ∨ q = p := by simpa using hq
    rcases hq' with hq' | hq'
    · simpa [Hub.add, hnl'.2] using hclosed q hq' hnl'.1
    · exact absurd hq' hnl'.2

theorem sameShape_refl (h : Hub) : h.SameShape h :=
  ⟨rfl, rfl, fun _ => ⟨rfl, rfl⟩⟩

theorem sameShape_trans (h1 h2 h3 : Hub) (h12 : h1.SameShape h2) (h23 : h2.SameShape h3) :
    h1.SameShape h3 :=
  ⟨h23.1.trans h12.1, h23.2.1.trans h12.2.1,
    fun q => ⟨(h23.2.2 q).1.trans (h12.2.2 q).1, (h23.2.2 q).2.trans (h12.2.2 q).2⟩⟩

theorem sameShape_tracks (h h' : Hub) (E R : List Ptr) (hs : h.SameShape h')
    (ht : h.Tracks E R) : h'.Tracks E R := by
  obtain ⟨hc, _, hm⟩ := hs
  obtain ⟨hwf, hlive, hER, hclosed⟩ := ht
  refine ⟨⟨?_, ?_⟩, ?_, hER, ?_⟩
  · rw [hc]
    exact hwf.1
  · intro q hq
    rw [hc] at hq
    rw [(hm q).1]
    exact hwf.2 q hq
  · intro q hq
    rw [hc] at hq
    exact hlive q hq
  · intro q hq hnl
    rw [hc] at hnl
    rw [(hm q).1]
    exact hclosed q hq hnl

theorem sameShape_setSend (h : Hub) (p : Ptr) (ch : Chan)
    (hc : ch.closed = (h.mem p).Send.closed) (hk : ch.cap = (h.mem p).Send.cap) :
    h.SameShape { h with mem := setSend h.mem p ch } := by
  refine ⟨rfl, rfl, fun q => ?_⟩
  by_cases hq : q = p
  · subst hq
    simp [setSend, hc, hk]
  · simp [setSend, hq]

theorem sameShape_setSession (h : Hub) (p : Ptr) (sid : String) :
    h.SameShape { h with mem := setSession h.mem p sid } := by
  refine ⟨rfl, rfl, fun q => ?_⟩
  by_cases hq : q = p
  · subst hq
    simp [setSession]
  · simp [setSession, hq]

theorem sameShape_pushed (h : Hub) (p : Ptr) (ms : List Bytes) : h.SameShape (h.pushed p ms) := by
  refine ⟨rfl, rfl, fun q => ?_⟩
  by_cases hq : q = p
  · subst hq
    simp [Hub.pushed]
  · simp [Hub.pushed, hq]

/-! ## The invariant through the other goroutines and the blocking sends -/

theorem handleCreateEvent_tracks (h h' : Hub) (E R : List Ptr) (payload : JObj) (t1 t2 : Nat)
    (inserted : Bool) (ht : h.Tracks E R)
    (hrun : h.HandleCreateEvent payload t1 t2 inserted = Except.ok h') : h'.Tracks E R := by
  unfold Hub.HandleCreateEvent at hrun
  cases hp : parseVoxelEvent payload t1 t2 with
  | error e =>
    rw [hp] at hrun
    cases hrun
  | ok ev =>
    rw [hp] at hrun
    simp only [] at hrun
    cases inserted with
    | true =>
      simp only [if_true] at hrun
      rw [broadcastMessage_eq h _ none ht.1] at hrun
      cases hrun
      exact fanout_tracks _ E R _ _ ht
    | false =>
      simp only [Bool.false_eq_true, if_false] at hrun
      cases hrun
      exact ht

theorem env_tracks (h h' : Hub) (E R : List Ptr) (a : EnvAction) (ht : h.Tracks E R)
    (hrun : h.env a = Except.ok h') : h'.Tracks E R := by
  cases a with
  | writerRecv c =>
    simp only [Hub.env] at hrun
    cases hrun
    exact sameShape_tracks h _ E R (sameShape_setSend h c _ rfl rfl) ht
  | assignSession c sid =>
    simp only [Hub.env] at hrun
    cases hrun
    exact sameShape_tracks h _ E R (sameShape_setSession h c sid) ht
  | createEvent payload t1 t2 inserted =>
    exact handleCreateEvent_tracks h h' E R payload t1 t2 inserted ht hrun

theorem envs_tracks (l : List EnvAction) (E R : List Ptr) :
    ∀ h h' : Hub, h.Tracks E R → h.envs l = Except.ok h' → h'.Tracks E R := by
  induction l with
  | nil =>
    intro h h' ht hrun
    simp only [Hub.envs] at hrun
    cases hrun
    exact ht
  | cons a rest ih =>
    intro h h' ht hrun
    simp only [Hub.envs] at hrun
    cases ha : h.env a with
    | error e =>
      rw [ha] at hrun
      cases hrun
    | ok h1 =>
      rw [ha] at hrun
      exact ih h1 h' (env_tracks h h1 E R a ht ha) hrun

theorem trySend_tracks (h : Hub) (E R : List Ptr) (p : Ptr) (m : Bytes) (ch : Chan)
    (ht : h.Tracks E R) (hs : (h.mem p).Send.trySend m = Except.ok (some ch)) :
    ({ h with mem := setSend h.mem p ch } : Hub).Tracks E R := by
  obtain ⟨_, _, hch⟩ := trySend_some _ ch m hs
  subst hch
  exact sameShape_tracks h _ E R (sameShape_setSend h p _ rfl rfl) ht

theorem sendTo_tracks (p : Ptr) (m : Bytes) (E R : List Ptr) (sched : Schedule) :
    ∀ (h h' : Hub) (rest : Schedule), h.Tracks E R →
      Hub.sendTo p m h sched = Except.ok (h', rest) → h'.Tracks E R := by
  induction sched with
  | nil =>
    intro h h' rest ht hrun
    rw [Hub.sendTo] at hrun
    cases hs : (h.mem p).Send.trySend m with
    | error e =>
      rw [hs] at hrun
      cases hrun
    | ok o =>
      rw [hs] at hrun
      cases o with
      | none => cases hrun
      | some ch =>
        simp only [Except.ok.injEq, Prod.mk.injEq] at hrun
        rw [← hrun.1]
        exact trySend_tracks h E R p m ch ht hs
  | cons chunk tail ih =>
    intro h h' rest ht hrun
    rw [Hub.sendTo] at hrun
    cases he : h.envs chunk with
    | error e =>
      rw [he] at hrun
      cases hrun
    | ok h1 =>
      rw [he] at hrun
      simp only [] at hrun
      have ht1 := envs_tracks chunk E R h h1 ht he
      cases hs : (h1.mem p).Send.trySend m with
      | error e =>
        rw [hs] at hrun
        cases hrun
      | ok o =>
        rw [hs] at hrun
        cases o with
        | none =>
          simp only [] at hrun
          exact ih h1 h' rest ht1 hrun
        | some ch =>
          simp only [Except.ok.injEq, Prod.mk.injEq] at hrun
          rw [← hrun.1]
          exact trySend_tracks h1 E R p m ch ht1 hs

theorem sendAll_tracks (p : Ptr) (E R : List Ptr) (msgs : List Bytes) :
    ∀ (h h' : Hub) (sched rest : Schedule), h.Tracks E R →
      Hub.sendAll p msgs h sched = Except.ok (h', rest) → h'.Tracks E R := by
  induction msgs with
  | nil =>
    intro h h' sched rest ht hrun
    simp only [Hub.sendAll, Except.ok.injEq, Prod.mk.injEq] at hrun
    rw [← hrun.1]
    exact ht
  | cons m ms ih =>
    intro h h' sched rest ht hrun
    simp only [Hub.sendAll] at hrun
    cases hs : Hub.sendTo p m h sched with
    | error e =>
      rw [hs] at hrun
      cases hrun
    | ok r =>
      obtain ⟨h1, s1⟩ := r
      rw [hs] at hrun
      simp only [] at hrun
      exact ih h1 h' s1 rest (sendTo_tracks p m E R sched h h1 s1 ht hs) hrun

theorem onRegister_tracks (h h' : Hub) (E R : List Ptr) (p : Ptr) (obj : Client)
    (stored : Option (List VoxelEvent)) (order : List (String × JObj)) (sched : Schedule)
    (ht : h.Tracks E R) (hp : p ∉ R) (hopen : obj.Send.closed = false)
    (hrun : h.onRegister p obj stored order sched = Except.ok h') :
    h'.Tracks (E ++ [p]) (p :: R) := by
  rw [onRegister_eq] at hrun
  cases hs : Hub.sendAll p (h.replay stored order) (h.add p obj) sched with
  | error e =>
    rw [hs] at hrun
    cases hrun
  | ok r =>
    obtain ⟨h1, s1⟩ := r
    rw [hs] at hrun
    simp only [Except.ok.injEq] at hrun
    rw [← hrun]
    exact sendAll_tracks p _ _ _ _ h1 sched s1 (add_tracks h E R p obj ht hp hopen) hs

theorem freshQueue_open (p : Ptr) (obj : Client) (stored : Option (List VoxelEvent))
    (order : List (String × JObj)) (sched : Schedule)
    (hf : (Action.hub (Event.register p obj stored order sched)).freshQueue = true) :
    obj.Send.closed = false ∧ obj.Send.buf = [] ∧ 0 < obj.Send.cap := by
  simp only [Action.freshQueue, Bool.and_eq_true, Bool.not_eq_true', List.isEmpty_iff,
    decide_eq_true_eq] at hf
  exact ⟨hf.1.1, hf.1.2, hf.2⟩

/-- One action that returns keeps the invariant. -/
theorem act_tracks (h h' : Hub) (E R : List Ptr) (a : Action) (ht : h.Tracks E R)
    (hnew : ∀ p ∈ a.registered, p ∉ R) (hfresh : a.freshQueue = true)
    (hrun : h.act a = Except.ok h') : h'.Tracks (a.track E) (a.registered ++ R) := by
  cases a with
  | hub ev =>
    cases ev with
    | register p obj stored order sched =>
      have hp : p ∉ R := hnew p (by simp [Action.registered])
      have hpE : p ∉ E := fun hin => hp (ht.2.2.1 p hin)
      have hopen := (freshQueue_open p obj stored order sched hfresh).1
      simp only [Hub.act, Hub.step] at hrun
      simp only [Action.track, Action.registered, hpE, if_false]
      exact onRegister_tracks h h' E R p obj stored order sched ht hp hopen hrun
    | unregister p =>
      simp only [Hub.act, Hub.step] at hrun
      simp only [Action.track, Action.registered, List.nil_append]
      by_cases hp : p ∈ h.Clients
      · rw [onUnregister_live h p ht.1 hp] at hrun
        cases hrun
        exact fanout_tracks _ _ R _ _ (removed_tracks h E R p ht)
      · rw [onUnregister_absent h p hp] at hrun
        cases hrun
        obtain ⟨hwf, hlive, hER, hclosed⟩ := ht
        refine ⟨hwf, ?_, ?_, ?_⟩
        · intro q hq
          have hqp : q ≠ p := fun hqp => hp (hqp ▸ hq)
          simp [hlive q hq, hqp]
        · intro q hq
          exact hER q (List.mem_of_mem_filter hq)
        · intro q hq hnl
          exact hclosed q (List.mem_of_mem_filter hq) hnl
    | broadcast bm =>
      simp only [Hub.act, Hub.step] at hrun
      simp only [Action.track, Action.registered, List.nil_append]
      obtain ⟨h2, hb, ht2⟩ := onBroadcast_tracks h E R bm ht
      rw [hb] at hrun
      cases hrun
      exact ht2
  | env a =>
    simp only [Hub.act] at hrun
    simp only [Action.track, Action.registered, List.nil_append]
    exact env_tracks h h' E R a ht hrun

/-! ## Registration while no reader runs `HandleCreateEvent` -/

theorem calm_cons (chunk : List EnvAction) (rest : Schedule) :
    Schedule.calm (chunk :: rest) = true ↔
      (∀ a ∈ chunk, a.calm = true) ∧ Schedule.calm rest = true := by
  simp [Schedule.calm]

theorem receives_cons (chunk : List EnvAction) (rest : Schedule) (c : Ptr) :
    Schedule.receives (chunk :: rest) c =
      chunk.count (EnvAction.writerRecv c) + Schedule.receives rest c := by
  simp [Schedule.receives]

theorem env_calm (h : Hub) (a : EnvAction) (ha : a.calm = true) :
    ∃ h', h.env a = Except.ok h' ∧ h.SameShape h' ∧
      ∀ q, ∃ k, k ≤ (h.mem q).Send.buf.length ∧ k ≤ [a].count (EnvAction.writerRecv q) ∧
        (h'.mem q).Send.buf = (h.mem q).Send.buf.drop k := by
  cases a with
  | writerRecv c =>
    refine ⟨_, rfl, sameShape_setSend h c _ rfl rfl, fun q => ?_⟩
    by_cases hq : q = c
    · subst hq
      cases hb : (h.mem q).Send.buf with
      | nil => exact ⟨0, by simp, by simp, by simp [setSend, Chan.recv, hb]⟩
      | cons x t => exact ⟨1, by simp, by simp, by simp [setSend, Chan.recv, hb]⟩
    · exact ⟨0, by simp, by simp, by simp [setSend, hq]⟩
  | assignSession c sid =>
    refine ⟨_, rfl, sameShape_setSession h c sid, fun q => ?_⟩
    by_cases hq : q = c
    · subst hq
      exact ⟨0, by simp, by simp, by simp [setSession]⟩
    · exact ⟨0, by simp, by simp, by simp [setSession, hq]⟩
  | createEvent payload t1 t2 inserted => simp [EnvAction.calm] at ha

theorem envs_calm (l : List EnvAction) :
    ∀ h : Hub, (∀ a ∈ l, a.calm = true) →
      ∃ h', h.envs l = Except.ok h' ∧ h.SameShape h' ∧
        ∀ q, ∃ k, k ≤ (h.mem q).Send.buf.length ∧ k ≤ l.count (EnvAction.writerRecv q) ∧
          (h'.mem q).Send.buf = (h.mem q).Send.buf.drop k := by
  induction l with
  | nil =>
    intro h _
    exact ⟨h, rfl, sameShape_refl h, fun q => ⟨0, by simp, by simp, by simp⟩⟩
  | cons a rest ih =>
    intro h hl
    obtain ⟨h1, he1, hs1, hb1⟩ := env_calm h a (hl a (List.mem_cons_self _ _))
    obtain ⟨h2, he2, hs2, hb2⟩ := ih h1 (fun b hb => hl b (List.mem_cons_of_mem _ hb))
    refine ⟨h2, ?_, sameShape_trans h h1 h2 hs1 hs2, fun q => ?_⟩
    · simp only [Hub.envs, he1]
      exact he2
    · obtain ⟨k1, hk1, hc1, hq1⟩ := hb1 q
      obtain ⟨k2, hk2, hc2, hq2⟩ := hb2 q
      rw [hq1, List.length_drop] at hk2
      refine ⟨k1 + k2, by omega, ?_, ?_⟩
      · have : (a :: rest).count (EnvAction.writerRecv q) =
            [a].count (EnvAction.writerRecv q) + rest.count (EnvAction.writerRecv q) := by
          rw [← List.count_append]
          rfl
        omega
      · rw [hq2, hq1, List.drop_drop]

/-- A blocking send while no reader runs `HandleCreateEvent`: either the hub
stays parked, the queue being full from the start, or the message is appended
behind what the writer left of the queue. -/
theorem sendTo_calm (p : Ptr) (m : Bytes) (sched : Schedule) :
    ∀ h : Hub, Schedule.calm sched = true → (h.mem p).Send.closed = false →
      (Hub.sendTo p m h sched = Except.error Halt.blocked ∧
        (h.mem p).Send.cap ≤ (h.mem p).Send.buf.length) ∨
      ∃ h' rest K, Hub.sendTo p m h sched = Except.ok (h', rest) ∧ h.SameShape h' ∧
        Schedule.calm rest = true ∧ K ≤ (h.mem p).Send.buf.length ∧
        K + Schedule.receives rest p ≤ Schedule.receives sched p ∧
        (h'.mem p).Send.buf = ((h.mem p).Send.buf ++ [m]).drop K := by
  induction sched with
  | nil =>
    intro h _ hopen
    rw [Hub.sendTo]
    by_cases hr : (h.mem p).Send.buf.length < (h.mem p).Send.cap
    · right
      rw [trySend_room _ m hopen hr]
      refine ⟨_, [], 0, rfl, sameShape_setSend h p _ rfl rfl, rfl, by simp, by simp, ?_⟩
      simp [setSend]
    · left
      rw [trySend_full _ m hopen (by omega)]
      exact ⟨rfl, by omega⟩
  | cons chunk tail ih =>
    intro h hcalm hopen
    rw [calm_cons] at hcalm
    obtain ⟨h1, he1, hs1, hb1⟩ := envs_calm chunk h hcalm.1
    obtain ⟨k1, hk1, hc1, hq1⟩ := hb1 p
    have hopen1 : (h1.mem p).Send.closed = false := by
      rw [(hs1.2.2 p).1]
      exact hopen
    rw [Hub.sendTo, he1]
    simp only []
    by_cases hr : (h1.mem p).Send.buf.length < (h1.mem p).Send.cap
    · right
      rw [trySend_room _ m hopen1 hr]
      refine ⟨_, tail, k1, rfl,
        sameShape_trans h h1 _ hs1 (sameShape_setSend h1 p _ rfl rfl), hcalm.2, hk1, ?_, ?_⟩
      · rw [receives_cons]
        omega
      · simp only [setSend, if_true]
        rw [hq1, List.drop_append_of_le_length hk1]
    · rw [trySend_full _ m hopen1 (by omega)]
      simp only []
      rcases ih h1 hcalm.2 hopen1 with ⟨hb, hfull⟩ | ⟨h', rest, K, hrun, hs2, hc2, hK, hrec, hbuf⟩
      · left
        refine ⟨hb, ?_⟩
        rw [hq1, List.length_drop, (hs1.2.2 p).2] at hfull
        omega
      · right
        rw [hq1, List.length_drop] at hK
        refine ⟨h', rest, k1 + K, hrun, sameShape_trans h h1 h' hs1 hs2, hc2, by omega, ?_, ?_⟩
        · rw [receives_cons]
          omega
        · rw [hbuf, hq1, ← List.drop_append_of_le_length hk1, List.drop_drop]

theorem sendAll_calm (p : Ptr) (msgs : List Bytes) :
    ∀ (h : Hub) (sched : Schedule), Schedule.calm sched = true →
      (h.mem p).Send.closed = false →
      (Hub.sendAll p msgs h sched = Except.error Halt.blocked ∧
        (h.mem p).Send.cap < (h.mem p).Send.buf.length + msgs.length) ∨
      ∃ h' rest K, Hub.sendAll p msgs h sched = Except.ok (h', rest) ∧ h.SameShape h' ∧
        Schedule.calm rest = true ∧
        K + Schedule.receives rest p ≤ Schedule.receives sched p ∧
        (h'.mem p).Send.buf = ((h.mem p).Send.buf ++ msgs).drop K := by
  induction msgs with
  | nil =>
    intro h sched hcalm _
    right
    exact ⟨h, sched, 0, rfl, sameShape_refl h, hcalm, by simp, by simp⟩
  | cons m ms ih =>
    intro h sched hcalm hopen
    rw [Hub.sendAll]
    rcases sendTo_calm p m sched h hcalm hopen with
      ⟨hb, hfull⟩ | ⟨h1, s1, K1, hrun1, hs1, hc1, hK1, hrec1, hbuf1⟩
    · left
      rw [hb]
      exact ⟨rfl, by simp only [List.length_cons]; omega⟩
    · rw [hrun1]
      simp only []
      have hopen1 : (h1.mem p).Send.closed = false := by
        rw [(hs1.2.2 p).1]
        exact hopen
      rcases ih h1 s1 hc1 hopen1 with
        ⟨hb, hfull⟩ | ⟨h2, s2, K2, hrun2, hs2, hc2, hrec2, hbuf2⟩
      · left
        refine ⟨hb, ?_⟩
        rw [hbuf1, List.length_drop, List.length_append, (hs1.2.2 p).2] at hfull
        simp only [List.length_cons, List.length_nil] at hfull ⊢
        omega
      · right
        refine ⟨h2, s2, K1 + K2, hrun2, sameShape_trans h h1 h2 hs1 hs2, hc2, by omega, ?_⟩
        rw [hbuf2, hbuf1,
          ← List.drop_append_of_le_length (by rw [List.length_append]; omega : K1 ≤ _),
          List.drop_drop, List.append_assoc]
        rfl

/-- The writer of `p` receives once before each attempt: every send goes
through. -/
theorem sendAll_draining (p : Ptr) (msgs : List Bytes) :
    ∀ (h : Hub) (n : Nat), (h.mem p).Send.closed = false → 0 < (h.mem p).Send.cap →
      (h.mem p).Send.buf.length ≤ (h.mem p).Send.cap → msgs.length ≤ n →
      ∃ h', Hub.sendAll p msgs h (List.replicate n [EnvAction.writerRecv p]) =
        Except.ok (h', List.replicate (n - msgs.length) [EnvAction.writerRecv p]) := by
  induction msgs with
  | nil =>
    intro h n _ _ _ _
    exact ⟨h, by simp [Hub.sendAll]⟩
  | cons m ms ih =>
    intro h n hopen hcap hlen hn
    simp only [List.length_cons] at hn
    obtain ⟨k, rfl⟩ : ∃ k, n = k + 1 := ⟨n - 1, by omega⟩
    have hl : (h.mem p).Send.buf.tail.length < (h.mem p).Send.cap := by
      rw [List.length_tail]
      omega
    obtain ⟨g, hg⟩ : ∃ g : Hub, g = { h with mem := setSend h.mem p (h.mem p).Send.recv } :=
      ⟨_, rfl⟩
    have hgb : (g.mem p).Send.buf = (h.mem p).Send.buf.tail := by
      rw [hg]
      simp [setSend, Chan.recv]
    have hgc : (g.mem p).Send.closed = false := by
      rw [hg]
      simpa [setSend, Chan.recv] using hopen
    have hgk : (g.mem p).Send.cap = (h.mem p).Send.cap := by
      rw [hg]
      simp [setSend, Chan.recv]
    have hsend : Hub.sendTo p m h
        ([EnvAction.writerRecv p] :: List.replicate k [EnvAction.writerRecv p])
        = Except.ok (g.pushed p [m], List.replicate k [EnvAction.writerRecv p]) := by
      have henv : h.envs [EnvAction.writerRecv p] = Except.ok g := by
        rw [hg]
        rfl
      rw [Hub.sendTo, henv]
      simp only []
      rw [trySend_room _ m hgc (by rw [hgb, hgk]; exact hl)]
      simp only []
      rw [setSend_pushed]
    rw [List.replicate_succ, Hub.sendAll, hsend]
    simp only []
    obtain ⟨h', hrun⟩ := ih (g.pushed p [m]) k (pushed_open g p _ hgc)
      (by simpa [Hub.pushed, hgk] using hcap)
      (by simp only [Hub.pushed, if_true, List.length_append, List.length_singleton, hgb, hgk]
          omega) (by omega)
    refine ⟨h', ?_⟩
    rw [hrun]
    simp

/-- A registration while no reader runs `HandleCreateEvent`: either the hub
stays parked on the full queue of the new connection, or the connection is
live and its queue holds the replay, less the messages its writer received
meanwhile. -/
theorem onRegister_calm (h : Hub) (p : Ptr) (obj : Client) (stored : Option (List VoxelEvent))
    (order : List (String × JObj)) (sched : Schedule) (hcalm : Schedule.calm sched = true)
    (hopen : obj.Send.closed = false) :
    (h.onRegister p obj stored order sched = Except.error Halt.blocked ∧
      obj.Send.cap < obj.Send.buf.length + (h.replay stored order).length) ∨
    ∃ h' K, h.onRegister p obj stored order sched = Except.ok h' ∧
      (h.add p obj).SameShape h' ∧ K ≤ Schedule.receives sched p ∧
      (h'.mem p).Send.buf = (obj.Send.buf ++ h.replay stored order).drop K := by
  rw [onRegister_eq]
  rcases sendAll_calm p (h.replay stored order) (h.add p obj) sched hcalm
      (add_open h p obj hopen) with ⟨hb, hfull⟩ | ⟨h', rest, K, hrun, hs, _, hrec, hbuf⟩
  · left
    rw [hb]
    exact ⟨rfl, by simpa [Hub.add] using hfull⟩
  · right
    rw [hrun]
    exact ⟨h', K, rfl, hs, by omega, by simpa [Hub.add] using hbuf⟩

/-- An action during which no reader runs `HandleCreateEvent` halts only when
the hub stays parked on a full queue. -/
theorem act_calm_halt (h : Hub) (E R : List Ptr) (a : Action) (e : Halt) (ht : h.Tracks E R)
    (hfresh : a.freshQueue = true) (hcalm : a.calm = true)
    (hrun : h.act a = Except.error e) : e = Halt.blocked := by
  cases a with
  | hub ev =>
    cases ev with
    | register p obj stored order sched =>
      have hopen := (freshQueue_open p obj stored order sched hfresh).1
      simp only [Hub.act, Hub.step] at hrun
      rcases onRegister_calm h p obj stored order sched hcalm hopen with
        ⟨hb, _⟩ | ⟨h', K, hok, _⟩
      · rw [hb] at hrun
        cases hrun
        rfl
      · rw [hok] at hrun
        cases hrun
    | unregister p =>
      simp only [Hub.act, Hub.step] at hrun
      by_cases hp : p ∈ h.Clients
      · rw [onUnregister_live h p ht.1 hp] at hrun
        cases hrun
      · rw [onUnregister_absent h p hp] at hrun
        cases hrun
    | broadcast bm =>
      simp only [Hub.act, Hub.step] at hrun
      obtain ⟨h2, hb, _⟩ := onBroadcast_tracks h E R bm ht
      rw [hb] at hrun
      cases hrun
  | env a =>
    simp only [Hub.act] at hrun
    obtain ⟨h', hok, _⟩ := env_calm h a hcalm
    rw [hok] at hrun
    cases hrun

/-! ## Runs -/

theorem run_append (l1 l2 : List Action) :
    ∀ h : Hub, h.run (l1 ++ l2) =
      match h.run l1 with
      | Except.error e => Except.error e
      | Except.ok h' => h'.run l2 := by
  induction l1 with
  | nil => intro h; rfl
  | cons a rest ih =>
    intro h
    simp only [List.cons_append, Hub.run]
    cases h.act a with
    | error e => rfl
    | ok h' => exact ih h'

theorem registrations_cons (a : Action) (rest : List Action) :
    registrations (a :: rest) = a.registered ++ registrations rest := by
  cases a with
  | hub ev => cases ev <;> rfl
  | env a => rfl

theorem registrations_append (l1 l2 : List Action) :
    registrations (l1 ++ l2) = registrations l1 ++ registrations l2 := by
  induction l1 with
  | nil => rfl
  | cons a rest ih => simp [registrations_cons, ih]

theorem newHub_tracks : NewHub.Tracks [] [] := by
  refine ⟨⟨List.nodup_nil, ?_⟩, ?_, ?_, ?_⟩ <;> intro p hp <;> simp [NewHub] at hp

theorem run_tracks (acts : List Action) :
    ∀ (h h' : Hub) (E R : List Ptr), h.Tracks E R → (registrations acts).Nodup →
      (∀ p ∈ registrations acts, p ∉ R) → (∀ a ∈ acts, a.freshQueue = true) →
      h.run acts = Except.ok h' → h'.Tracks (trackAll E acts) (registrations acts ++ R) := by
  induction acts with
  | nil =>
    intro h h' E R ht _ _ _ hrun
    simp only [Hub.run] at hrun
    cases hrun
    exact ht
  | cons a rest ih =>
    intro h h' E R ht hnd hnew hfresh hrun
    rw [registrations_cons] at hnd hnew
    simp only [Hub.run] at hrun
    cases ha : h.act a with
    | error e =>
      rw [ha] at hrun
      cases hrun
    | ok h1 =>
      rw [ha] at hrun
      simp only [] at hrun
      have hstep := act_tracks h h1 E R a ht
        (fun p hp => hnew p (List.mem_append_left _ hp)) (hfresh a (List.mem_cons_self _ _)) ha
      have hd := List.nodup_append.mp hnd
      have hrest := ih h1 h' (a.track E) (a.registered ++ R) hstep hd.2.1 (by
        intro p hp hin
        rcases List.mem_append.mp hin with hin | hin
        · exact hd.2.2 hin hp
        · exact hnew p (List.mem_append_right _ hp) hin)
        (fun b hb => hfresh b (List.mem_cons_of_mem _ hb)) hrun
      obtain ⟨hwf, hlive, hER, hclosed⟩ := hrest
      refine ⟨hwf, hlive, ?_, hclosed⟩
      intro p hp
      have := hER p hp
      rw [registrations_cons]
      simp only [List.mem_append] at this ⊢
      tauto

/-- A run during which no reader runs `HandleCreateEvent` halts only when the
hub stays parked on a full queue. -/
theorem run_calm_halt (acts : List Action) :
    ∀ (h : Hub) (E R : List Ptr) (e : Halt), h.Tracks E R → (registrations acts).Nodup →
      (∀ p ∈ registrations acts, p ∉ R) → (∀ a ∈ acts, a.freshQueue = true) →
      (∀ a ∈ acts, a.calm = true) → h.run acts = Except.error e → e = Halt.blocked := by
  induction acts with
  | nil =>
    intro h E R e _ _ _ _ _ hrun
    simp only [Hub.run] at hrun
    cases hrun
  | cons a rest ih =>
    intro h E R e ht hnd hnew hfresh hcalm hrun
    rw [registrations_cons] at hnd hnew
    simp only [Hub.run] at hrun
    cases ha : h.act a with
    | error e1 =>
      rw [ha] at hrun
      cases hrun
      exact act_calm_halt h E R a e ht (hfresh a (List.mem_cons_self _ _))
        (hcalm a (List.mem_cons_self _ _)) ha
    | ok h1 =>
      rw [ha] at hrun
      simp only [] at hrun
      have hstep := act_tracks h h1 E R a ht
        (fun p hp => hnew p (List.mem_append_left _ hp)) (hfresh a (List.mem_cons_self _ _)) ha
      have hd := List.nodup_append.mp hnd
      exact ih h1 (a.track E) (a.registered ++ R) e hstep hd.2.1 (by
        intro p hp hin
        rcases List.mem_append.mp hin with hin | hin
        · exact hd.2.2 hin hp
        · exact hnew p (List.mem_append_right _ hp) hin)
        (fun b hb => hfresh b (List.mem_cons_of_mem _ hb))
        (fun b hb => hcalm b (List.mem_cons_of_mem _ hb)) hrun

theorem fresh_of_append (pre suf : List Action) (hf : FreshRegistrations (pre ++ suf)) :
    FreshRegistrations pre := by
  obtain ⟨hnd, hall⟩ := hf
  rw [registrations_append] at hnd
  exact ⟨(List.nodup_append.mp hnd).1, fun a ha => hall a (List.mem_append_left _ ha)⟩

theorem reachable_tracks (acts : List Action) (h : Hub) (hf : FreshRegistrations acts)
    (hrun : NewHub.run acts = Except.ok h) :
    h.Tracks (trackAll [] acts) (registrations acts) := by
  have := run_tracks acts NewHub h [] [] newHub_tracks hf.1 (fun _ _ hin => by simp at hin)
    hf.2 hrun
  simpa using this

theorem reachable_wf (h : Hub) (hr : Reachable h) : h.WF := by
  obtain ⟨acts, hf, hrun⟩ := hr
  exact (reachable_tracks acts h hf hrun).1

/-! ## Registered and not unregistered since -/

theorem stillRegistered_nil (p : Ptr) : ¬ StillRegistered [] p := by
  rintro ⟨pre, a, suf, heq, _⟩
  simp at heq

theorem stillRegistered_cons (a : Action) (rest : List Action) (p : Ptr) :
    StillRegistered (a :: rest) p ↔
      StillRegistered rest p ∨ (a.registers p = true ∧ ∀ b ∈ rest, b.unregisters p = false) := by
  constructor
  · rintro ⟨pre, b, suf, heq, hb, hsuf⟩
    cases pre with
    | nil =>
      simp only [List.nil_append, List.cons.injEq] at heq
      obtain ⟨h1, h2⟩ := heq
      subst h1 h2
      exact Or.inr ⟨hb, hsuf⟩
    | cons c pre' =>
      simp only [List.cons_append, List.cons.injEq] at heq
      exact Or.inl ⟨pre', b, suf, heq.2, hb, hsuf⟩
  · rintro (⟨pre, b, suf, heq, hb, hsuf⟩ | ⟨ha, hrest⟩)
    · exact ⟨a :: pre, b, suf, by simp [heq], hb, hsuf⟩
    · exact ⟨[], a, rest, rfl, ha, hrest⟩

theorem mem_track (a : Action) (E : List Ptr) (p : Ptr) :
    p ∈ a.track E ↔ a.registers p = true ∨ (p ∈ E ∧ a.unregisters p = false) := by
  cases a with
  | hub ev =>
    cases ev with
    | register c obj stored order sched =>
      by_cases hc : c ∈ E
      · simp only [Action.track, hc, if_true, Action.registers, Action.unregisters,
          decide_eq_true_eq, and_true]
        constructor
        · intro hp
          exact Or.inr hp
        · rintro (h | h)
          · exact h ▸ hc
          · exact h
      · simp only [Action.track, hc, if_false, Action.registers, Action.unregisters,
          decide_eq_true_eq, and_true, List.mem_append, List.mem_singleton]
        constructor
        · rintro (h | h)
          · exact Or.inr h
          · exact Or.inl h.symm
        · rintro (h | h)
          · exact Or.inr h.symm
          · exact Or.inl h
    | unregister c =>
      simp only [Action.track, Action.registers, Action.unregisters, List.mem_filter,
        decide_eq_true_eq, decide_eq_false_iff_not, Bool.false_eq_true, false_or, ne_eq]
      constructor
      · rintro ⟨h1, h2⟩
        exact ⟨h1, fun h => h2 h.symm⟩
      · rintro ⟨h1, h2⟩
        exact ⟨h1, fun h => h2 h.symm⟩
    | broadcast bm => simp [Action.track, Action.registers, Action.unregisters]
  | env a => simp [Action.track, Action.registers, Action.unregisters]

theorem mem_trackAll (acts : List Action) :
    ∀ (E : List Ptr) (p : Ptr), p ∈ trackAll E acts ↔
      StillRegistered acts p ∨ (p ∈ E ∧ ∀ b ∈ acts, b.unregisters p = false) := by
  induction acts with
  | nil =>
    intro E p
    simp [trackAll, stillRegistered_nil]
  | cons a rest ih =>
    intro E p
    rw [trackAll, ih, stillRegistered_cons, mem_track]
    simp only [List.mem_cons, forall_eq_or_imp]
    tauto

theorem mem_trackAll_nil (acts : List Action) (p : Ptr) :
    p ∈ trackAll [] acts ↔ StillRegistered acts p := by
  rw [mem_trackAll]
  simp

theorem trackAll_append (l1 l2 : List Action) :
    ∀ E : List Ptr, trackAll E (l1 ++ l2) = trackAll (trackAll E l1) l2 := by
  induction l1 with
  | nil =>
    intro E
    rfl
  | cons a rest ih =>
    intro E
    simp only [List.cons_append, trackAll]
    exact ih _

theorem run_snoc (l : List Action) (a : Action) (h g : Hub) (hrun : h.run l = Except.ok g) :
    h.run (l ++ [a]) = g.act a := by
  rw [run_append, hrun]
  simp only [Hub.run]
  cases g.act a <;> rfl

/-! ## Connections dropped on a full queue -/

theorem droppedFull_snoc (h0 : Hub) (pre : List Action) (a : Action) (p : Ptr) :
    DroppedFull h0 (pre ++ [a]) p ↔
      DroppedFull h0 pre p ∨
        ∃ conn g, a = Action.hub (Event.unregister conn) ∧ h0.run pre = Except.ok g ∧
          conn ∈ g.Clients ∧ p ∈ g.Clients ∧ p ≠ conn ∧
          ((g.mem conn).SessionID = "" ∨ (g.mem p).SessionID = (g.mem conn).SessionID) ∧
          (g.mem p).Send.hasRoom = false := by
  constructor
  · rintro ⟨l, conn, suf, g, heq, hrun, h1, h2, h3, h4, h5⟩
    rcases List.eq_nil_or_concat suf with hs | ⟨suf', b, hs⟩
    · subst hs
      have heq' : pre ++ [a] = l ++ [Action.hub (Event.unregister conn)] := heq
      obtain ⟨e1, e2⟩ := List.append_inj' heq' rfl
      simp only [List.cons.injEq, and_true] at e2
      subst e1 e2
      exact Or.inr ⟨conn, g, rfl, hrun, h1, h2, h3, h4, h5⟩
    · subst hs
      have heq' : pre ++ [a] = (l ++ Action.hub (Event.unregister conn) :: suf') ++ [b] := by
        rw [heq]
        simp
      obtain ⟨e1, _⟩ := List.append_inj' heq' rfl
      exact Or.inl ⟨l, conn, suf', g, e1, hrun, h1, h2, h3, h4, h5⟩
  · rintro (⟨l, conn, suf, g, heq, hrun, h1, h2, h3, h4, h5⟩ | ⟨conn, g, ha, hrun, h1, h2, h3, h4, h5⟩)
    · exact ⟨l, conn, suf ++ [a], g, by rw [heq]; simp, hrun, h1, h2, h3, h4, h5⟩
    · exact ⟨pre, conn, [], g, by rw [ha], hrun, h1, h2, h3, h4, h5⟩

theorem droppedFull_nil (h0 : Hub) (p : Ptr) : ¬ DroppedFull h0 [] p := by
  rintro ⟨l, conn, suf, g, heq, _⟩
  simp at heq

/-! ## A slow connection among connections that come and go -/

theorem cycle_step (h : Hub) (ups : List (String × JObj)) (k i : Nat)
    (hs : h.Stalled ups k) (hk : k < 1024) (hups : ups.length ≤ 1024)
    (hdel : mapDelete ups "b" = ups) :
    ∃ h', h.run (cycle i) = Except.ok h' ∧ h'.Stalled ups (k + 1) ∧
      (h'.mem 0).Send.buf = (h.mem 0).Send.buf ++ [leaveMessage "b"] := by
  obtain ⟨hc, hu, hsid, huid, hopen, hcap, hlen⟩ := hs
  have hreg : h.onRegister (i + 1) (newClient "b" "") none [] []
      = Except.ok (h.registered (i + 1) (newClient "b" "") none []) := by
    apply onRegister_ok
    · rfl
    · simp [newClient, replay_length, eventsReplay, hu, hups]
  have hcl : (h.registered (i + 1) (newClient "b" "") none []).Clients = [0, i + 1] := by
    simp [Hub.registered, hc]
  have hwf : (h.registered (i + 1) (newClient "b" "") none []).WF := by
    refine ⟨by simp [hcl], ?_⟩
    intro q hq
    rw [hcl] at hq
    simp only [List.mem_cons, List.mem_singleton, List.not_mem_nil, or_false] at hq
    rcases hq with hq | hq
    · subst hq
      simp [Hub.registered, hopen]
    · subst hq
      simp [Hub.registered, newClient]
  have hun := onUnregister_live _ (i + 1) hwf (by simp [hcl])
  refine ⟨((h.registered (i + 1) (newClient "b" "") none []).removed (i + 1)).fanout
    ((h.registered (i + 1) (newClient "b" "") none []).leaveScope (i + 1))
    (leaveMessage ((h.registered (i + 1) (newClient "b" "") none []).mem (i + 1)).UserID)
    ((h.registered (i + 1) (newClient "b" "") none []).removed (i + 1)).Clients, ?_, ?_, ?_⟩
  · simp only [cycle, Hub.run, Hub.act, Hub.step, ServeWs, hreg]
    rw [hun]
  · have hroom : (h.mem 0).Send.hasRoom = true := by
      simp [Chan.hasRoom, hlen, hcap, hk]
    refine ⟨?_, ?_, ?_, ?_, ?_, ?_, ?_⟩
    · simp [Hub.fanout, Hub.removed, hc, Hub.leaveScope, notExcluded, Hub.registered, setSend,
        hroom, newClient]
    · simp [Hub.fanout, Hub.removed, Hub.registered, hu, newClient, hdel]
    · simp [Hub.fanout, Hub.removed, hc, Hub.leaveScope, notExcluded, Hub.registered, setSend,
        hroom, newClient, Client.offered, hsid]
    · simp [Hub.fanout, Hub.removed, hc, Hub.leaveScope, notExcluded, Hub.registered, setSend,
        hroom, newClient, Client.offered, huid]
    · simp [Hub.fanout, Hub.removed, hc, Hub.leaveScope, notExcluded, Hub.registered, setSend,
        hroom, newClient, Client.offered, hopen]
    · simp [Hub.fanout, Hub.removed, hc, Hub.leaveScope, notExcluded, Hub.registered, setSend,
        hroom, newClient, Client.offered, hcap]
    · simp [Hub.fanout, Hub.removed, hc, Hub.leaveScope, notExcluded, Hub.registered, setSend,
        hroom, newClient, Client.offered, hlen]
  · have hroom : (h.mem 0).Send.hasRoom = true := by
      simp [Chan.hasRoom, hlen, hcap, hk]
    simp [Hub.fanout, Hub.removed, hc, Hub.leaveScope, notExcluded, Hub.registered, setSend,
      hroom, newClient, Client.offered]

theorem cycle_overflow (h : Hub) (ups : List (String × JObj)) (i : Nat)
    (hs : h.Stalled ups 1024) (hups : ups.length ≤ 1024) (hdel : mapDelete ups "b" = ups) :
    ∃ h1 h', h.act (ServeWs (i + 1) "b" "" none) = Except.ok h1 ∧
      0 ∈ h1.Clients ∧ i + 1 ∈ h1.Clients ∧ (h1.mem 0).SessionID = (h1.mem (i + 1)).SessionID ∧
      h1.onUnregister (i + 1) = Except.ok h' ∧ h.run (cycle i) = Except.ok h' ∧
      h'.Clients = [] ∧ h'.UserPositions = ups ∧ (h'.mem 0).Send.closed = true ∧
      (h'.mem 0).Send.buf = (h1.mem 0).Send.buf ∧ (h'.mem 0).UserID = "a" ∧
      (h'.mem 0).SessionID = "" := by
  obtain ⟨hc, hu, hsid, huid, hopen, hcap, hlen⟩ := hs
  have hreg : h.onRegister (i + 1) (newClient "b" "") none [] []
      = Except.ok (h.registered (i + 1) (newClient "b" "") none []) := by
    apply onRegister_ok
    · rfl
    · simp [newClient, replay_length, eventsReplay, hu, hups]
  have hcl : (h.registered (i + 1) (newClient "b" "") none []).Clients = [0, i + 1] := by
    simp [Hub.registered, hc]
  have hwf : (h.registered (i + 1) (newClient "b" "") none []).WF := by
    refine ⟨by simp [hcl], ?_⟩
    intro q hq
    rw [hcl] at hq
    simp only [List.mem_cons, List.mem_singleton, List.not_mem_nil, or_false] at hq
    rcases hq with hq | hq
    · subst hq
      simp [Hub.registered, hopen]
    · subst hq
      simp [Hub.registered, newClient]
  have hun := onUnregister_live _ (i + 1) hwf (by simp [hcl])
  have hroom : (h.mem 0).Send.hasRoom = false := by
    simp [Chan.hasRoom, hlen, hcap]
  refine ⟨h.registered (i + 1) (newClient "b" "") none [], _, ?_, ?_, ?_, ?_, hun, ?_, ?_, ?_, ?_,
    ?_, ?_, ?_⟩
  · simp only [Hub.act, Hub.step, ServeWs, hreg]
  · simp [hcl]
  · simp [hcl]
  · simp [Hub.registered, newClient, hsid]
  · simp only [cycle, Hub.run, Hub.act, Hub.step, ServeWs, hreg]
    rw [hun]
  · simp [Hub.fanout, Hub.removed, hc, Hub.leaveScope, notExcluded, Hub.registered, setSend,
      hroom, newClient]
  · simp [Hub.fanout, Hub.removed, Hub.registered, hu, newClient, hdel]
  · simp [Hub.fanout, Hub.removed, hc, Hub.leaveScope, notExcluded, Hub.registered, setSend,
      hroom, newClient, Client.offered]
  · simp [Hub.fanout, Hub.removed, hc, Hub.leaveScope, notExcluded, Hub.registered, setSend,
      hroom, newClient, Client.offered]
  · simp [Hub.fanout, Hub.removed, hc, Hub.leaveScope, notExcluded, Hub.registered, setSend,
      hroom, newClient, Client.offered, huid]
  · simp [Hub.fanout, Hub.removed, hc, Hub.leaveScope, notExcluded, Hub.registered, setSend,
      hroom, newClient, Client.offered, hsid]

theorem cycles_stalled (ups : List (String × JObj)) (hups : ups.length ≤ 1024)
    (hdel : mapDelete ups "b" = ups) (n : Nat) :
    ∀ h : Hub, h.Stalled ups 0 → n ≤ 1024 →
      ∃ h', h.run (cycles n) = Except.ok h' ∧ h'.Stalled ups n := by
  induction n with
  | zero =>
    intro h hs _
    exact ⟨h, rfl, hs⟩
  | succ n ih =>
    intro h hs hn
    obtain ⟨h1, hrun1, hs1⟩ := ih h hs (by omega)
    obtain ⟨h2, hrun2, hs2, _⟩ := cycle_step h1 ups n n hs1 (by omega) hups hdel
    refine ⟨h2, ?_, hs2⟩
    rw [cycles, run_append, hrun1]
    exact hrun2

theorem registrations_cycles (n : Nat) :
    registrations (cycles n) = (List.range n).map (fun i => i + 1) := by
  induction n with
  | zero => rfl
  | succ n ih =>
    rw [cycles, registrations_append, ih, List.range_succ, List.map_append]
    rfl

theorem cycles_fresh (n : Nat) (a : Action) (ha : a ∈ cycles n) :
    a.freshQueue = true ∧ a.isMembership = true ∧ a.unregisters 0 = false ∧
      a.membershipOnly = true := by
  induction n with
  | zero => simp [cycles] at ha
  | succ n ih =>
    rw [cycles, List.mem_append] at ha
    rcases ha with ha | ha
    · exact ih ha
    · simp only [cycle, List.mem_cons, List.mem_singleton, List.not_mem_nil, or_false] at ha
      rcases ha with ha | ha <;> subst ha <;>
        simp [ServeWs, Action.freshQueue, Action.isMembership, Action.unregisters, newClient,
          Action.membershipOnly, Schedule.calm]

theorem cycles_overflow (first : List Action) (h0 : Hub) (ups : List (String × JObj))
    (hrun : NewHub.run first = Except.ok h0) (hs : h0.Stalled ups 0)
    (hups : ups.length ≤ 1024) (hdel : mapDelete ups "b" = ups) :
    ∃ h1 h', NewHub.run (first ++ cycles 1024 ++ [ServeWs 1025 "b" "" none]) = Except.ok h1 ∧
      0 ∈ h1.Clients ∧ 1025 ∈ h1.Clients ∧ (h1.mem 0).SessionID = (h1.mem 1025).SessionID ∧
      h1.onUnregister 1025 = Except.ok h' ∧
      NewHub.run (first ++ cycles 1025) = Except.ok h' ∧
      h'.Clients = [] ∧ h'.UserPositions = ups ∧ (h'.mem 0).Send.closed = true ∧
      (h'.mem 0).Send.buf = (h1.mem 0).Send.buf ∧ (h'.mem 0).UserID = "a" ∧
      (h'.mem 0).SessionID = "" := by
  obtain ⟨g, hg, hsg⟩ := cycles_stalled ups hups hdel 1024 h0 hs (le_refl _)
  obtain ⟨h1, h', hact, hm0, hm1, hsid, hun, hcyc, hrest⟩ :=
    cycle_overflow g ups 1024 hsg hups hdel
  refine ⟨h1, h', ?_, hm0, hm1, hsid, hun, ?_, hrest⟩
  · rw [List.append_assoc, run_append, hrun]
    simp only []
    rw [run_append, hg]
    simp only [Hub.run]
    rw [hact]
  · rw [show cycles 1025 = cycles 1024 ++ cycle 1024 from rfl, ← List.append_assoc,
      run_append, run_append, hrun]
    simp only []
    rw [hg]
    exact hcyc

theorem churn_start :
    NewHub.run [ServeWs 0 "a" "" none]
        = Except.ok (NewHub.registered 0 (newClient "a" "") none []) ∧
      (NewHub.registered 0 (newClient "a" "") none []).Stalled [] 0 := by
  constructor
  · have : NewHub.onRegister 0 (newClient "a" "") none [] []
        = Except.ok (NewHub.registered 0 (newClient "a" "") none []) :=
      onRegister_ok NewHub 0 (newClient "a" "") none [] rfl (by decide)
    simp only [Hub.run, Hub.act, Hub.step, ServeWs, this]
  · refine ⟨rfl, rfl, rfl, rfl, rfl, rfl, rfl⟩

theorem churn_eq (n : Nat) : churn n = [ServeWs 0 "a" "" none] ++ cycles n := rfl

theorem churn_stillRegistered (n : Nat) : StillRegistered (churn n) 0 :=
  ⟨[], ServeWs 0 "a" "" none, cycles n, rfl, rfl, fun b hb => (cycles_fresh n b hb).2.2.1⟩

theorem churn_fresh (n : Nat) :
    FreshRegistrations (churn n) ∧ ∀ a ∈ churn n, a.isMembership = true := by
  refine ⟨⟨?_, ?_⟩, ?_⟩
  · rw [churn, ServeWs, registrations_cons, registrations_cycles]
    simp only [Action.registered, List.singleton_append]
    apply List.nodup_cons.mpr
    constructor
    · intro hin
      obtain ⟨i, _, hi⟩ := List.mem_map.mp hin
      exact Nat.succ_ne_zero i hi
    · exact List.Nodup.map (fun a b hab => by simpa using hab) (List.nodup_range n)
  · intro a ha
    rcases List.mem_cons.mp ha with ha | ha
    · subst ha
      rfl
    · exact (cycles_fresh n a ha).1
  · intro a ha
    rcases List.mem_cons.mp ha with ha | ha
    · subst ha
      rfl
    · exact (cycles_fresh n a ha).2.1

theorem churn_membershipOnly (n : Nat) : ∀ a ∈ churn n, a.membershipOnly = true := by
  intro a ha
  rcases List.mem_cons.mp ha with ha | ha
  · subst ha
    rfl
  · exact (cycles_fresh n a ha).2.2.2

/-! ## Who receives a fan-out -/

theorem fanout_room (h : Hub) (elig : Ptr → Bool) (m : Bytes) (q : Ptr)
    (hq : q ∈ h.Clients) (he : elig q = true) (hr : (h.mem q).Send.hasRoom = true) :
    (h.fanout elig m h.Clients).mem q =
        { h.mem q with Send := { (h.mem q).Send with buf := (h.mem q).Send.buf ++ [m] } } ∧
      q ∈ (h.fanout elig m h.Clients).Clients := by
  refine ⟨by simp [Hub.fanout, hq, he, Client.offered, hr], ?_⟩
  rw [fanout_mem_live]
  exact ⟨hq, fun hc => by simp [hr] at hc⟩

theorem fanout_full (h : Hub) (elig : Ptr → Bool) (m : Bytes) (q : Ptr)
    (hq : q ∈ h.Clients) (he : elig q = true) (hr : (h.mem q).Send.hasRoom = false) :
    (h.fanout elig m h.Clients).mem q =
        { h.mem q with Send := { (h.mem q).Send with closed := true } } ∧
      q ∉ (h.fanout elig m h.Clients).Clients := by
  refine ⟨by simp [Hub.fanout, hq, he, Client.offered, hr], ?_⟩
  rw [fanout_mem_live]
  exact fun hc => hc.2 ⟨he, hr⟩

theorem fanout_other (h : Hub) (elig : Ptr → Bool) (m : Bytes) (q : Ptr)
    (hn : ¬ (q ∈ h.Clients ∧ elig q = true)) :
    (h.fanout elig m h.Clients).mem q = h.mem q ∧
      (q ∈ (h.fanout elig m h.Clients).Clients ↔ q ∈ h.Clients) := by
  refine ⟨by simp [Hub.fanout, hn], ?_⟩
  rw [fanout_mem_live]
  constructor
  · exact fun hc => hc.1
  · exact fun hq => ⟨hq, fun hc => hn ⟨hq, hc.1⟩⟩

theorem fanout_confined (h : Hub) (elig : Ptr → Bool) (m : Bytes) (hwf : h.WF) :
    Confined h (h.fanout elig m h.Clients) (fun q => elig q = true) m := by
  refine ⟨?_, ?_, ?_⟩
  · intro q hq he hr
    have := fanout_full h elig m q hq he hr
    exact ⟨by rw [this.1], this.2⟩
  · intro q hq he hr
    have := fanout_room h elig m q hq he hr
    rw [this.1]
  · intro q hq hn
    have hq' : q ∈ (h.fanout elig m h.Clients).Clients := by
      rw [fanout_mem_live]
      exact ⟨hq, fun hc => hn ⟨hc.1, hc.2⟩⟩
    exact ⟨hq', (fanout_wf h elig m hwf).2 q hq'⟩

theorem inScope_iff (h : Hub) (sid : String) (ex : Option Ptr) (q : Ptr) :
    h.inScope sid ex q = true ↔ (h.mem q).SessionID = sid ∧ some q ≠ ex := by
  simp [Hub.inScope]

theorem notExcluded_iff (ex : Option Ptr) (q : Ptr) : notExcluded ex q = true ↔ some q ≠ ex := by
  simp [notExcluded]

theorem hubFull_wf : hubFull.WF := by decide

theorem hubAB_wf : hubAB.WF := by decide

theorem hubFull_noRoom : (hubFull.mem 2).Send.hasRoom = false := by
  show decide ((List.replicate 1024 audioFrame).length < 1024) = false
  rw [List.length_replicate]
  decide

/-! ## The `Unregister` case -/

theorem removed_mem_other (h : Hub) (conn q : Ptr) (hq : q ≠ conn) :
    (h.removed conn).mem q = h.mem q := by
  simp [Hub.removed, setSend, hq]

theorem removed_live (h : Hub) (conn q : Ptr) :
    q ∈ (h.removed conn).Clients ↔ q ∈ h.Clients ∧ q ≠ conn := by
  simp [Hub.removed]

theorem leaveScope_iff (h : Hub) (conn q : Ptr) (hq : q ≠ conn) :
    h.leaveScope conn q = true ↔
      ((h.mem conn).SessionID = "" ∨ (h.mem q).SessionID = (h.mem conn).SessionID) := by
  unfold Hub.leaveScope
  by_cases hs : (h.mem conn).SessionID = ""
  · simp [hs, notExcluded]
  · simp [hs, Hub.inScope, removed_mem_other h conn q hq]

/-! ## The run in which connection `0` stalls after sending its position -/

theorem staleFirst_run :
    ∃ h0, NewHub.run staleFirst = Except.ok h0 ∧ h0.Stalled [("a", slowPosition)] 0 := by
  have hreg : NewHub.onRegister 0 (newClient "a" "") none [] []
      = Except.ok (NewHub.registered 0 (newClient "a" "") none []) :=
    onRegister_ok NewHub 0 (newClient "a" "") none [] rfl (by decide)
  obtain ⟨g, hg⟩ : ∃ g, g = (NewHub.registered 0 (newClient "a" "") none []).cacheMove slowMsg :=
    ⟨_, rfl⟩
  have hwf : g.WF := by
    subst hg
    decide
  refine ⟨g.fanout (g.inScope (g.mem 0).SessionID (some 0)) (marshal slowMsg) g.Clients, ?_, ?_⟩
  · simp only [staleFirst, slowMove, Hub.run, Hub.act, Hub.step, ServeWs, hreg, Hub.onBroadcast,
      unmarshal, marshal]
    rw [show isScopedType slowMsg.Typ = true from by decide]
    simp only [if_true]
    rw [show ({ Typ := slowMsg.Typ, Payload := decodePayload slowMsg.Payload } : Message)
      = slowMsg from rfl, ← hg, broadcastToSession_eq g _ _ _ hwf]
  · subst hg
    refine ⟨by decide, by decide, by decide, by decide, by decide, by decide, by decide⟩

theorem cycles_quiet (n : Nat) (a : Action) (ha : a ∈ cycles n) : a.unregisters 0 = false :=
  (cycles_fresh n a ha).2.2.1

theorem staleFirst_mem (a : Action) (ha : a ∈ staleFirst) :
    a.freshQueue = true ∧ (a = ServeWs 0 "a" "" none ∨ a.unregisters 0 = false) := by
  simp only [staleFirst, List.mem_cons, List.mem_singleton, List.not_mem_nil, or_false] at ha
  rcases ha with ha | ha <;> subst ha
  · exact ⟨rfl, Or.inl rfl⟩
  · exact ⟨rfl, Or.inr rfl⟩

theorem stale_fresh (n last : Nat) (uid : String) (hlast : n < last) :
    FreshRegistrations (staleFirst ++ cycles n ++ [ServeWs last uid "" none]) := by
  constructor
  · rw [registrations_append, registrations_append, registrations_cycles]
    show ([0] ++ (List.range n).map (fun i => i + 1) ++ [last]).Nodup
    rw [List.nodup_append]
    refine ⟨?_, List.nodup_singleton _, ?_⟩
    · simp only [List.singleton_append]
      apply List.nodup_cons.mpr
      constructor
      · intro hin
        obtain ⟨i, _, hi⟩ := List.mem_map.mp hin
        exact Nat.succ_ne_zero i hi
      · exact List.Nodup.map (fun a b hab => by simpa using hab) (List.nodup_range n)
    · intro x hx hx'
      simp only [List.mem_singleton] at hx'
      subst hx'
      simp only [List.singleton_append, List.mem_cons, List.mem_map, List.mem_range] at hx
      rcases hx with hx | ⟨i, hi, hx⟩
      · omega
      · omega
  · intro a ha
    simp only [List.mem_append, List.mem_singleton] at ha
    rcases ha with (ha | ha) | ha
    · exact (staleFirst_mem a ha).1
    · exact (cycles_fresh n a ha).1
    · subst ha
      rfl

theorem stale_stillRegistered (n last : Nat) (uid : String) :
    StillRegistered (staleFirst ++ cycles n ++ [ServeWs last uid "" none]) 0 := by
  refine ⟨[], ServeWs 0 "a" "" none, slowMove :: (cycles n ++ [ServeWs last uid "" none]), ?_,
    rfl, ?_⟩
  · simp [staleFirst]
  · intro b hb
    simp only [List.mem_cons, List.mem_append, List.mem_singleton, List.not_mem_nil,
      or_false] at hb
    rcases hb with hb | hb | hb
    · subst hb
      rfl
    · exact cycles_quiet n b hb
    · subst hb
      rfl

/-- The hub can reach a state in which the queue of a live connection is full. -/
theorem stalled_full_reachable :
    ∃ g, Reachable g ∧ g.Stalled [("a", slowPosition)] 1024 := by
  obtain ⟨h0, hrun0, hs0⟩ := staleFirst_run
  obtain ⟨g, hg, hsg⟩ := cycles_stalled [("a", slowPosition)] (by decide) (by decide) 1024 h0 hs0
    (le_refl _)
  refine ⟨g, ⟨staleFirst ++ cycles 1024, ?_, ?_⟩, hsg⟩
  · exact fresh_of_append _ [ServeWs 1025 "b" "" none] (stale_fresh 1024 1025 "b" (by decide))
  · rw [run_append, hrun0]
    exact hg

/-! ## The position cache -/

theorem cacheMove_set (h : Hub) (payload : JObj) (U : String)
    (huser : mapGet payload "userId" = some (JVal.str U)) (hU : U ≠ "") :
    h.cacheMove { Typ := "move", Payload := Payload.object payload }
      = { h with UserPositions := mapSet h.UserPositions U payload } := by
  simp [Hub.cacheMove, huser, hU]

theorem cacheMove_wf (h : Hub) (msg : Message) (hwf : h.WF) : (h.cacheMove msg).WF :=
  (cacheMove_tracks h h.Clients h.Clients msg
    ⟨hwf, fun _ hq => hq, fun _ hq => hq, fun _ hq hn => absurd hq hn⟩).1

theorem onBroadcast_positions (h : Hub) (bm : BroadcastMessage) (msg : Message)
    (hwf : h.WF) (hmsg : unmarshal bm.Message = some msg) (hty : isScopedType msg.Typ = true) :
    ∃ h', h.onBroadcast bm = Except.ok h' ∧ h'.UserPositions = (h.cacheMove msg).UserPositions := by
  unfold Hub.onBroadcast
  simp only [hmsg, hty, if_true]
  cases hx : bm.Exclude with
  | none => exact ⟨_, rfl, rfl⟩
  | some ex => exact ⟨_, broadcastToSession_eq _ _ _ _ (cacheMove_wf h msg hwf), rfl⟩

/-! ## The sessions -/

theorem alreadyIn_iff (userID : String) (players : List String) :
    alreadyIn userID players = true ↔ userID ∈ players := by
  induction players with
  | nil => simp [alreadyIn]
  | cons pid rest ih =>
    by_cases hp : pid = userID
    · simp [alreadyIn, hp]
    · have hp' : ¬ userID = pid := fun h => hp h.symm
      simp [alreadyIn, hp, hp', ih]

theorem joinSession_present (sm : SessionManager) (sessionID userID : String) (s : GameSession)
    (hs : mapGet sm.sessions sessionID = some s) (hin : userID ∈ s.Players) :
    sm.JoinSession sessionID userID = { sm := sm, ret := some s, sent := [] } := by
  simp [SessionManager.JoinSession, hs, (alreadyIn_iff userID s.Players).mpr hin]

/-! ## Type assertions -/

theorem assertString_ok (payload : JObj) (k s : String)
    (h : assertString payload k = Except.ok s) : mapGet payload k = some (JVal.str s) := by
  unfold assertString at h
  split at h
  · cases h
    assumption
  · cases h

theorem assertFloat_ok (payload : JObj) (k : String) (n : Int)
    (h : assertFloat payload k = Except.ok n) : mapGet payload k = some (JVal.num n) := by
  unfold assertFloat at h
  split at h
  · cases h
    assumption
  · cases h

theorem assertBool_ok (payload : JObj) (k : String) (b : Bool)
    (h : assertBool payload k = Except.ok b) : mapGet payload k = some (JVal.bool b) := by
  unfold assertBool at h
  split at h
  · cases h
    assumption
  · cases h

theorem assertString_halt (payload : JObj) (k : String) (e : Halt)
    (h : assertString payload k = Except.error e) : e = Halt.typeAssertion := by
  unfold assertString at h
  split at h
  · cases h
  · cases h
    rfl

theorem assertFloat_halt (payload : JObj) (k : String) (e : Halt)
    (h : assertFloat payload k = Except.error e) : e = Halt.typeAssertion := by
  unfold assertFloat at h
  split at h
  · cases h
  · cases h
    rfl

theorem assertBool_halt (payload : JObj) (k : String) (e : Halt)
    (h : assertBool payload k = Except.error e) : e = Halt.typeAssertion := by
  unfold assertBool at h
  split at h
  · cases h
  · cases h
    rfl

theorem parseVoxelEvent_halt (payload : JObj) (t1 t2 : Nat) (k : String)
    (hk : k ∈ createEventFields) (hbad : wellTyped payload k = false) :
    parseVoxelEvent payload t1 t2 = Except.error Halt.typeAssertion := by
  unfold parseVoxelEvent
  cases h1 : assertString payload "title" with
  | error e => rw [assertString_halt _ _ _ h1]
  | ok v1 =>
  cases h2 : assertString payload "description" with
  | error e => rw [assertString_halt _ _ _ h2]
  | ok v2 =>
  cases h3 : assertFloat payload "x" with
  | error e => rw [assertFloat_halt _ _ _ h3]
  | ok v3 =>
  cases h4 : assertFloat payload "y" with
  | error e => rw [assertFloat_halt _ _ _ h4]
  | ok v4 =>
  cases h5 : assertString payload "creatorId" with
  | error e => rw [assertString_halt _ _ _ h5]
  | ok v5 =>
  cases h6 : assertFloat payload "ticketPrice" with
  | error e => rw [assertFloat_halt _ _ _ h6]
  | ok v6 =>
  cases h7 : assertBool payload "hasTickets" with
  | error e => rw [assertBool_halt _ _ _ h7]
  | ok v7 =>
  cases h8 : assertString payload "voxelTheme" with
  | error e => rw [assertString_halt _ _ _ h8]
  | ok v8 =>
    exfalso
    have g1 := assertString_ok _ _ _ h1
    have g2 := assertString_ok _ _ _ h2
    have g3 := assertFloat_ok _ _ _ h3
    have g4 := assertFloat_ok _ _ _ h4
    have g5 := assertString_ok _ _ _ h5
    have g6 := assertFloat_ok _ _ _ h6
    have g7 := assertBool_ok _ _ _ h7
    have g8 := assertString_ok _ _ _ h8
    simp only [createEventFields, List.mem_cons, List.mem_singleton, List.not_mem_nil,
      or_false] at hk
    rcases hk with hk | hk | hk | hk | hk | hk | hk | hk <;> subst hk
    · simp [wellTyped, g1] at hbad
    · simp [wellTyped, g2] at hbad
    · simp [wellTyped, g3] at hbad
    · simp [wellTyped, g4] at hbad
    · simp [wellTyped, g5] at hbad
    · simp [wellTyped, g6] at hbad
    · simp [wellTyped, g7] at hbad
    · simp [wellTyped, g8] at hbad

theorem hubGame_wf : hubGame.WF := by decide

/-! ## The order in which a map is visited does not matter to a broadcast -/

theorem fanout_congr (h : Hub) (elig : Ptr → Bool) (m : Bytes) (l l' : List Ptr)
    (hmem : ∀ q, q ∈ l ↔ q ∈ l') : h.fanout elig m l = h.fanout elig m l' := by
  apply Hub.ext_fields
  · simp only [Hub.fanout]
    apply List.filter_congr
    intro q _
    simp [hmem q]
  · rfl
  · funext q
    simp [Hub.fanout, hmem q]

/-- Visiting the keys of the live set in another order gives the same hub. -/
theorem broadcast_order_irrelevant (h : Hub) (m : Bytes) (sid : String) (ex : Option Ptr)
    (l : List Ptr) (hwf : h.WF) (hl : l.Nodup) (hmem : ∀ q, q ∈ l ↔ q ∈ h.Clients) :
    Hub.broadcastToSessionLoop m sid ex l h = h.broadcastToSession m sid ex ∧
      Hub.broadcastMessageLoop m ex l h = h.broadcastMessage m ex := by
  constructor
  · rw [broadcastToSession_eq h m sid ex hwf, broadcastToSessionLoop_eq,
      fanoutLoop_eq_fanout _ m l h hl (fun q hq _ => hwf.2 q ((hmem q).mp hq)),
      fanout_congr h _ m l h.Clients hmem]
  · rw [broadcastMessage_eq h m ex hwf, broadcastMessageLoop_eq,
      fanoutLoop_eq_fanout _ m l h hl (fun q hq _ => hwf.2 q ((hmem q).mp hq)),
      fanout_congr h _ m l h.Clients hmem]

/-! ## The cache holds one entry per userID -/

theorem mapKeys_mapDelete_nodup {β : Type} (m : List (String × β)) (k : String)
    (hm : (mapKeys m).Nodup) : (mapKeys (mapDelete m k)).Nodup :=
  List.Nodup.sublist (List.Sublist.map _ (List.filter_sublist _)) hm

theorem cacheMove_nodup (h : Hub) (msg : Message) (hm : (mapKeys h.UserPositions).Nodup) :
    (mapKeys (h.cacheMove msg).UserPositions).Nodup := by
  unfold Hub.cacheMove
  split
  · split
    · split
      · split
        · exact mapKeys_mapSet_nodup _ _ _ hm
        · exact hm
      · exact hm
    · exact hm
  · exact hm

theorem onBroadcast_cache (h h' : Hub) (bm : BroadcastMessage)
    (hrun : h.onBroadcast bm = Except.ok h') :
    h'.UserPositions = h.UserPositions ∨
      ∃ msg, unmarshal bm.Message = some msg ∧
        h'.UserPositions = (h.cacheMove msg).UserPositions := by
  unfold Hub.onBroadcast at hrun
  cases hu : unmarshal bm.Message with
  | none =>
    simp only [hu] at hrun
    cases hrun
    exact Or.inl rfl
  | some msg =>
    simp only [hu] at hrun
    by_cases hs : isScopedType msg.Typ = true
    · simp only [hs, if_true] at hrun
      cases hx : bm.Exclude with
      | none =>
        simp only [hx] at hrun
        cases hrun
        exact Or.inr ⟨msg, rfl, rfl⟩
      | some ex =>
        simp only [hx] at hrun
        exact Or.inr ⟨msg, rfl, broadcastToSession_ups _ h' _ _ _ hrun⟩
    · simp only [hs, if_false, Bool.false_eq_true] at hrun
      exact Or.inl (broadcastMessage_ups h h' _ _ hrun)

theorem onUnregister_cache (h h' : Hub) (p : Ptr) (hrun : h.onUnregister p = Except.ok h') :
    h'.UserPositions = h.UserPositions ∨
      h'.UserPositions = mapDelete h.UserPositions (h.mem p).UserID := by
  unfold Hub.onUnregister at hrun
  by_cases hp : p ∈ h.Clients
  · right
    rw [if_pos hp] at hrun
    simp only [] at hrun
    cases hc : (h.mem p).Send.close with
    | error e =>
      rw [hc] at hrun
      cases hrun
    | ok ch =>
      rw [hc] at hrun
      simp only [] at hrun
      split at hrun
      · exact broadcastToSession_ups _ h' _ _ _ hrun
      · exact broadcastMessage_ups _ h' _ _ hrun
  · left
    rw [if_neg hp] at hrun
    cases hrun
    rfl

theorem onRegister_cache (h h' : Hub) (p : Ptr) (obj : Client)
    (stored : Option (List VoxelEvent)) (order : List (String × JObj)) (sched : Schedule)
    (hrun : h.onRegister p obj stored order sched = Except.ok h') :
    h'.UserPositions = h.UserPositions := by
  rw [onRegister_eq] at hrun
  cases hs : Hub.sendAll p (h.replay stored order) (h.add p obj) sched with
  | error e =>
    rw [hs] at hrun
    cases hrun
  | ok r =>
    obtain ⟨h1, s1⟩ := r
    rw [hs] at hrun
    simp only [Except.ok.injEq] at hrun
    rw [← hrun]
    exact sendAll_ups p _ (h.add p obj) h1 sched s1 hs

/-- What one action does to the position cache. -/
theorem act_cache (h h' : Hub) (a : Action) (hrun : h.act a = Except.ok h') :
    h'.UserPositions = h.UserPositions ∨
      (∃ k, h'.UserPositions = mapDelete h.UserPositions k) ∨
      ∃ bm msg, a = Action.hub (Event.broadcast bm) ∧ unmarshal bm.Message = some msg ∧
        h'.UserPositions = (h.cacheMove msg).UserPositions := by
  cases a with
  | hub ev =>
    cases ev with
    | register p obj stored order sched =>
      exact Or.inl (onRegister_cache h h' p obj stored order sched hrun)
    | unregister p =>
      rcases onUnregister_cache h h' p hrun with hc | hc
      · exact Or.inl hc
      · exact Or.inr (Or.inl ⟨_, hc⟩)
    | broadcast bm =>
      rcases onBroadcast_cache h h' bm hrun with hc | ⟨msg, hu, hc⟩
      · exact Or.inl hc
      · exact Or.inr (Or.inr ⟨bm, msg, rfl, hu, hc⟩)
  | env a => exact Or.inl (env_ups h h' a hrun)

theorem act_cache_nodup (h h' : Hub) (a : Action) (hrun : h.act a = Except.ok h')
    (hm : (mapKeys h.UserPositions).Nodup) : (mapKeys h'.UserPositions).Nodup := by
  rcases act_cache h h' a hrun with hc | ⟨k, hc⟩ | ⟨bm, msg, _, _, hc⟩
  · rw [hc]
    exact hm
  · rw [hc]
    exact mapKeys_mapDelete_nodup _ _ hm
  · rw [hc]
    exact cacheMove_nodup h msg hm

theorem run_cache_nodup (acts : List Action) :
    ∀ h h' : Hub, (mapKeys h.UserPositions).Nodup → h.run acts = Except.ok h' →
      (mapKeys h'.UserPositions).Nodup := by
  induction acts with
  | nil =>
    intro h h' hm hrun
    cases hrun
    exact hm
  | cons a rest ih =>
    intro h h' hm hrun
    simp only [Hub.run] at hrun
    cases ha : h.act a with
    | error e =>
      rw [ha] at hrun
      cases hrun
    | ok h1 =>
      rw [ha] at hrun
      exact ih h1 h' (act_cache_nodup h h1 a ha hm) hrun

theorem reachable_cache_nodup (h : Hub) (hr : Reachable h) : (mapKeys h.UserPositions).Nodup := by
  obtain ⟨acts, _, hrun⟩ := hr
  exact run_cache_nodup acts NewHub h List.nodup_nil hrun

/-! ## A cached position stays until the next `move` of its user -/

theorem cacheMove_other (h : Hub) (msg : Message) (U : String)
    (hno : msg.movesUser U = false) :
    mapGet (h.cacheMove msg).UserPositions U = mapGet h.UserPositions U := by
  unfold Hub.cacheMove
  by_cases hty : msg.Typ = "move"
  · rw [if_pos hty]
    cases hp : msg.Payload with
    | object payload =>
      simp only []
      cases hg : mapGet payload "userId" with
      | none => rfl
      | some v =>
        cases v with
        | str V =>
          simp only []
          by_cases hV : V = ""
          · simp [hV]
          · have hVU : V ≠ U := by
              intro hVU
              subst hVU
              simp [Message.movesUser, hty, hp, hg] at hno
            simp only [ne_eq, hV, not_false_eq_true, if_true]
            exact mapGet_mapSet_other _ _ _ _ (Ne.symm hVU)
        | null => rfl
        | bool b => rfl
        | num n => rfl
        | nested s => rfl
    | scalar v => rfl
    | session s => rfl
    | event e => rfl
    | events es => rfl
  · rw [if_neg hty]

theorem act_keeps (h h' : Hub) (a : Action) (U : String) (hrun : h.act a = Except.ok h')
    (hno : a.movesUser U = false) :
    mapGet h'.UserPositions U = mapGet h.UserPositions U ∨ mapGet h'.UserPositions U = none := by
  rcases act_cache h h' a hrun with hc | ⟨k, hc⟩ | ⟨bm, msg, ha, hu, hc⟩
  · rw [hc]
    exact Or.inl rfl
  · rw [hc]
    exact mapGet_mapDelete_cases _ _ _
  · subst ha
    simp only [Action.movesUser, hu] at hno
    rw [hc]
    exact Or.inl (cacheMove_other h msg U hno)

theorem run_keeps (acts : List Action) (U : String) (v : JObj) :
    ∀ h h' : Hub, h.run acts = Except.ok h' → (∀ a ∈ acts, a.movesUser U = false) →
      (mapGet h.UserPositions U = some v ∨ mapGet h.UserPositions U = none) →
      (mapGet h'.UserPositions U = some v ∨ mapGet h'.UserPositions U = none) := by
  induction acts with
  | nil =>
    intro h h' hrun _ hv
    cases hrun
    exact hv
  | cons a rest ih =>
    intro h h' hrun hno hv
    simp only [Hub.run] at hrun
    cases ha : h.act a with
    | error e =>
      rw [ha] at hrun
      cases hrun
    | ok h1 =>
      rw [ha] at hrun
      refine ih h1 h' hrun (fun b hb => hno b (List.mem_cons_of_mem _ hb)) ?_
      rcases act_keeps h h1 a U ha (hno a (List.mem_cons_self _ _)) with hk | hk
      · rw [hk]
        exact hv
      · exact Or.inr hk

/-! ## A cache of more positions than a queue holds -/

theorem userName_inj (i j : Nat) (h : userName i = userName j) : i = j := by
  unfold userName at h
  have hl := congrArg (fun s => s.data.length) h
  simp only [List.length_replicate] at hl
  omega

theorem userName_fresh (n : Nat) : userName n ∉ mapKeys (crowd n) := by
  intro hin
  simp only [mapKeys, crowd, List.map_map, List.mem_map, List.mem_range, Function.comp] at hin
  obtain ⟨i, hi, he⟩ := hin
  have := userName_inj i n he
  omega

theorem userName_ne (n : Nat) : userName n ≠ "" := by
  intro h
  have hl := congrArg (fun s => s.data.length) h
  simp [userName] at hl

theorem crowd_succ (n : Nat) : crowd (n + 1) = crowd n ++ [(userName n, positionOf n)] := by
  simp [crowd, List.range_succ]

theorem moveOf_run (h : Hub) (n : Nat) (hc : h.Clients = [0]) (hu : h.UserPositions = crowd n) :
    h.act (moveOf n) = Except.ok { h with UserPositions := crowd (n + 1) } := by
  have hty : isScopedType "move" = true := by decide
  have hget : mapGet (positionOf n) "userId" = some (JVal.str (userName n)) := by
    simp [positionOf, mapGet]
  have hcache : h.cacheMove { Typ := "move", Payload := Payload.object (positionOf n) }
      = { h with UserPositions := crowd (n + 1) } := by
    rw [cacheMove_set h (positionOf n) (userName n) hget (userName_ne n), hu,
      mapSet_absent _ _ _ (userName_fresh n), crowd_succ]
  simp only [moveOf, Hub.act, Hub.step, Hub.onBroadcast, unmarshal, marshal, decodePayload, hty,
    if_true]
  rw [hcache]
  simp [Hub.broadcastToSession, hc, Hub.broadcastToSessionLoop]

theorem moves_run (n : Nat) (h : Hub) (hc : h.Clients = [0]) (hu : h.UserPositions = []) :
    h.run (moves n) = Except.ok { h with UserPositions := crowd n } := by
  induction n with
  | zero =>
    simp only [moves, Hub.run, crowd, List.range_zero, List.map_nil]
    rw [← hu]
  | succ n ih =>
    rw [moves, run_snoc _ _ _ _ ih]
    exact moveOf_run { h with UserPositions := crowd n } n hc rfl

theorem registrations_moves (n : Nat) : registrations (moves n) = [] := by
  induction n with
  | zero => rfl
  | succ n ih =>
    rw [moves, registrations_append, ih]
    rfl

theorem moves_fresh (n : Nat) (a : Action) (ha : a ∈ moves n) : a.freshQueue = true := by
  induction n with
  | zero => simp [moves] at ha
  | succ n ih =>
    rw [moves, List.mem_append] at ha
    rcases ha with ha | ha
    · exact ih ha
    · simp only [List.mem_singleton] at ha
      subst ha
      rfl

/-- The hub can reach a state whose cache holds as many positions as one
likes, more than a queue has slots. -/
theorem crowd_run (n : Nat) :
    ∃ g, NewHub.run (ServeWs 0 "a" "" none :: moves n) = Except.ok g ∧ g.WF ∧
      g.Clients = [0] ∧ g.UserPositions = crowd n := by
  obtain ⟨hrun, hs⟩ := churn_start
  obtain ⟨hc, hu, _, _, hopen, _, _⟩ := hs
  obtain ⟨g0, hg0⟩ : ∃ g0, g0 = NewHub.registered 0 (newClient "a" "") none [] := ⟨_, rfl⟩
  rw [← hg0] at hrun hc hu hopen
  refine ⟨{ g0 with UserPositions := crowd n }, ?_, ⟨?_, ?_⟩, hc, rfl⟩
  · have := run_append [ServeWs 0 "a" "" none] (moves n) NewHub
    rw [hrun] at this
    simp only [List.singleton_append] at this
    rw [this]
    exact moves_run n g0 hc hu
  · show g0.Clients.Nodup
    rw [hc]
    simp
  · intro q hq
    have hq' : q ∈ g0.Clients := hq
    rw [hc] at hq'
    simp only [List.mem_singleton] at hq'
    subst hq'
    exact hopen

theorem raceRun_fresh : FreshRegistrations raceRun := by
  constructor
  · rw [raceRun, registrations_append, registrations_cons, registrations_moves]
    decide
  · intro a ha
    rw [raceRun] at ha
    simp only [List.mem_cons, List.mem_append, List.mem_singleton, List.not_mem_nil,
      or_false] at ha
    rcases ha with (ha | ha) | ha
    · subst ha
      rfl
    · exact moves_fresh 1025 a ha
    · subst ha
      rfl

/-- The invariant of the queues in a run during which no reader runs
`HandleCreateEvent`: neither fault of a channel occurs, and after every action
the live connections are distinct and their queues open. -/
theorem calm_run_lifecycle (acts pre suf : List Action) (hfresh : FreshRegistrations acts)
    (hcalm : ∀ a ∈ acts, a.calm = true) (hsplit : acts = pre ++ suf) :
    NewHub.run pre ≠ Except.error Halt.sendOnClosed ∧
      NewHub.run pre ≠ Except.error Halt.closeOfClosed ∧
      ∀ h, NewHub.run pre = Except.ok h →
        h.Clients.Nodup ∧ ∀ p ∈ h.Clients, (h.mem p).Send.closed = false := by
  subst hsplit
  have hpre := fresh_of_append pre suf hfresh
  have hhalt := fun e => run_calm_halt pre NewHub [] [] e newHub_tracks hpre.1
    (fun _ _ hin => by simp at hin) hpre.2 (fun a ha => hcalm a (List.mem_append_left _ ha))
  refine ⟨?_, ?_, ?_⟩
  · intro he
    have := hhalt _ he
    cases this
  · intro he
    have := hhalt _ he
    cases this
  · intro h hrun
    exact (reachable_tracks pre h hpre hrun).1

/-! ## The live set under `Register` and `Unregister` events -/

theorem eventsReplay_length (stored : Option (List VoxelEvent)) :
    (eventsReplay stored).length ≤ 1 := by
  unfold eventsReplay
  cases stored with
  | none => simp
  | some events =>
    by_cases he : events.length = 0
    · simp [he]
    · simp [he]

theorem onUnregister_mem (h : Hub) (conn p : Ptr) (hwf : h.WF) (hlive : conn ∈ h.Clients) :
    ∃ h', h.onUnregister conn = Except.ok h' ∧ h'.UserPositions =
        mapDelete h.UserPositions (h.mem conn).UserID ∧
      (p ∈ h'.Clients ↔ p ∈ h.Clients ∧ p ≠ conn ∧
        ¬ (((h.mem conn).SessionID = "" ∨ (h.mem p).SessionID = (h.mem conn).SessionID) ∧
          (h.mem p).Send.hasRoom = false)) := by
  refine ⟨_, onUnregister_live h conn hwf hlive, rfl, ?_⟩
  rw [fanout_mem_live, removed_live]
  constructor
  · rintro ⟨⟨hp, hne⟩, hn⟩
    refine ⟨hp, hne, fun hc => hn ⟨(leaveScope_iff h conn p hne).mpr hc.1, ?_⟩⟩
    rw [removed_mem_other h conn p hne]
    exact hc.2
  · rintro ⟨hp, hne, hn⟩
    refine ⟨⟨hp, hne⟩, fun hc => hn ⟨(leaveScope_iff h conn p hne).mp hc.1, ?_⟩⟩
    have := hc.2
    rw [removed_mem_other h conn p hne] at this
    exact this

/-- What a run of `Register` and `Unregister` events from the empty hub ends
in: it returns, the cache is empty, and the tracked connections that are not
live are those dropped on a full queue. -/
theorem membership_run (acts : List Action) :
    FreshRegistrations acts → (∀ a ∈ acts, a.membershipOnly = true) →
    ∃ h, NewHub.run acts = Except.ok h ∧ h.Tracks (trackAll [] acts) (registrations acts) ∧
      h.UserPositions = [] ∧
      (∀ p, p ∈ trackAll [] acts → p ∉ h.Clients → DroppedFull NewHub acts p) ∧
      (∀ p, DroppedFull NewHub acts p → p ∉ h.Clients ∧ p ∈ registrations acts) := by
  induction acts using List.reverseRecOn with
  | nil =>
    intro _ _
    refine ⟨NewHub, rfl, newHub_tracks, rfl, ?_, ?_⟩
    · intro p hp
      simp [trackAll] at hp
    · intro p hp
      exact absurd hp (droppedFull_nil NewHub p)
  | append_singleton l a ih =>
    intro hfresh hmem
    have hfl := fresh_of_append l [a] hfresh
    obtain ⟨g, hrun, ht, hups, hdrop, hdropped⟩ :=
      ih hfl (fun b hb => hmem b (List.mem_append_left _ hb))
    have hregs : registrations (l ++ [a]) = registrations l ++ a.registered := by
      rw [registrations_append, registrations_cons]
      simp [registrations]
    have hnew : ∀ p ∈ a.registered, p ∉ registrations l := by
      intro p hp hin
      have hnd := hfresh.1
      rw [hregs] at hnd
      exact (List.nodup_append.mp hnd).2.2 hin hp
    have hfa : a.freshQueue = true := hfresh.2 a (by simp)
    have hma : a.membershipOnly = true := hmem a (by simp)
    have htrack : trackAll [] (l ++ [a]) = a.track (trackAll [] l) := by
      rw [trackAll_append]
      rfl
    have hact : NewHub.run (l ++ [a]) = g.act a := run_snoc l a NewHub g hrun
    have hstep : ∀ h', g.act a = Except.ok h' →
        h'.Tracks (trackAll [] (l ++ [a])) (registrations (l ++ [a])) := by
      intro h' hok
      have := act_tracks g h' _ _ a ht hnew hfa hok
      rw [htrack]
      obtain ⟨hwf, hlive, hER, hclosed⟩ := this
      refine ⟨hwf, hlive, ?_, hclosed⟩
      intro p hp
      have := hER p hp
      rw [hregs]
      simp only [List.mem_append] at this ⊢
      tauto
    have hmono : ∀ p, p ∈ registrations l → p ∈ registrations (l ++ [a]) := by
      intro p hp
      rw [hregs]
      exact List.mem_append_left _ hp
    cases a with
    | env e =>
      obtain ⟨h', hok, hs, _⟩ := env_calm g e hma
      have hok' : g.act (Action.env e) = Except.ok h' := hok
      refine ⟨h', by rw [hact, hok'], hstep h' hok', by rw [hs.2.1, hups], ?_, ?_⟩
      · intro p hp hnl
        rw [htrack] at hp
        rw [hs.1] at hnl
        exact (droppedFull_snoc NewHub l _ p).mpr (Or.inl (hdrop p hp hnl))
      · intro p hp
        rcases (droppedFull_snoc NewHub l _ p).mp hp with hold | ⟨conn, g', ha, _⟩
        · rw [hs.1]
          exact ⟨(hdropped p hold).1, hmono p (hdropped p hold).2⟩
        · cases ha
    | hub ev =>
      cases ev with
      | broadcast bm => simp [Action.membershipOnly] at hma
      | register c obj stored order sched =>
        obtain ⟨hopen, hempty, hcap⟩ := freshQueue_open c obj stored order sched hfa
        have hcR : c ∉ registrations l := hnew c (by simp [Action.registered])
        have hcE : c ∉ trackAll [] l := fun hin => hcR (ht.2.2.1 c hin)
        have hcl : c ∉ g.Clients := fun hin => hcE (ht.2.1 c hin)
        rcases onRegister_calm g c obj stored order sched hma hopen with
          ⟨_, hfull⟩ | ⟨h', K, hok, hs, _, _⟩
        · exfalso
          rw [replay_length, hups, hempty] at hfull
          have := eventsReplay_length stored
          simp only [List.length_nil] at hfull
          omega
        · have hok' : g.act (Action.hub (Event.register c obj stored order sched))
              = Except.ok h' := hok
          have hcls : h'.Clients = g.Clients ++ [c] := by
            rw [hs.1]
            simp [Hub.add, hcl]
          refine ⟨h', by rw [hact, hok'], hstep h' hok', ?_, ?_, ?_⟩
          · rw [hs.2.1]
            exact hups
          · intro p hp hnl
            rw [htrack] at hp
            simp only [Action.track, hcE, if_false, List.mem_append, List.mem_singleton] at hp
            rw [hcls] at hnl
            simp only [List.mem_append, List.mem_singleton, not_or] at hnl
            rcases hp with hp | hp
            · exact (droppedFull_snoc NewHub l _ p).mpr (Or.inl (hdrop p hp hnl.1))
            · exact absurd hp hnl.2
          · intro p hp
            rcases (droppedFull_snoc NewHub l _ p).mp hp with hold | ⟨conn, g', ha, _⟩
            · have := hdropped p hold
              refine ⟨?_, hmono p this.2⟩
              rw [hcls]
              simp only [List.mem_append, List.mem_singleton, not_or]
              exact ⟨this.1, fun hpc => hcR (hpc ▸ this.2)⟩
            · cases ha
      | unregister conn =>
        by_cases hlive : conn ∈ g.Clients
        · obtain ⟨h', hok, hu', _⟩ := onUnregister_mem g conn conn ht.1 hlive
          have hok' : g.act (Action.hub (Event.unregister conn)) = Except.ok h' := hok
          have hchar : ∀ p, p ∈ h'.Clients ↔ p ∈ g.Clients ∧ p ≠ conn ∧
              ¬ (((g.mem conn).SessionID = "" ∨
                  (g.mem p).SessionID = (g.mem conn).SessionID) ∧
                (g.mem p).Send.hasRoom = false) := by
            intro p
            obtain ⟨h2, hok2, _, hm2⟩ := onUnregister_mem g conn p ht.1 hlive
            rw [hok] at hok2
            cases hok2
            exact hm2
          refine ⟨h', by rw [hact, hok'], hstep h' hok', ?_, ?_, ?_⟩
          · rw [hu', hups]
            rfl
          · intro p hp hnl
            rw [htrack] at hp
            simp only [Action.track, List.mem_filter, decide_eq_true_eq] at hp
            by_cases hpl : p ∈ g.Clients
            · have hfull : ((g.mem conn).SessionID = "" ∨
                  (g.mem p).SessionID = (g.mem conn).SessionID) ∧
                  (g.mem p).Send.hasRoom = false := by
                by_contra hcon
                exact hnl ((hchar p).mpr ⟨hpl, hp.2, hcon⟩)
              exact (droppedFull_snoc NewHub l _ p).mpr
                (Or.inr ⟨conn, g, rfl, hrun, hlive, hpl, hp.2, hfull.1, hfull.2⟩)
            · exact (droppedFull_snoc NewHub l _ p).mpr (Or.inl (hdrop p hp.1 hpl))
          · intro p hp
            rcases (droppedFull_snoc NewHub l _ p).mp hp with
              hold | ⟨conn', g', ha, hrun', _, hpl, hne, hscope, hroom⟩
            · have := hdropped p hold
              exact ⟨fun hin => this.1 ((hchar p).mp hin).1, hmono p this.2⟩
            · cases ha
              rw [hrun] at hrun'
              cases hrun'
              refine ⟨fun hin => ((hchar p).mp hin).2.2 ⟨hscope, hroom⟩, ?_⟩
              exact hmono p (ht.2.2.1 p (ht.2.1 p hpl))
        · have hok : g.act (Action.hub (Event.unregister conn)) = Except.ok g :=
            onUnregister_absent g conn hlive
          refine ⟨g, by rw [hact, hok], hstep g hok, hups, ?_, ?_⟩
          · intro p hp hnl
            rw [htrack] at hp
            simp only [Action.track, List.mem_filter, decide_eq_true_eq] at hp
            exact (droppedFull_snoc NewHub l _ p).mpr (Or.inl (hdrop p hp.1 hnl))
          · intro p hp
            rcases (droppedFull_snoc NewHub l _ p).mp hp with
              hold | ⟨conn', g', ha, hrun', hl', _⟩
            · exact ⟨(hdropped p hold).1, hmono p (hdropped p hold).2⟩
            · cases ha
              rw [hrun] at hrun'
              cases hrun'
              exact absurd hl' hlive

/-! ## The claims -/

/-- C10: the code breaks the queue-lifecycle invariant that the claim states.
A connection `c` registers with a fresh queue in a hub whose replay is longer
than the capacity of that queue. The hub fills the queue and parks on its next
blocking send; a reader then handles a well-typed `create_event` frame and
calls `broadcastMessage` from its own goroutine, which finds the queue of the
live connection `c` full and closes it; the send of the hub is then a send on a
closed queue, which faults the event loop. -/
theorem create_event_race_faults (h : Hub) (c : Ptr) (obj : Client)
    (stored : Option (List VoxelEvent)) (order : List (String × JObj)) (payload : JObj)
    (t1 t2 : Nat) (ev : VoxelEvent) (hwf : h.WF) (hc : c ∉ h.Clients)
    (hopen : obj.Send.closed = false) (hempty : obj.Send.buf = [])
    (hlen : obj.Send.cap < (h.replay stored order).length)
    (hparse : parseVoxelEvent payload t1 t2 = Except.ok ev) :
    h.onRegister c obj stored order (raceSchedule (obj.Send.cap + 1) payload t1 t2)
      = Except.error Halt.sendOnClosed := by
  obtain ⟨msgs, hmsgs⟩ : ∃ msgs, msgs = h.replay stored order := ⟨_, rfl⟩
  obtain ⟨cap, hcap⟩ : ∃ cap, cap = obj.Send.cap := ⟨_, rfl⟩
  rw [← hmsgs, ← hcap] at hlen
  have htake : (msgs.take cap).length = cap := by
    rw [List.length_take]
    omega
  obtain ⟨m, rest, hdrop⟩ : ∃ m rest, msgs.drop cap = m :: rest := by
    cases hd : msgs.drop cap with
    | nil =>
      have := congrArg List.length hd
      rw [List.length_drop] at this
      simp only [List.length_nil] at this
      omega
    | cons m rest => exact ⟨m, rest, rfl⟩
  have hsplit : msgs = msgs.take cap ++ m :: rest := by
    rw [← hdrop, List.take_append_drop]
  have hadd : (h.add c obj).Tracks (h.Clients ++ [c]) (c :: h.Clients) :=
    add_tracks h h.Clients h.Clients c obj
      ⟨hwf, fun _ hq => hq, fun _ hq => hq, fun _ hq hn => absurd hq hn⟩ hc hopen
  obtain ⟨g, hg⟩ : ∃ g, g = (h.add c obj).pushed c (msgs.take cap) := ⟨_, rfl⟩
  have hgt : g.Tracks (h.Clients ++ [c]) (c :: h.Clients) := by
    rw [hg]
    exact sameShape_tracks _ _ _ _ (sameShape_pushed _ c _) hadd
  have hgopen : (g.mem c).Send.closed = false := by
    rw [hg]
    exact pushed_open _ c _ (add_open h c obj hopen)
  have hgcap : (g.mem c).Send.cap = cap := by
    rw [hg, hcap]
    simp [Hub.pushed, Hub.add]
  have hglen : (g.mem c).Send.buf.length = cap := by
    rw [hg]
    simp only [Hub.pushed, Hub.add, if_true, List.length_append, hempty, List.length_nil,
      Nat.zero_add]
    exact htake
  have hglive : c ∈ g.Clients := by
    rw [hg]
    simp [Hub.pushed, Hub.add, hc]
  have hfirst : Hub.sendAll c (msgs.take cap) (h.add c obj)
      (raceSchedule (cap + 1) payload t1 t2)
      = Except.ok (g, [[], [EnvAction.createEvent payload t1 t2 true]]) := by
    have := sendAll_idle c (msgs.take cap) (h.add c obj) (cap + 1)
      [[EnvAction.createEvent payload t1 t2 true]] (add_open h c obj hopen)
      (by simp only [Hub.add, if_true, hempty, List.length_nil, Nat.zero_add]
          rw [htake, ← hcap])
      (by omega)
    rw [htake, Nat.add_sub_cancel_left] at this
    rw [raceSchedule, this, hg]
    rfl
  have hroom : (g.mem c).Send.hasRoom = false := by
    simp [Chan.hasRoom, hglen, hgcap]
  have hbroadcast : g.envs [EnvAction.createEvent payload t1 t2 true]
      = Except.ok (g.fanout (notExcluded none)
          (marshal { Typ := "event_created", Payload := Payload.event ev }) g.Clients) := by
    simp only [Hub.envs, Hub.env, Hub.HandleCreateEvent, hparse, if_true]
    rw [broadcastMessage_eq g _ none hgt.1]
  have hclosed : ((g.fanout (notExcluded none)
      (marshal { Typ := "event_created", Payload := Payload.event ev }) g.Clients).mem c).Send.closed
      = true := by
    rw [(fanout_full g (notExcluded none) _ c hglive (by simp [notExcluded]) hroom).1]
  have hsecond : Hub.sendTo c m g [[], [EnvAction.createEvent payload t1 t2 true]]
      = Except.error Halt.sendOnClosed := by
    rw [Hub.sendTo]
    simp only [Hub.envs]
    rw [trySend_full _ m hgopen (by omega)]
    simp only []
    rw [Hub.sendTo, hbroadcast]
    simp only []
    rw [trySend_closed _ m hclosed]
  rw [onRegister_eq, ← hmsgs, ← hcap, hsplit, sendAll_append, hfirst]
  simp only [Hub.sendAll, hsecond]

/-- The run from the empty hub that ends in that fault: connection `0`
registers and sends the positions of 1025 users, connection `1` registers with
a queue of 1024 slots, and a reader handles a `create_event` frame while the hub
is parked on the 1025th position. -/
theorem create_event_race_faults_witness :
    FreshRegistrations raceRun ∧ NewHub.run raceRun = Except.error Halt.sendOnClosed := by
  refine ⟨raceRun_fresh, ?_⟩
  obtain ⟨g, hrun, hwf, hc, hu⟩ := crowd_run 1025
  have hfault := create_event_race_faults g 1 (newClient "b" "") none [] partyPayload 0 0
    { ID := "", Title := "party", Description := "tonight", X := 3, Y := 4, CreatorID := "a"
      StartTime := 0, TicketPrice := 0, HasTickets := false, VoxelTheme := "neon", CreatedAt := 0 }
    hwf (by rw [hc]; decide) rfl rfl
    (by rw [replay_length, hu]; simp [crowd, eventsReplay, newClient]) rfl
  rw [raceRun, run_append, hrun]
  simp only [Hub.run, Hub.act, Hub.step]
  rw [show (1025 : Nat) = (newClient "b" "").Send.cap + 1 from rfl, hfault]

/-- C4, as stated, fails: connection `0` registers and its writer never
receives; 1025 other connections register and unregister in turn, each leaving
a `leave` message in the queue of `0`. The 1025th finds that queue full, so the
hub closes it and drops `0` from the live set, although `0` was registered and
never unregistered. -/
theorem live_set_counterexample :
    FreshRegistrations (churn 1025) ∧ (∀ a ∈ churn 1025, a.isMembership = true) ∧
      ∃ h, NewHub.run (churn 1025) = Except.ok h ∧ StillRegistered (churn 1025) 0 ∧
        0 ∉ h.Clients := by
  obtain ⟨hfresh, hmem⟩ := churn_fresh 1025
  obtain ⟨h1, h', _, _, _, _, _, hrun, hcl, _⟩ :=
    cycles_overflow [ServeWs 0 "a" "" none] _ [] churn_start.1 churn_start.2 (by decide) rfl
  rw [← churn_eq] at hrun
  exact ⟨hfresh, hmem, h', hrun, churn_stillRegistered 1025, by simp [hcl]⟩

/-- C4, amended. Every run of `Register` and `Unregister` events from the
empty hub, in which each connection is registered at most once with a fresh
open queue, returns, and the live set it ends in is the set of the connections
that were registered and for which no `Unregister` was processed since, minus
those that were live and in the scope of a `leave` message that the hub
broadcast while their queue was full. Beside the hub the writers may receive
and the readers may assign sessions. -/
theorem live_set_tracks (acts : List Action) (hfresh : FreshRegistrations acts)
    (hmem : ∀ a ∈ acts, a.membershipOnly = true) :
    ∃ h, NewHub.run acts = Except.ok h ∧
      ∀ p, p ∈ h.Clients ↔ (StillRegistered acts p ∧ ¬ DroppedFull NewHub acts p) := by
  obtain ⟨h, hrun, ht, _, hdrop, hdropped⟩ := membership_run acts hfresh hmem
  refine ⟨h, hrun, fun p => ⟨fun hp => ?_, fun hp => ?_⟩⟩
  · exact ⟨(mem_trackAll_nil acts p).mp (ht.2.1 p hp), fun hd => (hdropped p hd).1 hp⟩
  · by_contra hnl
    exact hp.2 (hdrop p ((mem_trackAll_nil acts p).mpr hp.1) hnl)

/-- On the run of the counterexample the amended statement accounts for the
connection `0`: it is not live at the end, and it is among the connections
dropped on a full queue. -/
theorem live_set_tracks_witness :
    FreshRegistrations (churn 1025) ∧ (∀ a ∈ churn 1025, a.membershipOnly = true) ∧
      ∃ h, NewHub.run (churn 1025) = Except.ok h ∧ 0 ∉ h.Clients ∧
        StillRegistered (churn 1025) 0 ∧ DroppedFull NewHub (churn 1025) 0 := by
  refine ⟨(churn_fresh 1025).1, churn_membershipOnly 1025, ?_⟩
  obtain ⟨h, hrun, hiff⟩ :=
    live_set_tracks (churn 1025) (churn_fresh 1025).1 (churn_membershipOnly 1025)
  obtain ⟨h1, h', _, _, _, _, _, hrun', hcl, _⟩ :=
    cycles_overflow [ServeWs 0 "a" "" none] _ [] churn_start.1 churn_start.2 (by decide) rfl
  rw [← churn_eq, hrun] at hrun'
  cases hrun'
  have hnl : 0 ∉ h.Clients := by simp [hcl]
  refine ⟨h, hrun, hnl, churn_stillRegistered 1025, ?_⟩
  by_contra hnd
  exact hnl ((hiff 0).mpr ⟨churn_stillRegistered 1025, hnd⟩)

/-- C1, as stated, fails: connection `2` is live, in scope `""` and is not the
excluded sender `1`, but its queue already holds 1024 frames; the broadcast of
`moveOfA` does not append to that queue: the hub closes it and drops `2` from
the live set. The same happens in a state the event loop reaches from the
empty hub, where the queue of the live connection `0` is full. -/
theorem broadcastToSession_counterexample :
    (hubFull.WF ∧ 2 ∈ hubFull.Clients ∧ (hubFull.mem 2).SessionID = "" ∧
      (some 2 : Option Ptr) ≠ some 1 ∧
      ∃ h', hubFull.broadcastToSession moveOfA "" (some 1) = Except.ok h' ∧
        (h'.mem 2).Send.buf = (hubFull.mem 2).Send.buf ∧ moveOfA ∉ (h'.mem 2).Send.buf ∧
        2 ∉ h'.Clients) ∧
    (∃ g g', Reachable g ∧ 0 ∈ g.Clients ∧ (g.mem 0).SessionID = "" ∧
      g.broadcastToSession moveOfA "" none = Except.ok g' ∧
      (g'.mem 0).Send.buf = (g.mem 0).Send.buf ∧ 0 ∉ g'.Clients) := by
  constructor
  · refine ⟨hubFull_wf, by decide, rfl, by decide, _,
      broadcastToSession_eq hubFull moveOfA "" (some 1) hubFull_wf, ?_, ?_, ?_⟩
    · have := fanout_full hubFull (hubFull.inScope "" (some 1)) moveOfA 2 (by decide) (by decide)
        hubFull_noRoom
      rw [this.1]
    · have := fanout_full hubFull (hubFull.inScope "" (some 1)) moveOfA 2 (by decide) (by decide)
        hubFull_noRoom
      rw [this.1]
      simp only [hubFull]
      intro hin
      have := List.eq_of_mem_replicate hin
      revert this
      decide
    · exact (fanout_full hubFull (hubFull.inScope "" (some 1)) moveOfA 2 (by decide) (by decide)
        hubFull_noRoom).2
  · obtain ⟨g, hreach, hc, _, hsid, _, _, hcap, hlen⟩ := stalled_full_reachable
    have hlive : 0 ∈ g.Clients := by simp [hc]
    have hfull := fanout_full g (g.inScope "" none) moveOfA 0 hlive
      ((inScope_iff g "" none 0).mpr ⟨hsid, by simp⟩) (by simp [Chan.hasRoom, hcap, hlen])
    refine ⟨g, _, hreach, hlive, hsid,
      broadcastToSession_eq g moveOfA "" none (reachable_wf g hreach), ?_, hfull.2⟩
    rw [hfull.1]

/-- C1, amended. In a hub whose live connections have open queues,
`broadcastToSession(p, s, exclude)` attempts a delivery to exactly the
connections that are live at call time, have `SessionID = s` and are not
`exclude`: each of those whose queue has room gets `p` appended to its queue
and stays live; each of those whose queue is full is closed and removed from
the live set without receiving `p`; no other connection changes. In
particular a frame that the hub forwards for a sender `a` is appended to the
queue of a live connection `b` of the same scope whose queue has room, and
the queue of `a` is unchanged. -/
theorem broadcastToSession_delivery (h : Hub) (p : Bytes) (s : String) (exclude : Option Ptr)
    (hwf : h.WF) :
    (∃ h', h.broadcastToSession p s exclude = Except.ok h' ∧
      (∀ q, q ∈ h.Clients → (h.mem q).SessionID = s → some q ≠ exclude →
        (h.mem q).Send.hasRoom = true →
          (h'.mem q).Send.buf = (h.mem q).Send.buf ++ [p] ∧ q ∈ h'.Clients) ∧
      (∀ q, q ∈ h.Clients → (h.mem q).SessionID = s → some q ≠ exclude →
        (h.mem q).Send.hasRoom = false →
          (h'.mem q).Send.buf = (h.mem q).Send.buf ∧ (h'.mem q).Send.closed = true ∧
            q ∉ h'.Clients) ∧
      (∀ q, ¬ (q ∈ h.Clients ∧ (h.mem q).SessionID = s ∧ some q ≠ exclude) →
        h'.mem q = h.mem q ∧ (q ∈ h'.Clients ↔ q ∈ h.Clients))) ∧
    (∀ (a b : Ptr) (msg : Message), unmarshal p = some msg → isScopedType msg.Typ = true →
      b ∈ h.Clients → b ≠ a → (h.mem b).SessionID = (h.mem a).SessionID →
      (h.mem b).Send.hasRoom = true →
        ∃ h', h.onBroadcast { Message := p, Exclude := some a } = Except.ok h' ∧
          (h'.mem b).Send.buf = (h.mem b).Send.buf ++ [p] ∧
          (h'.mem a).Send.buf = (h.mem a).Send.buf) := by
  constructor
  · refine ⟨_, broadcastToSession_eq h p s exclude hwf, ?_, ?_, ?_⟩
    · intro q hq hs hx hr
      have := fanout_room h (h.inScope s exclude) p q hq ((inScope_iff h s exclude q).mpr ⟨hs, hx⟩)
        hr
      exact ⟨by rw [this.1], this.2⟩
    · intro q hq hs hx hr
      have := fanout_full h (h.inScope s exclude) p q hq ((inScope_iff h s exclude q).mpr ⟨hs, hx⟩)
        hr
      exact ⟨by rw [this.1], by rw [this.1], this.2⟩
    · intro q hn
      exact fanout_other h (h.inScope s exclude) p q
        (fun hc => hn ⟨hc.1, (inScope_iff h s exclude q).mp hc.2⟩)
  · intro a b msg hu hty hb hba hsid hr
    have hwf1 : (h.cacheMove msg).WF := (cacheMove_tracks h h.Clients h.Clients msg
      ⟨hwf, fun _ hq => hq, fun _ hq => hq, fun _ hq hn => absurd hq hn⟩).1
    have hmem : (h.cacheMove msg).mem = h.mem := cacheMove_mem h msg
    have hcl : (h.cacheMove msg).Clients = h.Clients := cacheMove_clients h msg
    refine ⟨(h.cacheMove msg).fanout
      ((h.cacheMove msg).inScope ((h.cacheMove msg).mem a).SessionID (some a)) p
      (h.cacheMove msg).Clients, ?_, ?_, ?_⟩
    · simp only [Hub.onBroadcast, hu, hty, if_true]
      exact broadcastToSession_eq _ p _ (some a) hwf1
    · have := fanout_room (h.cacheMove msg)
        ((h.cacheMove msg).inScope ((h.cacheMove msg).mem a).SessionID (some a)) p b
        (by rw [hcl]; exact hb)
        ((inScope_iff _ _ _ b).mpr ⟨by rw [hmem]; exact hsid, by simpa using hba⟩)
        (by rw [hmem]; exact hr)
      rw [this.1, hmem]
    · have := fanout_other (h.cacheMove msg)
        ((h.cacheMove msg).inScope ((h.cacheMove msg).mem a).SessionID (some a)) p a
        (fun hc => ((inScope_iff _ _ _ a).mp hc.2).2 rfl)
      rw [this.1, hmem]

theorem broadcastToSession_delivery_witness :
    hubAB.WF ∧
      ∃ h', hubAB.onBroadcast { Message := moveOfA, Exclude := some 1 } = Except.ok h' ∧
        (h'.mem 2).Send.buf = (hubAB.mem 2).Send.buf ++ [moveOfA] ∧
        (h'.mem 1).Send.buf = (hubAB.mem 1).Send.buf :=
  ⟨hubAB_wf, (broadcastToSession_delivery hubAB moveOfA "" (some 1) hubAB_wf).2 1 2
    { Typ := "move"
      Payload := Payload.object [("userId", JVal.str "A"), ("x", JVal.num 1), ("y", JVal.num 2)] }
    rfl (by decide) (by decide) (by decide) rfl (by decide)⟩

/-- C6. Backpressure is confined to the offending connection, for both
broadcast functions: in a hub whose live connections have open queues, every
eligible recipient whose queue is full has its queue closed and is removed from
the live set; every eligible recipient whose queue has room receives the
payload in the same call; every live connection that is not a full-queue
recipient stays in the live set with its queue open. -/
theorem backpressure_confined (h : Hub) (m : Bytes) (sessionID : String) (exclude : Option Ptr)
    (hwf : h.WF) :
    (∃ h', h.broadcastToSession m sessionID exclude = Except.ok h' ∧
      Confined h h' (fun q => (h.mem q).SessionID = sessionID ∧ some q ≠ exclude) m) ∧
    (∃ h', h.broadcastMessage m exclude = Except.ok h' ∧
      Confined h h' (fun q => some q ≠ exclude) m) := by
  constructor
  · refine ⟨_, broadcastToSession_eq h m sessionID exclude hwf, ?_⟩
    have := fanout_confined h (h.inScope sessionID exclude) m hwf
    simpa only [Confined, inScope_iff] using this
  · refine ⟨_, broadcastMessage_eq h m exclude hwf, ?_⟩
    have := fanout_confined h (notExcluded exclude) m hwf
    simpa only [Confined, notExcluded_iff] using this

theorem backpressure_confined_witness :
    hubFull.WF ∧
      (∃ h', hubFull.broadcastToSession audioFrame "" none = Except.ok h' ∧
        Confined hubFull h' (fun q => (hubFull.mem q).SessionID = "" ∧ some q ≠ none)
          audioFrame) ∧
      (∃ h', hubFull.broadcastMessage audioFrame none = Except.ok h' ∧
        Confined hubFull h' (fun q => some q ≠ none) audioFrame) :=
  ⟨hubFull_wf, backpressure_confined hubFull audioFrame "" none hubFull_wf⟩

/-- C7, as stated, fails. First run: connection `0` (user `a`, scope `""`)
registers and sends its position, then stalls; the `leave` messages of 1025
connections that come and go fill its queue and the hub drops it; connection
`5000` registers in the same scope. The connection `0` has been registered, yet
processing `Unregister(0)` changes nothing: the cache still holds the position
of user `a`, and no `leave` reaches `5000`. Second run: after 1024 such
connections the queue of `0` is full; when `Unregister(1025)` is processed the
live connection `0`, in the scope of `1025`, does not receive the `leave`
message: its queue is closed and it is dropped. -/
theorem unregister_counterexample :
    (∃ h, FreshRegistrations staleRun ∧ NewHub.run staleRun = Except.ok h ∧
        StillRegistered staleRun 0 ∧ h.onUnregister 0 = Except.ok h ∧
        mapGet h.UserPositions (h.mem 0).UserID = some slowPosition ∧
        5000 ∈ h.Clients ∧ (h.mem 0).SessionID = "") ∧
    (∃ h h', FreshRegistrations busyRun ∧ NewHub.run busyRun = Except.ok h ∧
        1025 ∈ h.Clients ∧ 0 ∈ h.Clients ∧ (h.mem 0).SessionID = (h.mem 1025).SessionID ∧
        h.onUnregister 1025 = Except.ok h' ∧ (h'.mem 0).Send.buf = (h.mem 0).Send.buf ∧
        0 ∉ h'.Clients) := by
  obtain ⟨h0, hrun0, hs0⟩ := staleFirst_run
  obtain ⟨h1, h2, hrun1, hm0, hm1, hsid, hun, hrun2, hcl, hups, hclosed, hbuf, huid, hsid0⟩ :=
    cycles_overflow staleFirst h0 [("a", slowPosition)] hrun0 hs0 (by decide) (by decide)
  constructor
  · have hreg : h2.onRegister 5000 (newClient "c" "") none [] []
        = Except.ok (h2.registered 5000 (newClient "c" "") none []) := by
      apply onRegister_ok
      · rfl
      · simp [newClient, replay_length, eventsReplay, hups]
    refine ⟨h2.registered 5000 (newClient "c" "") none [], stale_fresh 1025 5000 "c" (by decide),
      ?_, stale_stillRegistered 1025 5000 "c", ?_, ?_, ?_, ?_⟩
    · rw [staleRun, run_append, hrun2]
      simp only [Hub.run, Hub.act, Hub.step, ServeWs, hreg]
    · apply onUnregister_absent
      simp [Hub.registered, hcl]
    · simp [Hub.registered, huid, hups, mapGet]
    · simp [Hub.registered, hcl]
    · simp [Hub.registered, hsid0]
  · refine ⟨h1, h2, stale_fresh 1024 1025 "b" (by decide), hrun1, hm1, hm0, hsid, hun, hbuf, ?_⟩
    simp [hcl]

/-- C7, amended. In every reachable hub state, processing `Unregister(conn)`
for a connection that is in the live set yields a hub in which `conn` is not
live and the position cache has no entry for the user of `conn`; the `leave`
message for that user is appended to the queue of every other live connection
in scope whose queue has room (the scope is the session of `conn` when it has
one, every live connection otherwise), a connection in scope whose queue is
full is closed and dropped instead, and no other connection changes. -/
theorem unregister_effect (h : Hub) (conn : Ptr) (hr : Reachable h) (hlive : conn ∈ h.Clients) :
    ∃ h', h.onUnregister conn = Except.ok h' ∧ conn ∉ h'.Clients ∧
      mapGet h'.UserPositions (h.mem conn).UserID = none ∧
      (∀ q, q ∈ h.Clients → q ≠ conn →
        ((h.mem conn).SessionID = "" ∨ (h.mem q).SessionID = (h.mem conn).SessionID) →
        (h.mem q).Send.hasRoom = true →
          (h'.mem q).Send.buf = (h.mem q).Send.buf ++ [leaveMessage (h.mem conn).UserID] ∧
            q ∈ h'.Clients) ∧
      (∀ q, q ∈ h.Clients → q ≠ conn →
        ((h.mem conn).SessionID = "" ∨ (h.mem q).SessionID = (h.mem conn).SessionID) →
        (h.mem q).Send.hasRoom = false →
          (h'.mem q).Send.buf = (h.mem q).Send.buf ∧ (h'.mem q).Send.closed = true ∧
            q ∉ h'.Clients) ∧
      (∀ q, q ≠ conn →
        ¬ (q ∈ h.Clients ∧
          ((h.mem conn).SessionID = "" ∨ (h.mem q).SessionID = (h.mem conn).SessionID)) →
          h'.mem q = h.mem q) := by
  have hwf := reachable_wf h hr
  refine ⟨_, onUnregister_live h conn hwf hlive, ?_, ?_, ?_, ?_, ?_⟩
  · intro hin
    have := ((fanout_mem_live _ _ _ conn).mp hin).1
    exact ((removed_live h conn conn).mp this).2 rfl
  · exact mapGet_mapDelete_same _ _
  · intro q hq hne hscope hroom
    have := fanout_room (h.removed conn) (h.leaveScope conn) (leaveMessage (h.mem conn).UserID) q
      ((removed_live h conn q).mpr ⟨hq, hne⟩) ((leaveScope_iff h conn q hne).mpr hscope)
      (by rw [removed_mem_other h conn q hne]; exact hroom)
    exact ⟨by rw [this.1, removed_mem_other h conn q hne], this.2⟩
  · intro q hq hne hscope hroom
    have := fanout_full (h.removed conn) (h.leaveScope conn) (leaveMessage (h.mem conn).UserID) q
      ((removed_live h conn q).mpr ⟨hq, hne⟩) ((leaveScope_iff h conn q hne).mpr hscope)
      (by rw [removed_mem_other h conn q hne]; exact hroom)
    exact ⟨by rw [this.1, removed_mem_other h conn q hne], by rw [this.1], this.2⟩
  · intro q hne hn
    have := fanout_other (h.removed conn) (h.leaveScope conn) (leaveMessage (h.mem conn).UserID) q
      (fun hc => hn ⟨((removed_live h conn q).mp hc.1).1, (leaveScope_iff h conn q hne).mp hc.2⟩)
    rw [this.1, removed_mem_other h conn q hne]

set_option maxRecDepth 100000 in
theorem unregister_effect_witness :
    Reachable (stateAfter (NewHub.run demoPre)) ∧
      1 ∈ (stateAfter (NewHub.run demoPre)).Clients ∧
      ∃ h', (stateAfter (NewHub.run demoPre)).onUnregister 1 = Except.ok h' ∧ 1 ∉ h'.Clients ∧
        mapGet h'.UserPositions ((stateAfter (NewHub.run demoPre)).mem 1).UserID = none :=
  ⟨⟨demoPre, ⟨by decide, by decide⟩, rfl⟩, by decide,
    match unregister_effect (stateAfter (NewHub.run demoPre)) 1
      ⟨demoPre, ⟨by decide, by decide⟩, rfl⟩ (by decide) with
    | ⟨h', h1, h2, h3, _⟩ => ⟨h', h1, h2, h3⟩⟩

/-- C9, as stated, fails: the host `c` of session `s1` sends `start_game` for
it; the `session_update` message is appended to the queue of connection `2`,
whose scope is the global scope `""` and not `s1`. -/
theorem session_update_counterexample :
    ∃ s bm h', mapGet lobby.sessions "s1" = some s ∧ s.ID = "s1" ∧ s.HostID = "c" ∧
      (lobby.HandleMessage "start_game" [("sessionId", JVal.str "s1")] "c" "" 0).sent = [bm] ∧
      hubGame.WF ∧ hubGame.onBroadcast bm = Except.ok h' ∧
      2 ∈ hubGame.Clients ∧ (hubGame.mem 2).SessionID ≠ s.ID ∧
      (h'.mem 2).Send.buf = [bm.Message] := by
  refine ⟨{ ID := "s1", HostID := "c", GameType := "PROXIMITY_TAG", State := GameStateLobby
            Players := ["c"], CreatedAt := 0 },
    broadcastSessionUpdate { ID := "s1", HostID := "c", GameType := "PROXIMITY_TAG"
                             State := GameStatePlaying, Players := ["c"], CreatedAt := 0 },
    _, by decide, rfl, rfl, by decide, hubGame_wf,
    broadcastMessage_eq hubGame _ none hubGame_wf, by decide, by decide, ?_⟩
  have := fanout_room hubGame (notExcluded none)
    (broadcastSessionUpdate { ID := "s1", HostID := "c", GameType := "PROXIMITY_TAG"
                              State := GameStatePlaying, Players := ["c"], CreatedAt := 0 }).Message
    2 (by decide) (by decide) (by decide)
  rw [this.1]
  rfl

/-- C9, amended. When the host of a session sends `start_game` for it, the
session manager hands one `session_update` message carrying the session with
`State = PLAYING` to the hub, and the hub delivers it as a global message: in a
hub whose live connections have open queues it is appended to the queue of
every live connection whose queue has room, whatever its `SessionID`; a live
connection whose queue is full is closed and dropped instead; connections that
are not live are unchanged. -/
theorem session_update_global (sm : SessionManager) (h : Hub) (payload : JObj)
    (s : GameSession) (userID id : String) (now : Nat)
    (hs : mapGet sm.sessions (stringOrZero payload "sessionId") = some s)
    (hhost : userID = s.HostID) (hwf : h.WF) :
    ∃ bm h', (sm.HandleMessage "start_game" payload userID id now).sent = [bm] ∧
      bm = broadcastSessionUpdate { s with State := GameStatePlaying } ∧
      h.onBroadcast bm = Except.ok h' ∧
      (∀ q ∈ h.Clients, (h.mem q).Send.hasRoom = true →
        (h'.mem q).Send.buf = (h.mem q).Send.buf ++ [bm.Message] ∧ q ∈ h'.Clients) ∧
      (∀ q ∈ h.Clients, (h.mem q).Send.hasRoom = false →
        (h'.mem q).Send.buf = (h.mem q).Send.buf ∧ (h'.mem q).Send.closed = true ∧
          q ∉ h'.Clients) ∧
      (∀ q, q ∉ h.Clients → h'.mem q = h.mem q) := by
  refine ⟨broadcastSessionUpdate { s with State := GameStatePlaying }, _, ?_, rfl,
    broadcastMessage_eq h _ none hwf, ?_, ?_, ?_⟩
  · have h1 : ¬ ("start_game" = "create_session") := by decide
    have h2 : ¬ ("start_game" = "join_session") := by decide
    simp only [SessionManager.HandleMessage, h1, h2, if_false, if_true,
      SessionManager.StartGame, hs, hhost, ne_eq, not_true_eq_false]
  · intro q hq hroom
    have := fanout_room h (notExcluded none)
      (broadcastSessionUpdate { s with State := GameStatePlaying }).Message q hq
      (by simp [notExcluded]) hroom
    exact ⟨by rw [this.1], this.2⟩
  · intro q hq hroom
    have := fanout_full h (notExcluded none)
      (broadcastSessionUpdate { s with State := GameStatePlaying }).Message q hq
      (by simp [notExcluded]) hroom
    exact ⟨by rw [this.1], by rw [this.1], this.2⟩
  · intro q hq
    exact (fanout_other h (notExcluded none)
      (broadcastSessionUpdate { s with State := GameStatePlaying }).Message q
      (fun hc => hq hc.1)).1

theorem session_update_global_witness :
    mapGet lobby.sessions (stringOrZero [("sessionId", JVal.str "s1")] "sessionId")
        = some { ID := "s1", HostID := "c", GameType := "PROXIMITY_TAG", State := GameStateLobby
                 Players := ["c"], CreatedAt := 0 } ∧
      hubGame.WF ∧
      ∃ bm h', (lobby.HandleMessage "start_game" [("sessionId", JVal.str "s1")] "c" "" 0).sent
          = [bm] ∧ hubGame.onBroadcast bm = Except.ok h' :=
  ⟨by decide, hubGame_wf,
    match session_update_global lobby hubGame [("sessionId", JVal.str "s1")]
      { ID := "s1", HostID := "c", GameType := "PROXIMITY_TAG", State := GameStateLobby
        Players := ["c"], CreatedAt := 0 } "c" "" 0 (by decide) rfl hubGame_wf with
    | ⟨bm, h', h1, _, h3, _⟩ => ⟨bm, h', h1, h3⟩⟩

/-- C5, as stated, fails: the hub processes a `move` envelope whose `userId` is
the empty string; afterwards the cache has no entry for that userID. -/
theorem position_cache_counterexample :
    unmarshal anonMove = some { Typ := "move", Payload := Payload.object anonPosition } ∧
      mapGet anonPosition "userId" = some (JVal.str "") ∧ hubAB.WF ∧
      ∃ h', hubAB.onBroadcast { Message := anonMove, Exclude := some 1 } = Except.ok h' ∧
        mapGet h'.UserPositions "" = none := by
  refine ⟨rfl, by decide, hubAB_wf, ?_⟩
  obtain ⟨h', hrun, hups⟩ := onBroadcast_positions hubAB { Message := anonMove, Exclude := some 1 }
    { Typ := "move", Payload := Payload.object anonPosition } hubAB_wf rfl (by decide)
  refine ⟨h', hrun, ?_⟩
  rw [hups]
  decide

/-- C5, amended. The position cache is last-write-wins per non-empty userID.
In a hub whose live connections have open queues, the hub loop processes every
`move` envelope whose payload is an object with a string `userId` `U`. When `U`
is the empty string the cache is unchanged. When it is not, the cache entry
for `U` is afterwards that payload, the entries for other userIDs are
unchanged and the cache still holds at most one entry per userID; as long as
the hub processes no other `move` for `U`, the entry for `U` stays that payload
or is deleted (by the `Unregister` of a connection of that user), so that a
replay visits no other payload for `U`. The replay to
a connection registered later with a fresh queue, while no reader runs
`HandleCreateEvent`, visits the cache in an order the runtime chooses, each
entry once, and sends after the optional `events_list` message one `move`
message per cached entry, carrying the cached payload: the registration
returns with the queue holding these messages, less the first ones that the
writer has received meanwhile, or the hub stays parked because the replay
outgrows the queue; it returns whenever the writer receives before each send. -/
theorem position_cache_last_write (h : Hub) (bm : BroadcastMessage) (payload : JObj) (U : String)
    (hwf : h.WF)
    (hmsg : unmarshal bm.Message = some { Typ := "move", Payload := Payload.object payload })
    (huser : mapGet payload "userId" = some (JVal.str U)) :
    ∃ h1, h.onBroadcast bm = Except.ok h1 ∧
      (U = "" → h1.UserPositions = h.UserPositions) ∧
      (U ≠ "" →
        mapGet h1.UserPositions U = some payload ∧
        (∀ V, V ≠ U → mapGet h1.UserPositions V = mapGet h.UserPositions V) ∧
        ((mapKeys h.UserPositions).Nodup → (mapKeys h1.UserPositions).Nodup) ∧
        ∀ (mid : List Action) (h2 : Hub), h1.run mid = Except.ok h2 →
          (∀ a ∈ mid, a.movesUser U = false) →
          (mapGet h2.UserPositions U = some payload ∨ mapGet h2.UserPositions U = none) ∧
          ((mapKeys h.UserPositions).Nodup → (mapKeys h2.UserPositions).Nodup ∧
            ∀ (order : List (String × JObj)) (v : JObj),
              (U, v) ∈ visitOrder h2.UserPositions order → v = payload) ∧
          ∀ (c : Ptr) (obj : Client) (stored : Option (List VoxelEvent))
            (order : List (String × JObj)) (sched : Schedule),
            obj.Send.closed = false → obj.Send.buf = [] → Schedule.calm sched = true →
            (visitOrder h2.UserPositions order).Perm h2.UserPositions ∧
            ((h2.onRegister c obj stored order sched = Except.error Halt.blocked ∧
                obj.Send.cap < (eventsReplay stored).length + h2.UserPositions.length) ∨
              ∃ g K, h2.onRegister c obj stored order sched = Except.ok g ∧
                g.UserPositions = h2.UserPositions ∧ K ≤ Schedule.receives sched c ∧
                (g.mem c).Send.buf = (eventsReplay stored ++
                  (visitOrder h2.UserPositions order).map
                    (fun kv => marshal { Typ := "move", Payload := Payload.object kv.2 })).drop
                    K) ∧
            (0 < obj.Send.cap →
              ∀ n, (eventsReplay stored).length + h2.UserPositions.length ≤ n →
                ∃ g, h2.onRegister c obj stored order (List.replicate n [EnvAction.writerRecv c])
                  = Except.ok g)) := by
  obtain ⟨h1, hrun, hups⟩ := onBroadcast_positions h bm _ hwf hmsg
    (show isScopedType "move" = true from by decide)
  refine ⟨h1, hrun, ?_, ?_⟩
  · intro hU
    rw [hups]
    simp [Hub.cacheMove, huser, hU]
  · intro hU
    rw [cacheMove_set h payload U huser hU] at hups
    simp only at hups
    have hget : mapGet h1.UserPositions U = some payload := by
      rw [hups]
      exact mapGet_mapSet_same _ _ _
    have hnd1 : (mapKeys h.UserPositions).Nodup → (mapKeys h1.UserPositions).Nodup := by
      intro hnd
      rw [hups]
      exact mapKeys_mapSet_nodup _ _ _ hnd
    refine ⟨hget, ?_, hnd1, ?_⟩
    · intro V hV
      rw [hups]
      exact mapGet_mapSet_other _ _ _ _ hV
    · intro mid h2 hmid hno
      have hkeep := run_keeps mid U payload h1 h2 hmid hno (Or.inl hget)
      refine ⟨hkeep, fun hnd => ⟨run_cache_nodup mid h1 h2 (hnd1 hnd) hmid, ?_⟩, ?_⟩
      · intro order v hin
        have hin2 : (U, v) ∈ h2.UserPositions :=
          (visitOrder_perm h2.UserPositions order).mem_iff.mp hin
        have hv := mapGet_of_mem h2.UserPositions U v
          (run_cache_nodup mid h1 h2 (hnd1 hnd) hmid) hin2
        rcases hkeep with hk | hk
        · rw [hk] at hv
          exact (Option.some.inj hv).symm
        · rw [hk] at hv
          cases hv
      intro c obj stored order sched hopen hempty hcalm
      refine ⟨visitOrder_perm _ _, ?_, ?_⟩
      · rcases onRegister_calm h2 c obj stored order sched hcalm hopen with
          ⟨hb, hfull⟩ | ⟨g, K, hok, hs, hK, hbuf⟩
        · left
          rw [replay_length, hempty] at hfull
          exact ⟨hb, by simpa using hfull⟩
        · right
          refine ⟨g, K, hok, hs.2.1, hK, ?_⟩
          rw [hbuf, hempty]
          rfl
      · intro hcap n hn
        rw [onRegister_eq]
        obtain ⟨g, hg⟩ := sendAll_draining c (h2.replay stored order) (h2.add c obj) n
          (add_open h2 c obj hopen) (by simpa [Hub.add] using hcap)
          (by simp [Hub.add, hempty]) (by rw [replay_length]; exact hn)
        rw [hg]
        exact ⟨g, rfl⟩

theorem position_cache_last_write_witness :
    hubAB.WF ∧
      ∃ h1, hubAB.onBroadcast { Message := moveOfA, Exclude := some 1 } = Except.ok h1 ∧
        mapGet h1.UserPositions "A"
          = some [("userId", JVal.str "A"), ("x", JVal.num 1), ("y", JVal.num 2)] ∧
        ∀ h2, h1.run [Action.hub (Event.unregister 2)] = Except.ok h2 →
          ∃ g, h2.onRegister 3 (newClient "C" "") none []
            (List.replicate h2.UserPositions.length [EnvAction.writerRecv 3]) = Except.ok g :=
  ⟨hubAB_wf,
    match position_cache_last_write hubAB { Message := moveOfA, Exclude := some 1 }
      [("userId", JVal.str "A"), ("x", JVal.num 1), ("y", JVal.num 2)] "A" hubAB_wf rfl
      (by decide) with
    | ⟨h1, hrun, _, hrest⟩ =>
      ⟨h1, hrun, (hrest (by decide)).1, fun h2 hmid =>
        (((hrest (by decide)).2.2.2 [Action.hub (Event.unregister 2)] h2 hmid
          (by decide)).2.2 3 (newClient "C" "") none [] [] rfl rfl rfl).2.2 (by decide)
          h2.UserPositions.length (by simp [eventsReplay])⟩⟩

/-- C2. For a session manager in which `sessionID` names the session `s`:
`StartGame(sessionID, userID)` returns a session whose `State` is `PLAYING` if
and only if `userID` is the `HostID` of `s`; for the host it returns `s` with
only `State` changed and stores it under `sessionID`; for any other user it
returns nil, sends nothing and leaves the whole manager (this session and every
other one) unchanged. -/
theorem startGame_host_only (sm : SessionManager) (sessionID userID : String) (s : GameSession)
    (hs : mapGet sm.sessions sessionID = some s) :
    ((∃ r, (sm.StartGame sessionID userID).ret = some r ∧ r.State = GameStatePlaying)
        ↔ userID = s.HostID) ∧
    (userID = s.HostID →
      (sm.StartGame sessionID userID).ret = some { s with State := GameStatePlaying } ∧
      mapGet (sm.StartGame sessionID userID).sm.sessions sessionID
        = some { s with State := GameStatePlaying } ∧
      ∀ other, other ≠ sessionID →
        mapGet (sm.StartGame sessionID userID).sm.sessions other = mapGet sm.sessions other) ∧
    (userID ≠ s.HostID →
      sm.StartGame sessionID userID = { sm := sm, ret := none, sent := [] }) := by
  by_cases hhost : s.HostID = userID
  · have hret : (sm.StartGame sessionID userID).ret = some { s with State := GameStatePlaying } := by
      simp [SessionManager.StartGame, hs, hhost]
    refine ⟨⟨fun _ => hhost.symm, fun _ => ⟨_, hret, rfl⟩⟩, fun _ => ⟨hret, ?_, ?_⟩,
      fun hne => absurd hhost.symm hne⟩
    · simp [SessionManager.StartGame, hs, hhost, mapGet_mapSet_same]
    · intro other hother
      simp [SessionManager.StartGame, hs, hhost, mapGet_mapSet_other _ _ _ _ hother]
  · have hnone : sm.StartGame sessionID userID = { sm := sm, ret := none, sent := [] } := by
      simp [SessionManager.StartGame, hs, hhost]
    refine ⟨⟨?_, fun h => absurd h.symm hhost⟩, fun h => absurd h.symm hhost, fun _ => hnone⟩
    rintro ⟨r, hr, _⟩
    rw [hnone] at hr
    cases hr

theorem startGame_host_only_witness :
    mapGet lobby.sessions "s1"
        = some { ID := "s1", HostID := "c", GameType := "PROXIMITY_TAG", State := GameStateLobby
                 Players := ["c"], CreatedAt := 0 } ∧
      (lobby.StartGame "s1" "c").ret
        = some { ID := "s1", HostID := "c", GameType := "PROXIMITY_TAG"
                 State := GameStatePlaying, Players := ["c"], CreatedAt := 0 } ∧
      lobby.StartGame "s1" "e" = { sm := lobby, ret := none, sent := [] } :=
  ⟨by decide,
    ((startGame_host_only lobby "s1" "c"
      { ID := "s1", HostID := "c", GameType := "PROXIMITY_TAG", State := GameStateLobby
        Players := ["c"], CreatedAt := 0 } (by decide)).2.1 rfl).1,
    (startGame_host_only lobby "s1" "e"
      { ID := "s1", HostID := "c", GameType := "PROXIMITY_TAG", State := GameStateLobby
        Players := ["c"], CreatedAt := 0 } (by decide)).2.2 (by decide)⟩

/-- C3. `JoinSession` is idempotent: calling `JoinSession(sessionID, userID)`
a second time right after the first leaves the whole manager, hence the
`Players` list of the session and its length, as the first call left it,
returns the same session and sends nothing; and a `JoinSession` whose `userID`
is already among the `Players` of the session changes nothing and sends
nothing. -/
theorem joinSession_idempotent (sm : SessionManager) (sessionID userID : String) :
    ((sm.JoinSession sessionID userID).sm.JoinSession sessionID userID).sm
        = (sm.JoinSession sessionID userID).sm ∧
    ((sm.JoinSession sessionID userID).sm.JoinSession sessionID userID).ret
        = (sm.JoinSession sessionID userID).ret ∧
    ((sm.JoinSession sessionID userID).sm.JoinSession sessionID userID).sent = [] ∧
    (∀ s, mapGet sm.sessions sessionID = some s → userID ∈ s.Players →
      sm.JoinSession sessionID userID = { sm := sm, ret := some s, sent := [] }) := by
  refine ⟨?_, ?_, ?_, fun s hs hin => joinSession_present sm sessionID userID s hs hin⟩
  all_goals
    cases hs : mapGet sm.sessions sessionID with
    | none => simp [SessionManager.JoinSession, hs]
    | some s =>
      by_cases hin : userID ∈ s.Players
      · rw [joinSession_present sm sessionID userID s hs hin]
        simp only []
        rw [joinSession_present sm sessionID userID s hs hin]
      · have hfirst : sm.JoinSession sessionID userID =
            { sm := { sessions := mapSet sm.sessions sessionID
                        { s with Players := s.Players ++ [userID] } }
              ret := some { s with Players := s.Players ++ [userID] }
              sent := [broadcastSessionUpdate { s with Players := s.Players ++ [userID] }] } := by
          have : alreadyIn userID s.Players = false := by
            cases ha : alreadyIn userID s.Players with
            | false => rfl
            | true => exact absurd ((alreadyIn_iff userID s.Players).mp ha) hin
          simp [SessionManager.JoinSession, hs, this]
        rw [hfirst]
        simp only []
        rw [joinSession_present _ sessionID userID { s with Players := s.Players ++ [userID] }
          (mapGet_mapSet_same _ _ _) (by simp)]

theorem joinSession_idempotent_witness :
    mapGet lobby.sessions "s1"
        = some { ID := "s1", HostID := "c", GameType := "PROXIMITY_TAG", State := GameStateLobby
                 Players := ["c"], CreatedAt := 0 } ∧
      ((lobby.JoinSession "s1" "d").sm.JoinSession "s1" "d").sm = (lobby.JoinSession "s1" "d").sm ∧
      lobby.JoinSession "s1" "c"
        = { sm := lobby
            ret := some { ID := "s1", HostID := "c", GameType := "PROXIMITY_TAG"
                          State := GameStateLobby, Players := ["c"], CreatedAt := 0 }
            sent := [] } :=
  ⟨by decide, (joinSession_idempotent lobby "s1" "d").1,
    (joinSession_idempotent lobby "s1" "c").2.2.2 _ (by decide) (by decide)⟩

/-- C8: the code faults where the claim asks for a validation error. For
every `create_event` frame whose payload is an object that lacks one of the
eight fields, or carries it with another type than the one asserted,
`Hub.HandleCreateEvent` panics on the unchecked type assertion, and so does
the iteration of the read loop that called it: no error is produced for the
sender and the loop does not go on to the next frame. -/
theorem create_event_malformed_faults (w : World) (c : Ptr) (o : Outside) (payload : JObj)
    (k : String) (hk : k ∈ createEventFields) (hbad : wellTyped payload k = false) :
    w.hub.HandleCreateEvent payload o.t1 o.t2 o.inserted = Except.error Halt.typeAssertion ∧
      readPumpFrame w c (marshal { Typ := "create_event", Payload := Payload.object payload }) o
        = Except.error Halt.typeAssertion := by
  have hparse := parseVoxelEvent_halt payload o.t1 o.t2 k hk hbad
  have hhandle : w.hub.HandleCreateEvent payload o.t1 o.t2 o.inserted
      = Except.error Halt.typeAssertion := by
    simp [Hub.HandleCreateEvent, hparse]
  refine ⟨hhandle, ?_⟩
  have h1 : isScopedType "create_event" = false := by decide
  simp [readPumpFrame, unmarshal, marshal, decodePayload, h1, hhandle]

theorem create_event_malformed_faults_witness :
    "title" ∈ createEventFields ∧ wellTyped [] "title" = false ∧
      readPumpFrame worldAB 1 emptyCreateEvent outside0 = Except.error Halt.typeAssertion :=
  ⟨by decide, by decide,
    (create_event_malformed_faults worldAB 1 outside0 [] "title" (by decide) (by decide)).2⟩

end Voxel
